import Mathlib

/-!
PKI registry aggregation (`pkg/certs/utils.go`)

A shallow embedding of the aggregation engine of `pkg/certs/utils.go`:

* Go maps are finite association lists with pairwise distinct keys (`GoMap`);
  `m[k]`, `v, ok := m[k]` and `m[k] = v` become `GoMap.index`, `GoMap.get?` and
  `GoMap.set`.
* `json.Unmarshal`, `filepath.WalkDir`, `os.ReadFile` and `embed.FS` are
  library code; they appear as parameters (`unmarshal`, `DirFS`, `EmbedFS`).
* The metadata types `PKIRegistryCertKeyPairInfo` and
  `PKIRegistryCertificateAuthorityInfo` are type parameters `CKI` and `CAI`
  with decidable equality (`reflect.DeepEqual`) and a zero value.
* A mutated map argument is returned as part of the result.
* From `test/extended/operators/certs.go`: `pruneSystemTrust` and the message
  list of the test "all tls artifacts must be known". The lookups of
  `certgraphutils` and the failure message of the gomega `Equal` matcher are
  library code and appear as parameters; so does the order in which each
  `range` statement visits a map (`RangeOrder`).
-/

namespace Certs

/-! ## Go maps -/

/-- Entry lookup in an association list: the first entry stored under `k`. -/
def getEntries {K V : Type} [DecidableEq K] (k : K) : List (K × V) → Option V
  | [] => none
  | (k', v') :: t => if k' = k then some v' else getEntries k t

/-- Entry assignment in an association list: the entry stored under `k` is
replaced in place, a fresh key is added at the end. -/
def setEntries {K V : Type} [DecidableEq K] (k : K) (v : V) : List (K × V) → List (K × V)
  | [] => [(k, v)]
  | (k', v') :: t => if k' = k then (k, v) :: t else (k', v') :: setEntries k v t

theorem map_fst_setEntries_of_mem {K V : Type} [DecidableEq K] (k : K) (v : V) :
    ∀ (l : List (K × V)), k ∈ l.map Prod.fst → (setEntries k v l).map Prod.fst = l.map Prod.fst
  | [], h => by simp at h
  | (k', v') :: t, h => by
    by_cases hk : k' = k
    · simp [setEntries, hk]
    · have ht : k ∈ t.map Prod.fst := by
        simp only [List.map_cons, List.mem_cons] at h
        rcases h with h | h
        · exact absurd h.symm hk
        · exact h
      simp [setEntries, hk, map_fst_setEntries_of_mem k v t ht]

theorem map_fst_setEntries_of_not_mem {K V : Type} [DecidableEq K] (k : K) (v : V) :
    ∀ (l : List (K × V)), k ∉ l.map Prod.fst → (setEntries k v l).map Prod.fst = l.map Prod.fst ++ [k]
  | [], _ => by simp [setEntries]
  | (k', v') :: t, h => by
    simp only [List.map_cons, List.mem_cons, not_or] at h
    have hk : ¬ k' = k := fun e => h.1 e.symm
    simp [setEntries, hk, map_fst_setEntries_of_not_mem k v t h.2]

theorem nodup_setEntries {K V : Type} [DecidableEq K] (k : K) (v : V) (l : List (K × V))
    (h : (l.map Prod.fst).Nodup) : ((setEntries k v l).map Prod.fst).Nodup := by
  by_cases hk : k ∈ l.map Prod.fst
  · rw [map_fst_setEntries_of_mem k v l hk]; exact h
  · rw [map_fst_setEntries_of_not_mem k v l hk]
    exact List.Nodup.append h (List.nodup_singleton k) (by
      intro a ha hb
      simp only [List.mem_singleton] at hb
      exact hk (hb ▸ ha))

/-- A Go `map[K]V`: finitely many entries, no key twice. The order of
`entries` is the order in which `UnsortedList` happens to enumerate the keys. -/
structure GoMap (K V : Type) where
  entries : List (K × V)
  nodup : (entries.map Prod.fst).Nodup

namespace GoMap

variable {K V : Type}

/-- The Go literal `map[K]V{}`. -/
def empty : GoMap K V := ⟨[], List.nodup_nil⟩

/-- The Go expression `v, ok := m[k]`: `none` stands for `ok == false`. -/
def get? [DecidableEq K] (m : GoMap K V) (k : K) : Option V := getEntries k m.entries

/-- The Go expression `m[k]`: the zero value when `k` is absent. -/
def index [DecidableEq K] [Inhabited V] (m : GoMap K V) (k : K) : V := (m.get? k).getD default

/-- The Go statement `m[k] = v`. -/
def set [DecidableEq K] (m : GoMap K V) (k : K) (v : V) : GoMap K V :=
  ⟨setEntries k v m.entries, nodup_setEntries k v m.entries m.nodup⟩

/-- The Go expression `sets.KeySet(m).UnsortedList()`. -/
def keys (m : GoMap K V) : List K := m.entries.map Prod.fst

end GoMap

/-! ## Data model (`certgraphapi`) -/

/-- A Go `[]byte`. -/
abbrev Bytes := List Nat

/-- The type `certgraphapi.InClusterSecretLocation`. -/
structure InClusterSecretLocation where
  Namespace : String
  Name : String
deriving DecidableEq, Repr

/-- The type `certgraphapi.InClusterConfigMapLocation`. -/
structure InClusterConfigMapLocation where
  Namespace : String
  Name : String
deriving DecidableEq, Repr

/-- The type `certgraphapi.PKIRegistryInClusterCertKeyPair`. -/
structure PKIRegistryInClusterCertKeyPair (CKI : Type) where
  SecretLocation : InClusterSecretLocation
  CertKeyInfo : CKI
deriving DecidableEq, Repr

/-- The type `certgraphapi.PKIRegistryInClusterCABundle`. -/
structure PKIRegistryInClusterCABundle (CAI : Type) where
  ConfigMapLocation : InClusterConfigMapLocation
  CABundleInfo : CAI
deriving DecidableEq, Repr

/-- The type `certgraphapi.PKIRegistryInfo`: the exported registry, and the
`InClusterResourceData` field of a snapshot document. -/
structure PKIRegistryInfo (CKI CAI : Type) where
  CertKeyPairs : List (PKIRegistryInClusterCertKeyPair CKI)
  CertificateAuthorityBundles : List (PKIRegistryInClusterCABundle CAI)
deriving DecidableEq, Repr

/-- The type `certgraphapi.CertIdentifier`. Its `Issuer` field is a pointer to
another `CertIdentifier`: `root` is the value with a nil `Issuer`, `issued` the
value whose `Issuer` points to the given identifier. -/
inductive CertIdentifier where
  | root (CommonName SerialNumber : String) : CertIdentifier
  | issued (CommonName SerialNumber : String) (Issuer : CertIdentifier) : CertIdentifier
deriving DecidableEq, Repr

/-- The field `CommonName` of a `CertIdentifier`. -/
def CertIdentifier.CommonName : CertIdentifier → String
  | .root cn _ => cn
  | .issued cn _ _ => cn

/-- The field `SerialNumber` of a `CertIdentifier`. -/
def CertIdentifier.SerialNumber : CertIdentifier → String
  | .root _ sn => sn
  | .issued _ sn _ => sn

/-- The field `Issuer` of a `CertIdentifier`: `none` is the nil pointer. -/
def CertIdentifier.Issuer : CertIdentifier → Option CertIdentifier
  | .root _ _ => none
  | .issued _ _ i => some i

/-- The field of `certgraphapi.CertKeyMetadata` that `pruneSystemTrust` sets;
its other fields are left at their zero values there and are not read. -/
structure CertKeyMetadata where
  CertIdentifier : CertIdentifier
deriving DecidableEq, Repr

/-- The field of `certgraphapi.CertificateAuthorityBundleSpec` that
`pruneSystemTrust` reads and writes. -/
structure CertificateAuthorityBundleSpec where
  CertificateMetadata : List CertKeyMetadata
deriving DecidableEq, Repr

/-- The fields of `certgraphapi.CertificateAuthorityBundle` that
`pruneSystemTrust` reads and writes. -/
structure CertificateAuthorityBundle where
  LogicalName : String
  Name : String
  Spec : CertificateAuthorityBundleSpec
deriving DecidableEq, Repr

/-- The type `certgraphapi.CertificateAuthorityBundleList`. -/
structure CertificateAuthorityBundleList where
  Items : List CertificateAuthorityBundle
deriving DecidableEq, Repr

/-- The fields of `certgraphapi.PKIList` that `parsePKIInfo`, the test and
`pruneSystemTrust` read. -/
structure PKIList (CKI CAI : Type) where
  InClusterResourceData : PKIRegistryInfo CKI CAI
  CertificateAuthorityBundles : CertificateAuthorityBundleList := ⟨[]⟩
deriving DecidableEq, Repr

/-- The type `SecretInfoByNamespaceName`. -/
abbrev SecretInfoByNamespaceName (CKI : Type) := GoMap InClusterSecretLocation CKI

/-- The type `ConfigMapInfoByNamespaceName`. -/
abbrev ConfigMapInfoByNamespaceName (CAI : Type) := GoMap InClusterConfigMapLocation CAI

/-! ## Sorting -/

/-- Lexicographic comparison of two character sequences, character by
character. -/
def charsLess : List Char → List Char → Bool
  | _, [] => false
  | [], _ :: _ => true
  | x :: xs, y :: ys =>
    if x < y then true else if y < x then false else charsLess xs ys

/-- The Go comparison `a < b` on strings (lexicographic). -/
def stringLess (a b : String) : Bool := charsLess a.data b.data


/-- Modelled from the spec: `SecretRefByNamespaceName.Less` is declared outside
the given sources; the rule is "compare namespace lexicographically; on tie,
compare name lexicographically". -/
def SecretRefByNamespaceName.Less (a b : InClusterSecretLocation) : Bool :=
  if stringLess a.Namespace b.Namespace then true
  else if stringLess b.Namespace a.Namespace then false
  else stringLess a.Name b.Name

/-- Modelled from the spec: `ConfigMapRefByNamespaceName.Less` is declared
outside the given sources; same rule as for secrets. -/
def ConfigMapRefByNamespaceName.Less (a b : InClusterConfigMapLocation) : Bool :=
  if stringLess a.Namespace b.Namespace then true
  else if stringLess b.Namespace a.Namespace then false
  else stringLess a.Name b.Name

/-- The order "not after" that a `Less` function induces: `sort.Sort` places
`a` before `b` unless `less b a`. -/
def notAfter {K : Type} (less : K → K → Bool) (a b : K) : Prop := less b a = false

instance {K : Type} (less : K → K → Bool) : DecidableRel (notAfter less) :=
  fun a b => inferInstanceAs (Decidable (less b a = false))

/-- The call `sort.Sort(data)` for a slice whose `Less` is `less`, as an
insertion sort. On pairwise distinct keys under a strict total `less` every
correct sorting routine returns this list. -/
def sortSort {K : Type} (less : K → K → Bool) (keys : List K) : List K :=
  List.insertionSort (notAfter less) keys

/-- A `Less` function that is a strict total order. -/
structure StrictTotal {K : Type} (less : K → K → Bool) : Prop where
  irrefl : ∀ a, less a a = false
  trans : ∀ a b c, less a b = true → less b c = true → less a c = true
  total : ∀ a b, a ≠ b → less a b = true ∨ less b a = true

/-! ## The merger (`parsePKIInfo`) -/

/-- A Go `error`: `none` is `nil`. -/
abbrev GoError := Option String

/-- One of the two record loops of `parsePKIInfo` (lines 79-87 and 88-96):
for each record, look the location up; a present and structurally different
value returns the mismatch error at once, otherwise the record is stored.
`key` and `val` select the location and the info of a record. The map is
returned as it stands when the loop ends or returns. -/
def mergeLoop {R K V : Type} [DecidableEq K] [DecidableEq V] (key : R → K) (val : R → V) :
    GoMap K V → List R → GoMap K V × GoError
  | m, [] => (m, none)
  | m, r :: rest =>
    match m.get? (key r) with
    | some existing =>
      if existing ≠ val r then (m, some "mismatch of certificate info")
      else mergeLoop key val (m.set (key r) (val r)) rest
    | none => mergeLoop key val (m.set (key r) (val r)) rest

/-- What `parsePKIInfo` leaves behind: the two maps it mutated and the error
it returned. -/
structure ParseResult (CKI CAI : Type) where
  certs : SecretInfoByNamespaceName CKI
  caBundles : ConfigMapInfoByNamespaceName CAI
  err : GoError

/-- The part of `parsePKIInfo` after a successful `json.Unmarshal`: the loop
over the certificate records, then the loop over the CA-bundle records. -/
def mergePKIList {CKI CAI : Type} [DecidableEq CKI] [DecidableEq CAI]
    (currPKI : PKIList CKI CAI)
    (certs : SecretInfoByNamespaceName CKI) (caBundles : ConfigMapInfoByNamespaceName CAI) :
    ParseResult CKI CAI :=
  match mergeLoop PKIRegistryInClusterCertKeyPair.SecretLocation
      PKIRegistryInClusterCertKeyPair.CertKeyInfo certs
      currPKI.InClusterResourceData.CertKeyPairs with
  | (certs1, some e) => ⟨certs1, caBundles, some e⟩
  | (certs1, none) =>
    match mergeLoop PKIRegistryInClusterCABundle.ConfigMapLocation
        PKIRegistryInClusterCABundle.CABundleInfo caBundles
        currPKI.InClusterResourceData.CertificateAuthorityBundles with
    | (caBundles1, e) => ⟨certs1, caBundles1, e⟩

/-- The function `parsePKIInfo`. `unmarshal` is `json.Unmarshal` into a fresh
`PKIList`. -/
def parsePKIInfo {CKI CAI : Type} [DecidableEq CKI] [DecidableEq CAI]
    (unmarshal : Bytes → Except String (PKIList CKI CAI)) (currBytes : Bytes)
    (certs : SecretInfoByNamespaceName CKI) (caBundles : ConfigMapInfoByNamespaceName CAI) :
    ParseResult CKI CAI :=
  match unmarshal currBytes with
  | .error e => ⟨certs, caBundles, some e⟩
  | .ok currPKI => mergePKIList currPKI certs caBundles

/-! ## The exporter (`certsToRegistryInfo`) -/

/-- The function `certsToRegistryInfo`. -/
def certsToRegistryInfo {CKI CAI : Type} [Inhabited CKI] [Inhabited CAI]
    (certs : SecretInfoByNamespaceName CKI) (caBundles : ConfigMapInfoByNamespaceName CAI) :
    PKIRegistryInfo CKI CAI :=
  let certKeys := sortSort SecretRefByNamespaceName.Less certs.keys
  let caKeys := sortSort ConfigMapRefByNamespaceName.Less caBundles.keys
  { CertKeyPairs := certKeys.map fun key =>
      { SecretLocation := key, CertKeyInfo := certs.index key }
    CertificateAuthorityBundles := caKeys.map fun key =>
      { ConfigMapLocation := key, CABundleInfo := caBundles.index key } }

/-! ## The enumerators -/

/-- The call `filepath.Join(dir, name)` for clean, non-empty elements. -/
def filepathJoin (dir name : String) : String := dir ++ "/" ++ name

/-- The constant `rawTLSRootDir`. -/
def rawTLSRootDir : String := "raw-data"

/-- One invocation of the `filepath.WalkDir` callback: the `path` argument,
`d.Name()`, `d.IsDir()` and the `err` argument. -/
structure WalkEntry where
  path : String
  name : String
  isDir : Bool
  err : GoError
deriving DecidableEq, Repr

/-- The file system as `GetPKIInfoFromRawData` sees it: the callback
invocations `filepath.WalkDir` makes for a root (in walk order, as long as the
callback keeps returning nil) and `os.ReadFile`. -/
structure DirFS where
  walk : String → List WalkEntry
  readFile : String → Except String Bytes

/-- The loop of `filepath.WalkDir`: the callback runs on each entry in turn and
the first non-nil error it returns ends the walk and is the result. -/
def walkDir {S : Type} (fn : S → WalkEntry → S × GoError) : S → List WalkEntry → S × GoError
  | s, [] => (s, none)
  | s, e :: rest =>
    match fn s e with
    | (s1, some err) => (s1, some err)
    | (s1, none) => walkDir fn s1 rest

/-- The callback that `GetPKIInfoFromRawData` passes to `filepath.WalkDir`
(lines 27-42); the state is the pair of maps the closure captures. The value
returned by `parsePKIInfo` is dropped (line 40). -/
def walkFn {CKI CAI : Type} [DecidableEq CKI] [DecidableEq CAI]
    (unmarshal : Bytes → Except String (PKIList CKI CAI)) (fs : DirFS) (rawTLSInfoDir : String)
    (st : SecretInfoByNamespaceName CKI × ConfigMapInfoByNamespaceName CAI) (d : WalkEntry) :
    (SecretInfoByNamespaceName CKI × ConfigMapInfoByNamespaceName CAI) × GoError :=
  match d.err with
  | some err => (st, some err)
  | none =>
    if d.isDir then (st, none)
    else
      let filename := filepathJoin rawTLSInfoDir d.name
      match fs.readFile filename with
      | .error err => (st, some err)
      | .ok currBytes =>
        let r := parsePKIInfo unmarshal currBytes st.1 st.2
        ((r.certs, r.caBundles), none)

/-- The function `GetPKIInfoFromRawData`: the returned pair is
`(*PKIRegistryInfo, error)`, `none` standing for `nil` in either place. -/
def GetPKIInfoFromRawData {CKI CAI : Type} [DecidableEq CKI] [DecidableEq CAI]
    [Inhabited CKI] [Inhabited CAI]
    (unmarshal : Bytes → Except String (PKIList CKI CAI)) (fs : DirFS) (rawTLSInfoDir : String) :
    Option (PKIRegistryInfo CKI CAI) × GoError :=
  match walkDir (walkFn unmarshal fs rawTLSInfoDir) (GoMap.empty, GoMap.empty)
      (fs.walk rawTLSInfoDir) with
  | (_, some err) => (none, some err)
  | ((certs, caBundles), none) => (some (certsToRegistryInfo certs caBundles), none)

/-- An entry returned by `embed.FS.ReadDir`: `file.Name()` and `file.IsDir()`. -/
structure EmbedEntry where
  name : String
  isDir : Bool
deriving DecidableEq, Repr

/-- The embedded file system `pkiInfoDir`: its `ReadDir` and `ReadFile`. -/
structure EmbedFS where
  readDir : String → Except String (List EmbedEntry)
  readFile : String → Except String Bytes

/-- The loop of `GetPKIInfoFromEmbeddedRawData` (lines 58-67). The value
returned by `parsePKIInfo` is dropped (line 66). -/
def embeddedLoop {CKI CAI : Type} [DecidableEq CKI] [DecidableEq CAI]
    (unmarshal : Bytes → Except String (PKIList CKI CAI)) (pkiInfoDir : EmbedFS) :
    SecretInfoByNamespaceName CKI × ConfigMapInfoByNamespaceName CAI → List EmbedEntry →
    SecretInfoByNamespaceName CKI × ConfigMapInfoByNamespaceName CAI
  | st, [] => st
  | st, file :: rest =>
    if file.isDir then embeddedLoop unmarshal pkiInfoDir st rest
    else
      match pkiInfoDir.readFile (filepathJoin rawTLSRootDir file.name) with
      | .error _ => embeddedLoop unmarshal pkiInfoDir st rest
      | .ok currBytes =>
        let r := parsePKIInfo unmarshal currBytes st.1 st.2
        embeddedLoop unmarshal pkiInfoDir (r.certs, r.caBundles) rest

/-- The function `GetPKIInfoFromEmbeddedRawData`. -/
def GetPKIInfoFromEmbeddedRawData {CKI CAI : Type} [DecidableEq CKI] [DecidableEq CAI]
    [Inhabited CKI] [Inhabited CAI]
    (unmarshal : Bytes → Except String (PKIList CKI CAI)) (pkiInfoDir : EmbedFS) :
    Option (PKIRegistryInfo CKI CAI) × GoError :=
  match pkiInfoDir.readDir rawTLSRootDir with
  | .error err => (none, some err)
  | .ok dir =>
    match embeddedLoop unmarshal pkiInfoDir (GoMap.empty, GoMap.empty) dir with
    | (certs, caBundles) => (some (certsToRegistryInfo certs caBundles), none)

/-- The aggregation run both enumerators perform on the documents they read:
fresh maps, `parsePKIInfo` on each document in order with its return value
dropped. -/
def ingest {CKI CAI : Type} [DecidableEq CKI] [DecidableEq CAI]
    (unmarshal : Bytes → Except String (PKIList CKI CAI)) :
    SecretInfoByNamespaceName CKI × ConfigMapInfoByNamespaceName CAI → List Bytes →
    SecretInfoByNamespaceName CKI × ConfigMapInfoByNamespaceName CAI
  | st, [] => st
  | st, currBytes :: rest =>
    let r := parsePKIInfo unmarshal currBytes st.1 st.2
    ingest unmarshal (r.certs, r.caBundles) rest

/-- The registry an enumerator returns for the documents `docs`: `ingest` from
the empty maps, then `certsToRegistryInfo`. -/
def aggregate {CKI CAI : Type} [DecidableEq CKI] [DecidableEq CAI] [Inhabited CKI] [Inhabited CAI]
    (unmarshal : Bytes → Except String (PKIList CKI CAI)) (docs : List Bytes) :
    PKIRegistryInfo CKI CAI :=
  let st := ingest unmarshal (GoMap.empty, GoMap.empty) docs
  certsToRegistryInfo st.1 st.2

/-! ## Concrete inputs -/

/-- A decoder given by a finite table: the listed buffers decode to the listed
documents, every other buffer is rejected. -/
def tableUnmarshal {CKI CAI : Type} (table : List (Bytes × PKIList CKI CAI)) (b : Bytes) :
    Except String (PKIList CKI CAI) :=
  match getEntries b table with
  | some d => .ok d
  | none => .error "invalid character"

/-- A snapshot document with the given certificate records and CA bundles. -/
def mkDoc {CKI CAI : Type} (cs : List (InClusterSecretLocation × CKI))
    (bs : List (InClusterConfigMapLocation × CAI)) : PKIList CKI CAI :=
  { InClusterResourceData :=
      { CertKeyPairs := cs.map fun p => { SecretLocation := p.1, CertKeyInfo := p.2 }
        CertificateAuthorityBundles := bs.map fun p =>
          { ConfigMapLocation := p.1, CABundleInfo := p.2 } } }

/-- Document X: `ns1/secret-a` with issuer "X". -/
def docX : PKIList String String := mkDoc [(⟨"ns1", "secret-a"⟩, "X")] []

/-- Document Y: `ns1/secret-a` with issuer "Y". -/
def docY : PKIList String String := mkDoc [(⟨"ns1", "secret-a"⟩, "Y")] []

/-- Document Z: `ns0/secret-b` with issuer "Z" and the CA bundle `ns1/ca` with
info "B". -/
def docZ : PKIList String String := mkDoc [(⟨"ns0", "secret-b"⟩, "Z")] [(⟨"ns1", "ca"⟩, "B")]

/-- Buffer `[1]` decodes to `docX`, buffer `[2]` to `docY`, buffer `[3]` to
`docZ`, anything else is rejected. -/
def demoUnmarshal : Bytes → Except String (PKIList String String) :=
  tableUnmarshal [([1], docX), ([2], docY), ([3], docZ)]

/-- A directory `dir` holding the regular files `a.json` (buffer `[1]`) and
`b.json` (buffer `[2]`). -/
def demoDirXY : DirFS where
  walk := fun root =>
    if root = "dir" then
      [⟨"dir", "dir", true, none⟩, ⟨"dir/a.json", "a.json", false, none⟩,
       ⟨"dir/b.json", "b.json", false, none⟩]
    else [⟨root, root, false, some "no such file or directory"⟩]
  readFile := fun p =>
    if p = "dir/a.json" then .ok [1]
    else if p = "dir/b.json" then .ok [2]
    else .error "no such file or directory"

/-! ## The conflict rule in the words of the specification -/

/-- Stores every record, overwriting: the map once each record of `recs` has
been assigned to its location. -/
def storeAll {R K V : Type} [DecidableEq K] (key : R → K) (val : R → V) :
    GoMap K V → List R → GoMap K V
  | m, [] => m
  | m, r :: rest => storeAll key val (m.set (key r) (val r)) rest

/-- The conflict rule of the specification: going through `recs` in order, a
record is reached (after the records `pre` before it have been stored) whose
location is already present with a structurally unequal value. -/
def reachesConflict {R K V : Type} [DecidableEq K] (key : R → K) (val : R → V)
    (m : GoMap K V) (recs : List R) : Prop :=
  ∃ pre r post, recs = pre ++ r :: post ∧
    ∃ v, (storeAll key val m pre).get? (key r) = some v ∧ v ≠ val r

/-- No location carries two structurally unequal values among `recs`. -/
def NoConflict {R K V : Type} (key : R → K) (val : R → V) (recs : List R) : Prop :=
  ∀ r1 ∈ recs, ∀ r2 ∈ recs, key r1 = key r2 → val r1 = val r2

/-- The certificate records of the documents of `docs` that decode. -/
def certRecordsOf {CKI CAI : Type} (unmarshal : Bytes → Except String (PKIList CKI CAI)) :
    List Bytes → List (PKIRegistryInClusterCertKeyPair CKI)
  | [] => []
  | b :: rest =>
    match unmarshal b with
    | .ok d => d.InClusterResourceData.CertKeyPairs ++ certRecordsOf unmarshal rest
    | .error _ => certRecordsOf unmarshal rest

/-- The CA-bundle records of the documents of `docs` that decode. -/
def caRecordsOf {CKI CAI : Type} (unmarshal : Bytes → Except String (PKIList CKI CAI)) :
    List Bytes → List (PKIRegistryInClusterCABundle CAI)
  | [] => []
  | b :: rest =>
    match unmarshal b with
    | .ok d => d.InClusterResourceData.CertificateAuthorityBundles ++ caRecordsOf unmarshal rest
    | .error _ => caRecordsOf unmarshal rest

/-- The certificate map holding `ns1/secret-a` with issuer "X". -/
def certsX : SecretInfoByNamespaceName String :=
  (GoMap.empty.set ⟨"ns1", "secret-a"⟩ "X")

/-- A directory `dir` holding the regular files `a.json` (buffer `[1]`, which
decodes to `docX`) and `bad.json` (buffer `[9]`, which the decoder rejects). -/
def demoDirBad : DirFS where
  walk := fun root =>
    if root = "dir" then
      [⟨"dir", "dir", true, none⟩, ⟨"dir/a.json", "a.json", false, none⟩,
       ⟨"dir/bad.json", "bad.json", false, none⟩]
    else [⟨root, root, false, some "no such file or directory"⟩]
  readFile := fun p =>
    if p = "dir/a.json" then .ok [1]
    else if p = "dir/bad.json" then .ok [9]
    else .error "no such file or directory"

/-- The directory of `demoDirXY` with `b.json` visited before `a.json`. -/
def demoDirYX : DirFS where
  walk := fun root =>
    if root = "dir" then
      [⟨"dir", "dir", true, none⟩, ⟨"dir/b.json", "b.json", false, none⟩,
       ⟨"dir/a.json", "a.json", false, none⟩]
    else [⟨root, root, false, some "no such file or directory"⟩]
  readFile := demoDirXY.readFile

/-- The embedded directory `raw-data` holding `a.json` with content `first`
and `b.json` with content `second`. -/
def demoEmbed (first second : Bytes) : EmbedFS where
  readDir := fun d =>
    if d = "raw-data" then .ok [⟨"a.json", false⟩, ⟨"b.json", false⟩]
    else .error "file does not exist"
  readFile := fun p =>
    if p = "raw-data/a.json" then .ok first
    else if p = "raw-data/b.json" then .ok second
    else .error "file does not exist"

/-- A certificate map filled in the order `b/z`, `a/y`, `a/x`. -/
def certsBZAYAX : SecretInfoByNamespaceName String :=
  ((GoMap.empty.set ⟨"b", "z"⟩ "1").set ⟨"a", "y"⟩ "2").set ⟨"a", "x"⟩ "3"

/-- A CA-bundle map filled in the order `b/z`, `a/y`, `a/x`. -/
def caBundlesBZAYAX : ConfigMapInfoByNamespaceName String :=
  ((GoMap.empty.set ⟨"b", "z"⟩ "1").set ⟨"a", "y"⟩ "2").set ⟨"a", "x"⟩ "3"

/-- The rule "compare namespace lexicographically; on a tie compare name
lexicographically" on two (namespace, name) pairs. -/
def nsNameBefore (ns1 nm1 ns2 nm2 : String) : Prop :=
  ns1 < ns2 ∨ (ns1 = ns2 ∧ nm1 < nm2)

/-- The buffers `GetPKIInfoFromEmbeddedRawData` hands to `parsePKIInfo`: the
contents of the regular entries that can be read, in listing order. -/
def embeddedDocs (pkiInfoDir : EmbedFS) : List EmbedEntry → List Bytes
  | [] => []
  | file :: rest =>
    if file.isDir then embeddedDocs pkiInfoDir rest
    else
      match pkiInfoDir.readFile (filepathJoin rawTLSRootDir file.name) with
      | .error _ => embeddedDocs pkiInfoDir rest
      | .ok currBytes => currBytes :: embeddedDocs pkiInfoDir rest

/-- The buffers `GetPKIInfoFromRawData` hands to `parsePKIInfo` on a walk none
of whose steps fails: what `os.ReadFile` returns for the joined name of each
entry that is not a directory, in walk order. -/
def walkDocs (fs : DirFS) (rawTLSInfoDir : String) : List WalkEntry → List Bytes
  | [] => []
  | d :: rest =>
    if d.isDir then walkDocs fs rawTLSInfoDir rest
    else
      match fs.readFile (filepathJoin rawTLSInfoDir d.name) with
      | .error _ => walkDocs fs rawTLSInfoDir rest
      | .ok currBytes => currBytes :: walkDocs fs rawTLSInfoDir rest

/-! ## Further concrete inputs -/

/-- Whether the first character sequence opens the second. -/
def beginsWith : List Char → List Char → Bool
  | [], _ => true
  | _ :: _, [] => false
  | a :: as, b :: bs => a == b && beginsWith as bs

/-- Whether the sequence `sub` occurs somewhere in the given sequence. -/
def containsChars (sub : List Char) : List Char → Bool
  | [] => sub.isEmpty
  | c :: cs => beginsWith sub (c :: cs) || containsChars sub cs

/-- Whether the text `sub` occurs in the text `s`. -/
def stringContains (s sub : String) : Bool := containsChars sub.data s.data

/-- Document W: `ns2/secret-c` with issuer "Y". -/
def docW : PKIList String String := mkDoc [(⟨"ns2", "secret-c"⟩, "Y")] []

/-- The certificate map holding `ns2/secret-c` with issuer "X". -/
def certsW : SecretInfoByNamespaceName String :=
  (GoMap.empty.set ⟨"ns2", "secret-c"⟩ "X")

/-- The embedded directory `raw-data` listing `a.json` (buffer `[1]`),
`broken.json` (cannot be read), the directory `sub` and `z.json` (buffer
`[3]`). -/
def demoEmbedLenient : EmbedFS where
  readDir := fun d =>
    if d = "raw-data" then
      .ok [⟨"a.json", false⟩, ⟨"broken.json", false⟩, ⟨"sub", true⟩, ⟨"z.json", false⟩]
    else .error "file does not exist"
  readFile := fun p =>
    if p = "raw-data/a.json" then .ok [1]
    else if p = "raw-data/z.json" then .ok [3]
    else .error "file does not exist"

/-- Whether an embedded entry is a regular entry that `ReadFile` can read. -/
def readableRegular (pkiInfoDir : EmbedFS) (file : EmbedEntry) : Bool :=
  !file.isDir &&
    match pkiInfoDir.readFile (filepathJoin rawTLSRootDir file.name) with
    | .ok _ => true
    | .error _ => false

/-- A file system given by a finite map from paths to file contents, together
with the walk `filepath.WalkDir` makes over it from the root `dir`. -/
def mapFS (files : List (String × Bytes)) (walk : List WalkEntry) : DirFS where
  walk := fun root =>
    if root = "dir" then walk
    else [⟨root, root, false, some "no such file or directory"⟩]
  readFile := fun p =>
    match getEntries p files with
    | some b => .ok b
    | none => .error "no such file or directory"

/-- The tree `dir/sub/c.json`: one regular file, inside a sub-directory. -/
def demoTreeNested : DirFS :=
  mapFS [("dir/sub/c.json", [3])]
    [⟨"dir", "dir", true, none⟩, ⟨"dir/sub", "sub", true, none⟩,
     ⟨"dir/sub/c.json", "c.json", false, none⟩]

/-- The tree with `dir/sub/x.json` (buffer `[3]`) and `dir/x.json` (buffer
`[1]`): two regular files with the same base name. -/
def demoTreeShadow : DirFS :=
  mapFS [("dir/sub/x.json", [3]), ("dir/x.json", [1])]
    [⟨"dir", "dir", true, none⟩, ⟨"dir/sub", "sub", true, none⟩,
     ⟨"dir/sub/x.json", "x.json", false, none⟩, ⟨"dir/x.json", "x.json", false, none⟩]

/-- A document with the certificate records `ns0/secret-b` "Z", `ns1/secret-a`
"Y", `ns3/secret-d` "Q" in this order and the CA bundle `ns1/ca` "B". -/
def docPartial : PKIList String String :=
  mkDoc [(⟨"ns0", "secret-b"⟩, "Z"), (⟨"ns1", "secret-a"⟩, "Y"), (⟨"ns3", "secret-d"⟩, "Q")]
    [(⟨"ns1", "ca"⟩, "B")]

/-! ## The test file (`test/extended/operators/certs.go`) -/

/-- The placeholder entry `pruneSystemTrust` writes: common name
"synthetic-proxy-ca", serial number "0", nil issuer. -/
def syntheticProxyCA : CertKeyMetadata :=
  { CertIdentifier := .root "synthetic-proxy-ca" "0" }

/-- The loop of `pruneSystemTrust` over `pkiList.CertificateAuthorityBundles.Items`
(lines 138-157): items that are not "proxy-ca" and "proxy-ca" items with at
most 10 metadata entries are passed over; the first "proxy-ca" item with more
than 10 entries is renamed and collapsed, and the function returns. -/
def pruneItems : List CertificateAuthorityBundle → List CertificateAuthorityBundle
  | [] => []
  | curr :: rest =>
    if curr.LogicalName ≠ "proxy-ca" then curr :: pruneItems rest
    else if curr.Spec.CertificateMetadata.length > 10 then
      { curr with
        Name := "proxy-ca"
        Spec := { curr.Spec with CertificateMetadata := [syntheticProxyCA] } } :: rest
    else curr :: pruneItems rest

/-- The function `pruneSystemTrust`; the list it mutates is returned. -/
def pruneSystemTrust {CKI CAI : Type} (pkiList : PKIList CKI CAI) : PKIList CKI CAI :=
  { pkiList with
    CertificateAuthorityBundles :=
      { pkiList.CertificateAuthorityBundles with
        Items := pruneItems pkiList.CertificateAuthorityBundles.Items } }

/-- The text `fmt.Sprintf("--namespace=%s, secret/%s:\n%v\n", ...)` of line 94. -/
def secretMismatchMessage (currLocation : InClusterSecretLocation) (errorMessage : String) :
    String :=
  "--namespace=" ++ currLocation.Namespace ++ ", secret/" ++ currLocation.Name ++ ":\n" ++
    errorMessage ++ "\n"

/-- The text `fmt.Sprintf("--namespace=%s, configmap/%s:\n%v\n", ...)` of line
118. -/
def configMapMismatchMessage (currLocation : InClusterConfigMapLocation)
    (errorMessage : String) : String :=
  "--namespace=" ++ currLocation.Namespace ++ ", configmap/" ++ currLocation.Name ++ ":\n" ++
    errorMessage ++ "\n"

/-- The text of lines 99 and 104 for the location `loc`. -/
def secretUnregisteredText (loc : InClusterSecretLocation) : String :=
  "Unregistered TLS artifact: --namespace=" ++ loc.Namespace ++ ", secret/" ++ loc.Name ++ "\n"

/-- The text of line 124 for the location `loc`. -/
def configMapUnregisteredText (loc : InClusterConfigMapLocation) : String :=
  "Unregistered TLS artifact: --namespace=" ++ loc.Namespace ++ ", configmap/" ++ loc.Name ++
    "\n"

/-- One of the two record loops of the test "all tls artifacts must be known"
(lines 85-96 and 109-120). For each live record the location is looked up in
the baseline with `locate` (`none` is a non-nil error): a miss stores the record
in the map of unregistered records, a hit appends the text `fmt` builds from
`failureMessage expected actual`, the string
`o.Equal(expected).FailureMessage(actual)`, when that string is not empty. The
state is the pair of `messages` and the map of unregistered records. -/
def checkLoop {R K V : Type} [DecidableEq K] (key : R → K) (val : R → V)
    (locate : K → List R → Option R) (failureMessage : V → V → String)
    (fmt : K → String → String) (expected : List R) :
    List String × GoMap K R → List R → List String × GoMap K R
  | st, [] => st
  | st, curr :: rest =>
    match locate (key curr) expected with
    | none => checkLoop key val locate failureMessage fmt expected
        (st.1, st.2.set (key curr) curr) rest
    | some expectedRecord =>
      if (failureMessage (val expectedRecord) (val curr)).length > 0 then
        checkLoop key val locate failureMessage fmt expected
          (st.1 ++ [fmt (key curr) (failureMessage (val expectedRecord) (val curr))], st.2) rest
      else checkLoop key val locate failureMessage fmt expected st rest

/-- The order in which one `range` statement over a map visits the entries.
Go leaves the order unspecified and chooses it anew for every loop: any
rearrangement of the entries, one per `range` statement. -/
structure RangeOrder (K R : Type) where
  visit : List (K × R) → List (K × R)
  perm : ∀ l, (visit l).Perm l

/-- The visiting order that follows the order of insertion. -/
def RangeOrder.insertion {K R : Type} : RangeOrder K R := ⟨fun l => l, fun l => List.Perm.refl l⟩

/-- The visiting order opposite to the order of insertion. -/
def RangeOrder.reversed {K R : Type} : RangeOrder K R :=
  ⟨fun l => l.reverse, fun l => List.reverse_perm l⟩

/-- One of the three blocks that report the unregistered records (lines 97-101,
102-106 and 122-126): when the map is not empty, one text per entry, in the
order `range` visits the entries in this block. -/
def reportUnregistered {R K : Type} (text : R → String) (range : RangeOrder K R)
    (messages : List String) (unregistered : GoMap K R) : List String :=
  if unregistered.keys.length > 0 then
    messages ++ (range.visit unregistered.entries).map fun e => text e.2
  else messages

/-- The list `messages` at line 128 of the test "all tls artifacts must be
known", for the live content `actualPKIContent` and the baseline
`expectedPKIContent`. The lookups of `certgraphutils` and the failure message of
the `Equal` matcher are parameters, and so are the visiting orders of the three
`range` statements over the maps of unregistered records (lines 98, 103 and
123). -/
def allTLSArtifactsMustBeKnown {CKI CAI : Type}
    (locateCertKeyPair : InClusterSecretLocation → List (PKIRegistryInClusterCertKeyPair CKI) →
      Option (PKIRegistryInClusterCertKeyPair CKI))
    (locateCertificateAuthorityBundle : InClusterConfigMapLocation →
      List (PKIRegistryInClusterCABundle CAI) → Option (PKIRegistryInClusterCABundle CAI))
    (failureMessageCert : CKI → CKI → String) (failureMessageCA : CAI → CAI → String)
    (range98 range103 : RangeOrder InClusterSecretLocation (PKIRegistryInClusterCertKeyPair CKI))
    (range123 : RangeOrder InClusterConfigMapLocation (PKIRegistryInClusterCABundle CAI))
    (actualPKIContent : PKIList CKI CAI) (expectedPKIContent : PKIRegistryInfo CKI CAI) :
    List String :=
  let s1 := checkLoop PKIRegistryInClusterCertKeyPair.SecretLocation
    PKIRegistryInClusterCertKeyPair.CertKeyInfo locateCertKeyPair failureMessageCert
    secretMismatchMessage expectedPKIContent.CertKeyPairs ([], GoMap.empty)
    actualPKIContent.InClusterResourceData.CertKeyPairs
  let m2 := reportUnregistered (fun secret => secretUnregisteredText secret.SecretLocation)
    range98 s1.1 s1.2
  let m3 := reportUnregistered (fun secret => secretUnregisteredText secret.SecretLocation)
    range103 m2 s1.2
  let s4 := checkLoop PKIRegistryInClusterCABundle.ConfigMapLocation
    PKIRegistryInClusterCABundle.CABundleInfo locateCertificateAuthorityBundle failureMessageCA
    configMapMismatchMessage expectedPKIContent.CertificateAuthorityBundles (m3, GoMap.empty)
    actualPKIContent.InClusterResourceData.CertificateAuthorityBundles
  reportUnregistered (fun cm => configMapUnregisteredText cm.ConfigMapLocation) range123
    s4.1 s4.2

/-- The lookup `certgraphutils.LocateCertKeyPair` as a search for the first
record at the location. -/
def locateFirstCertKeyPair {CKI : Type} (loc : InClusterSecretLocation)
    (l : List (PKIRegistryInClusterCertKeyPair CKI)) :
    Option (PKIRegistryInClusterCertKeyPair CKI) :=
  l.find? fun r => decide (r.SecretLocation = loc)

/-- The lookup `certgraphutils.LocateCertificateAuthorityBundle` as a search
for the first record at the location. -/
def locateFirstCABundle {CAI : Type} (loc : InClusterConfigMapLocation)
    (l : List (PKIRegistryInClusterCABundle CAI)) : Option (PKIRegistryInClusterCABundle CAI) :=
  l.find? fun r => decide (r.ConfigMapLocation = loc)

/-- The failure message of the `Equal` matcher in the shape of
`format.Message(actual, "to equal", expected)`: both values are rendered, they
are not compared. -/
def equalFailureMessage (expected actual : String) : String :=
  "Expected\n    " ++ actual ++ "\nto equal\n    " ++ expected

/-- A failure message that is empty on equal values. -/
def diffFailureMessage (expected actual : String) : String :=
  if expected = actual then "" else equalFailureMessage expected actual

/-- A metadata entry with the given common name and a nil issuer. -/
def metaOf (cn : String) : CertKeyMetadata := { CertIdentifier := .root cn "1" }

/-- A "proxy-ca" bundle named `name` with 11 metadata entries. -/
def bigProxyCA (name : String) : CertificateAuthorityBundle :=
  { LogicalName := "proxy-ca", Name := name
    Spec := { CertificateMetadata := List.replicate 11 (metaOf "system-trust") } }

/-- A content whose list of CA bundles holds two "proxy-ca" bundles with 11
metadata entries each. -/
def docTwoProxyCA : PKIList String String :=
  { InClusterResourceData := ⟨[], []⟩
    CertificateAuthorityBundles := ⟨[bigProxyCA "first", bigProxyCA "second"]⟩ }

/-- A live content with the certificate records `ns1/secret-a` "X" (in the
baseline of `docX`), `ns5/new` "N" twice and `ns6/other` "O", and the CA
bundles `ns1/ca` "B" and `ns7/fresh` "F". -/
def docLive : PKIList String String :=
  mkDoc [(⟨"ns1", "secret-a"⟩, "X"), (⟨"ns5", "new"⟩, "N"), (⟨"ns6", "other"⟩, "O"),
      (⟨"ns5", "new"⟩, "N")]
    [(⟨"ns1", "ca"⟩, "B"), (⟨"ns7", "fresh"⟩, "F")]

/-- Whether `pruneSystemTrust` is meant to collapse the item: a "proxy-ca"
bundle with more than 10 metadata entries. -/
def oversizedProxyCA (c : CertificateAuthorityBundle) : Bool :=
  decide (c.LogicalName = "proxy-ca") && decide (c.Spec.CertificateMetadata.length > 10)

/-- The item as `pruneSystemTrust` rewrites it: named "proxy-ca", its metadata
the single placeholder entry. -/
def collapseProxyCA (c : CertificateAuthorityBundle) : CertificateAuthorityBundle :=
  { c with
    Name := "proxy-ca"
    Spec := { c.Spec with CertificateMetadata := [syntheticProxyCA] } }

/-- Whether a message of the test is one of the "Unregistered TLS artifact"
texts. -/
def isUnregisteredText (m : String) : Bool :=
  beginsWith "Unregistered TLS artifact: ".data m.data

/-! ## Lemmas on Go maps -/

theorem GoMap.ext_entries {K V : Type} {m1 m2 : GoMap K V} (h : m1.entries = m2.entries) :
    m1 = m2 := by
  cases m1; cases m2; cases h; rfl

theorem GoMap.keys_empty {K V : Type} : (GoMap.empty : GoMap K V).keys = [] := rfl

theorem GoMap.nodup_keys {K V : Type} (m : GoMap K V) : m.keys.Nodup := m.nodup

section MapLemmas

variable {K V : Type} [DecidableEq K]

theorem getEntries_setEntries_same (k : K) (v : V) :
    ∀ l : List (K × V), getEntries k (setEntries k v l) = some v
  | [] => by simp [setEntries, getEntries]
  | (k', v') :: t => by
    by_cases hk : k' = k
    · simp [setEntries, getEntries, hk]
    · simp [setEntries, getEntries, hk, getEntries_setEntries_same k v t]

theorem getEntries_setEntries_other (k k2 : K) (v : V) (h : k2 ≠ k) :
    ∀ l : List (K × V), getEntries k2 (setEntries k v l) = getEntries k2 l
  | [] => by simp [setEntries, getEntries, h.symm]
  | (k', v') :: t => by
    by_cases hk : k' = k
    · subst hk
      simp [setEntries, getEntries, h.symm]
    · by_cases hk2 : k' = k2
      · subst hk2
        simp [setEntries, getEntries, hk]
      · simp [setEntries, getEntries, hk, hk2, getEntries_setEntries_other k k2 v h t]

theorem setEntries_eq_self (k : K) (v : V) :
    ∀ l : List (K × V), getEntries k l = some v → setEntries k v l = l
  | [], h => by simp [getEntries] at h
  | (k', v') :: t, h => by
    by_cases hk : k' = k
    · simp only [getEntries, hk, if_true, Option.some.injEq] at h
      simp [setEntries, hk, h]
    · simp only [getEntries, hk, if_false] at h
      simp [setEntries, hk, setEntries_eq_self k v t h]

theorem mem_keys_iff_getEntries (k : K) :
    ∀ l : List (K × V), k ∈ l.map Prod.fst ↔ ∃ v, getEntries k l = some v
  | [] => by simp [getEntries]
  | (k', v') :: t => by
    by_cases hk : k' = k
    · simp [getEntries, hk]
    · have hk' : ¬ k = k' := fun e => hk e.symm
      simp [getEntries, hk, hk', mem_keys_iff_getEntries k t]

namespace GoMap

theorem get?_empty (k : K) : (GoMap.empty : GoMap K V).get? k = none := rfl

theorem get?_set_same (m : GoMap K V) (k : K) (v : V) : (m.set k v).get? k = some v :=
  getEntries_setEntries_same k v m.entries

theorem get?_set_other (m : GoMap K V) (k k2 : K) (v : V) (h : k2 ≠ k) :
    (m.set k v).get? k2 = m.get? k2 :=
  getEntries_setEntries_other k k2 v h m.entries

theorem get?_set (m : GoMap K V) (k k2 : K) (v : V) :
    (m.set k v).get? k2 = if k2 = k then some v else m.get? k2 := by
  by_cases h : k2 = k
  · subst h; simp [get?_set_same]
  · simp [h, get?_set_other m k k2 v h]

theorem set_eq_self (m : GoMap K V) (k : K) (v : V) (h : m.get? k = some v) : m.set k v = m :=
  ext_entries (setEntries_eq_self k v m.entries h)

theorem mem_keys_iff (m : GoMap K V) (k : K) : k ∈ m.keys ↔ ∃ v, m.get? k = some v :=
  mem_keys_iff_getEntries k m.entries

theorem not_mem_keys_iff (m : GoMap K V) (k : K) : k ∉ m.keys ↔ m.get? k = none := by
  rw [mem_keys_iff]
  cases h : m.get? k <;> simp

theorem mem_keys_set (m : GoMap K V) (k k2 : K) (v : V) :
    k2 ∈ (m.set k v).keys ↔ k2 = k ∨ k2 ∈ m.keys := by
  rw [mem_keys_iff, mem_keys_iff, get?_set]
  by_cases h : k2 = k
  · simp [h]
  · simp [h]

/-- Two maps with the same lookups enumerate the same keys, up to order. -/
theorem keys_perm_of_get? {m1 m2 : GoMap K V} (h : ∀ k, m1.get? k = m2.get? k) :
    m1.keys.Perm m2.keys := by
  rw [List.perm_ext_iff_of_nodup m1.nodup_keys m2.nodup_keys]
  intro k
  rw [mem_keys_iff, mem_keys_iff, h k]

theorem index_of_get? [Inhabited V] {m1 m2 : GoMap K V} (k : K) (h : m1.get? k = m2.get? k) :
    m1.index k = m2.index k := by
  simp [index, h]

end GoMap

end MapLemmas

/-! ## Lemmas on the record loop -/

section LoopLemmas

variable {R K V : Type} [DecidableEq K] [DecidableEq V] (key : R → K) (val : R → V)

theorem mergeLoop_nil (m : GoMap K V) : mergeLoop key val m [] = (m, none) := rfl

/-- A record that conflicts with the map ends the loop with the error. -/
theorem mergeLoop_cons_conflict (m : GoMap K V) (r : R) (rest : List R) (v : V)
    (h : m.get? (key r) = some v) (hne : v ≠ val r) :
    mergeLoop key val m (r :: rest) = (m, some "mismatch of certificate info") := by
  simp [mergeLoop, h, hne]

/-- A record that does not conflict is stored and the loop goes on. -/
theorem mergeLoop_cons_store (m : GoMap K V) (r : R) (rest : List R)
    (h : ∀ v, m.get? (key r) = some v → v = val r) :
    mergeLoop key val m (r :: rest) = mergeLoop key val (m.set (key r) (val r)) rest := by
  cases hg : m.get? (key r) with
  | none => simp [mergeLoop, hg]
  | some v => simp [mergeLoop, hg, h v hg]

/-- Each step of the loop either conflicts or stores. -/
theorem mergeLoop_cons_cases (m : GoMap K V) (r : R) (rest : List R) :
    (∃ v, m.get? (key r) = some v ∧ v ≠ val r ∧
        mergeLoop key val m (r :: rest) = (m, some "mismatch of certificate info")) ∨
    ((∀ v, m.get? (key r) = some v → v = val r) ∧
        mergeLoop key val m (r :: rest) = mergeLoop key val (m.set (key r) (val r)) rest) := by
  cases hg : m.get? (key r) with
  | none =>
    right
    have h : ∀ v, m.get? (key r) = some v → v = val r := by
      intro v hv; rw [hg] at hv; cases hv
    exact ⟨by simp [hg], mergeLoop_cons_store key val m r rest h⟩
  | some v =>
    by_cases hne : v = val r
    · right
      have h : ∀ w, m.get? (key r) = some w → w = val r := by
        intro w hw; rw [hg] at hw; cases hw; exact hne
      exact ⟨by simpa [hg] using h, mergeLoop_cons_store key val m r rest h⟩
    · left
      exact ⟨v, rfl, hne, mergeLoop_cons_conflict key val m r rest v hg hne⟩

/-- The loop never overwrites: a stored value stays, error or not. -/
theorem mergeLoop_preserves (k : K) (v : V) :
    ∀ (recs : List R) (m : GoMap K V), m.get? k = some v →
      (mergeLoop key val m recs).1.get? k = some v
  | [], m, h => by simpa [mergeLoop] using h
  | r :: rest, m, h => by
    rcases mergeLoop_cons_cases key val m r rest with ⟨w, _, _, e⟩ | ⟨hok, e⟩
    · rw [e]; exact h
    · rw [e]
      apply mergeLoop_preserves k v rest
      rw [GoMap.get?_set]
      by_cases hk : k = key r
      · subst hk
        simp [hok v h]
      · simp [hk, h]

/-- Locations that no record names are left alone. -/
theorem mergeLoop_frame (k : K) :
    ∀ (recs : List R) (m : GoMap K V), (∀ r ∈ recs, key r ≠ k) →
      (mergeLoop key val m recs).1.get? k = m.get? k
  | [], m, _ => by simp [mergeLoop]
  | r :: rest, m, h => by
    rcases mergeLoop_cons_cases key val m r rest with ⟨w, _, _, e⟩ | ⟨_, e⟩
    · rw [e]
    · rw [e, mergeLoop_frame k rest _ (fun r2 h2 => h r2 (List.mem_cons_of_mem _ h2))]
      exact GoMap.get?_set_other m (key r) k (val r) (fun e2 => h r (List.mem_cons_self _ _) e2.symm)

/-- After a loop without error every record is stored under its location. -/
theorem mergeLoop_stored :
    ∀ (recs : List R) (m : GoMap K V), (mergeLoop key val m recs).2 = none →
      ∀ r ∈ recs, (mergeLoop key val m recs).1.get? (key r) = some (val r)
  | [], _, _, r, hr => by simp at hr
  | r0 :: rest, m, hnone, r, hr => by
    rcases mergeLoop_cons_cases key val m r0 rest with ⟨w, _, _, e⟩ | ⟨_, e⟩
    · rw [e] at hnone; simp at hnone
    · rw [e] at hnone ⊢
      rcases List.mem_cons.1 hr with h | h
      · subst h
        exact mergeLoop_preserves key val _ _ rest _ (GoMap.get?_set_same m (key r) (val r))
      · exact mergeLoop_stored rest _ hnone r h

/-- After a loop without error the key set is the old key set united with the
locations of the records. -/
theorem mergeLoop_keys (k : K) :
    ∀ (recs : List R) (m : GoMap K V), (mergeLoop key val m recs).2 = none →
      (k ∈ (mergeLoop key val m recs).1.keys ↔ k ∈ m.keys ∨ ∃ r ∈ recs, key r = k)
  | [], m, _ => by simp [mergeLoop]
  | r0 :: rest, m, hnone => by
    rcases mergeLoop_cons_cases key val m r0 rest with ⟨w, _, _, e⟩ | ⟨_, e⟩
    · rw [e] at hnone; simp at hnone
    · rw [e] at hnone ⊢
      rw [mergeLoop_keys k rest _ hnone, GoMap.mem_keys_set]
      simp only [List.mem_cons, exists_eq_or_imp]
      constructor
      · rintro ((h | h) | h)
        · exact Or.inr (Or.inl h.symm)
        · exact Or.inl h
        · exact Or.inr (Or.inr h)
      · rintro (h | h | h)
        · exact Or.inl (Or.inr h)
        · exact Or.inl (Or.inl h.symm)
        · exact Or.inr h

/-- Running the loop again on its own output changes nothing and ends the
same way. -/
theorem mergeLoop_idem :
    ∀ (recs : List R) (m : GoMap K V),
      mergeLoop key val (mergeLoop key val m recs).1 recs = mergeLoop key val m recs
  | [], m => by simp [mergeLoop]
  | r :: rest, m => by
    rcases mergeLoop_cons_cases key val m r rest with ⟨w, hw, hne, e⟩ | ⟨_, e⟩
    · rw [e]; exact e
    · rw [e]
      have hst : (mergeLoop key val (m.set (key r) (val r)) rest).1.get? (key r) = some (val r) :=
        mergeLoop_preserves key val _ _ rest _ (GoMap.get?_set_same m (key r) (val r))
      rw [mergeLoop_cons_store key val _ r rest (by
        intro v hv; rw [hst] at hv; cases hv; rfl)]
      rw [GoMap.set_eq_self _ _ _ hst]
      exact mergeLoop_idem rest _

end LoopLemmas

/-! ## Lemmas on sorting -/

section SortLemmas

variable {K : Type} {less : K → K → Bool}

theorem StrictTotal.asymm (h : StrictTotal less) (a b : K) (hab : less a b = true) :
    less b a = false := by
  cases hba : less b a with
  | false => rfl
  | true =>
    have := h.trans a b a hab hba
    rw [h.irrefl a] at this
    cases this

theorem StrictTotal.isTotal (h : StrictTotal less) : IsTotal K (notAfter less) :=
  ⟨fun a b => by
    unfold notAfter
    cases hba : less b a with
    | false => exact Or.inl rfl
    | true => exact Or.inr (h.asymm b a hba)⟩

theorem StrictTotal.isTrans (h : StrictTotal less) : IsTrans K (notAfter less) :=
  ⟨fun a b c hab hbc => by
    unfold notAfter at *
    cases hca : less c a with
    | false => rfl
    | true =>
      by_cases e : a = b
      · subst e; rw [hca] at hbc; cases hbc
      · rcases h.total a b e with h1 | h1
        · rw [h.trans c a b hca h1] at hbc; cases hbc
        · rw [h1] at hab; cases hab⟩

theorem StrictTotal.isAntisymm (h : StrictTotal less) : IsAntisymm K (notAfter less) :=
  ⟨fun a b hab hba => by
    unfold notAfter at *
    by_contra e
    rcases h.total a b e with h1 | h1
    · rw [h1] at hba; cases hba
    · rw [h1] at hab; cases hab⟩

theorem sortSort_perm (l : List K) : (sortSort less l).Perm l :=
  List.perm_insertionSort (notAfter less) l

theorem mem_sortSort (l : List K) (k : K) : k ∈ sortSort less l ↔ k ∈ l :=
  (sortSort_perm l).mem_iff

theorem sortSort_sorted (h : StrictTotal less) (l : List K) :
    (sortSort less l).Sorted (notAfter less) :=
  haveI := h.isTotal
  haveI := h.isTrans
  List.sorted_insertionSort (notAfter less) l

/-- Distinct keys come out of `sort.Sort` strictly ascending. -/
theorem sortSort_strict (h : StrictTotal less) (l : List K) (nd : l.Nodup) :
    (sortSort less l).Pairwise (fun a b => less a b = true) := by
  have hs : (sortSort less l).Pairwise (notAfter less) := sortSort_sorted h l
  have hn : (sortSort less l).Pairwise (fun a b => a ≠ b) :=
    (sortSort_perm l).nodup_iff.2 nd
  refine (hs.and hn).imp ?_
  rintro a b ⟨hab, hne⟩
  rcases h.total a b hne with h1 | h1
  · exact h1
  · unfold notAfter at hab; rw [h1] at hab; cases hab

/-- The result of `sort.Sort` does not depend on the order of its input. -/
theorem sortSort_eq_of_perm (h : StrictTotal less) {l1 l2 : List K} (p : l1.Perm l2) :
    sortSort less l1 = sortSort less l2 :=
  haveI := h.isAntisymm
  List.eq_of_perm_of_sorted (((sortSort_perm l1).trans p).trans (sortSort_perm l2).symm)
    (sortSort_sorted h l1) (sortSort_sorted h l2)

end SortLemmas

/-- The comparison `charsLess` decides the lexicographic order of lists. -/
theorem charsLess_iff : ∀ l1 l2 : List Char, charsLess l1 l2 = true ↔ l1 < l2
  | l1, [] => by
    cases l1 <;> simp only [charsLess] <;>
      exact ⟨fun h => (by cases h), fun h => absurd h (List.Lex.not_nil_right _ _)⟩
  | [], y :: ys => by
    simp only [charsLess, true_iff]
    exact List.nil_lt_cons y ys
  | x :: xs, y :: ys => by
    simp only [charsLess]
    by_cases h1 : x < y
    · simp only [h1, if_true, true_iff]
      exact List.Lex.rel h1
    · by_cases h2 : y < x
      · simp only [h1, h2, if_true, if_false]
        refine ⟨fun h => (by cases h), fun h => ?_⟩
        cases h with
        | cons h3 => exact absurd h2 (lt_irrefl _)
        | rel h3 => exact absurd h3 h1
      · have he : x = y := le_antisymm (not_lt.1 h2) (not_lt.1 h1)
        subst he
        simp only [h1, if_false]
        rw [charsLess_iff xs ys]
        exact (List.Lex.cons_iff (r := fun a b : Char => a < b)).symm

/-- The comparison `stringLess` decides the lexicographic order of strings. -/
theorem stringLess_iff (a b : String) : stringLess a b = true ↔ a < b := by
  unfold stringLess
  rw [charsLess_iff, String.lt_iff_toList_lt]
  rfl

theorem lexLess_iff (ns1 nm1 ns2 nm2 : String) :
    (if stringLess ns1 ns2 then true
      else if stringLess ns2 ns1 then false
      else stringLess nm1 nm2) = true ↔
      ns1 < ns2 ∨ (ns1 = ns2 ∧ nm1 < nm2) := by
  by_cases h1 : ns1 < ns2
  · simp [(stringLess_iff ns1 ns2).2 h1, h1]
  · have f1 : stringLess ns1 ns2 = false := by
      cases h : stringLess ns1 ns2 with
      | false => rfl
      | true => exact absurd ((stringLess_iff ns1 ns2).1 h) h1
    by_cases h2 : ns2 < ns1
    · have hne : ¬ ns1 = ns2 := fun e => by rw [e] at h2; exact lt_irrefl _ h2
      simp [f1, (stringLess_iff ns2 ns1).2 h2, h1, hne]
    · have f2 : stringLess ns2 ns1 = false := by
        cases h : stringLess ns2 ns1 with
        | false => rfl
        | true => exact absurd ((stringLess_iff ns2 ns1).1 h) h2
      have he : ns1 = ns2 := le_antisymm (not_lt.1 h2) (not_lt.1 h1)
      simp [f1, f2, h1, he, stringLess_iff]

theorem SecretRefByNamespaceName.secretLess_iff (a b : InClusterSecretLocation) :
    SecretRefByNamespaceName.Less a b = true ↔
      a.Namespace < b.Namespace ∨ (a.Namespace = b.Namespace ∧ a.Name < b.Name) :=
  lexLess_iff a.Namespace a.Name b.Namespace b.Name

theorem ConfigMapRefByNamespaceName.configMapLess_iff (a b : InClusterConfigMapLocation) :
    ConfigMapRefByNamespaceName.Less a b = true ↔
      a.Namespace < b.Namespace ∨ (a.Namespace = b.Namespace ∧ a.Name < b.Name) :=
  lexLess_iff a.Namespace a.Name b.Namespace b.Name

/-- The rule "namespace first, then name" is a strict total order on pairs of
strings. -/
theorem lexRule_strictTotal {K : Type} (less : K → K → Bool) (ns nm : K → String)
    (hext : ∀ a b, ns a = ns b → nm a = nm b → a = b)
    (hiff : ∀ a b, less a b = true ↔ ns a < ns b ∨ (ns a = ns b ∧ nm a < nm b)) :
    StrictTotal less where
  irrefl a := by
    cases h : less a a with
    | false => rfl
    | true =>
      rcases (hiff a a).1 h with h1 | ⟨_, h1⟩
      · exact absurd h1 (lt_irrefl _)
      · exact absurd h1 (lt_irrefl _)
  trans a b c hab hbc := by
    rw [hiff] at hab hbc ⊢
    rcases hab with h1 | ⟨e1, h1⟩
    · rcases hbc with h2 | ⟨e2, _⟩
      · exact Or.inl (lt_trans h1 h2)
      · exact Or.inl (e2 ▸ h1)
    · rcases hbc with h2 | ⟨e2, h2⟩
      · exact Or.inl (e1 ▸ h2)
      · exact Or.inr ⟨e1.trans e2, lt_trans h1 h2⟩
  total a b hne := by
    rw [hiff, hiff]
    rcases lt_trichotomy (ns a) (ns b) with h | h | h
    · exact Or.inl (Or.inl h)
    · rcases lt_trichotomy (nm a) (nm b) with h2 | h2 | h2
      · exact Or.inl (Or.inr ⟨h, h2⟩)
      · exact absurd (hext a b h h2) hne
      · exact Or.inr (Or.inr ⟨h.symm, h2⟩)
    · exact Or.inr (Or.inl h)

theorem SecretRefByNamespaceName.secretStrictTotal : StrictTotal SecretRefByNamespaceName.Less :=
  lexRule_strictTotal _ InClusterSecretLocation.Namespace InClusterSecretLocation.Name
    (fun a b h1 h2 => by cases a; cases b; simp_all)
    SecretRefByNamespaceName.secretLess_iff

theorem ConfigMapRefByNamespaceName.configMapStrictTotal :
    StrictTotal ConfigMapRefByNamespaceName.Less :=
  lexRule_strictTotal _ InClusterConfigMapLocation.Namespace InClusterConfigMapLocation.Name
    (fun a b h1 h2 => by cases a; cases b; simp_all)
    ConfigMapRefByNamespaceName.configMapLess_iff

/-! ## Lemmas on the exporter -/

section ExportLemmas

variable {CKI CAI : Type} [Inhabited CKI] [Inhabited CAI]

theorem certKeyPairs_locations (certs : SecretInfoByNamespaceName CKI)
    (caBundles : ConfigMapInfoByNamespaceName CAI) :
    (certsToRegistryInfo certs caBundles).CertKeyPairs.map
        PKIRegistryInClusterCertKeyPair.SecretLocation =
      sortSort SecretRefByNamespaceName.Less certs.keys := by
  simp [certsToRegistryInfo, Function.comp_def]

theorem caBundles_locations (certs : SecretInfoByNamespaceName CKI)
    (caBundles : ConfigMapInfoByNamespaceName CAI) :
    (certsToRegistryInfo certs caBundles).CertificateAuthorityBundles.map
        PKIRegistryInClusterCABundle.ConfigMapLocation =
      sortSort ConfigMapRefByNamespaceName.Less caBundles.keys := by
  simp [certsToRegistryInfo, Function.comp_def]

/-- The export depends only on what the maps hold, not on the order in which
their keys are enumerated. -/
theorem certsToRegistryInfo_congr {certs1 certs2 : SecretInfoByNamespaceName CKI}
    {cas1 cas2 : ConfigMapInfoByNamespaceName CAI}
    (hc : ∀ k, certs1.get? k = certs2.get? k) (ha : ∀ k, cas1.get? k = cas2.get? k) :
    certsToRegistryInfo certs1 cas1 = certsToRegistryInfo certs2 cas2 := by
  unfold certsToRegistryInfo
  have e1 := sortSort_eq_of_perm SecretRefByNamespaceName.secretStrictTotal
    (GoMap.keys_perm_of_get? hc)
  have e2 := sortSort_eq_of_perm ConfigMapRefByNamespaceName.configMapStrictTotal
    (GoMap.keys_perm_of_get? ha)
  simp only [e1, e2]
  congr 1
  · apply List.map_congr_left
    intro k _
    rw [GoMap.index_of_get? k (hc k)]
  · apply List.map_congr_left
    intro k _
    rw [GoMap.index_of_get? k (ha k)]

end ExportLemmas

/-! ## Lemmas on `parsePKIInfo` -/

section ParseLemmas

variable {CKI CAI : Type} [DecidableEq CKI] [DecidableEq CAI]

theorem parsePKIInfo_of_ok (unmarshal : Bytes → Except String (PKIList CKI CAI))
    (currBytes : Bytes) (currPKI : PKIList CKI CAI)
    (certs : SecretInfoByNamespaceName CKI) (caBundles : ConfigMapInfoByNamespaceName CAI)
    (h : unmarshal currBytes = .ok currPKI) :
    parsePKIInfo unmarshal currBytes certs caBundles = mergePKIList currPKI certs caBundles := by
  simp [parsePKIInfo, h]

theorem parsePKIInfo_of_error (unmarshal : Bytes → Except String (PKIList CKI CAI))
    (currBytes : Bytes) (e : String)
    (certs : SecretInfoByNamespaceName CKI) (caBundles : ConfigMapInfoByNamespaceName CAI)
    (h : unmarshal currBytes = .error e) :
    parsePKIInfo unmarshal currBytes certs caBundles = ⟨certs, caBundles, some e⟩ := by
  simp [parsePKIInfo, h]

/-- The two ways `mergePKIList` ends: the certificate loop returns an error and
the CA bundles are not looked at, or it does not and the CA-bundle loop decides. -/
theorem mergePKIList_cases (currPKI : PKIList CKI CAI)
    (certs : SecretInfoByNamespaceName CKI) (caBundles : ConfigMapInfoByNamespaceName CAI) :
    (∃ e, (mergeLoop PKIRegistryInClusterCertKeyPair.SecretLocation
          PKIRegistryInClusterCertKeyPair.CertKeyInfo certs
          currPKI.InClusterResourceData.CertKeyPairs).2 = some e ∧
        mergePKIList currPKI certs caBundles =
          ⟨(mergeLoop PKIRegistryInClusterCertKeyPair.SecretLocation
            PKIRegistryInClusterCertKeyPair.CertKeyInfo certs
            currPKI.InClusterResourceData.CertKeyPairs).1, caBundles, some e⟩) ∨
    ((mergeLoop PKIRegistryInClusterCertKeyPair.SecretLocation
          PKIRegistryInClusterCertKeyPair.CertKeyInfo certs
          currPKI.InClusterResourceData.CertKeyPairs).2 = none ∧
        mergePKIList currPKI certs caBundles =
          ⟨(mergeLoop PKIRegistryInClusterCertKeyPair.SecretLocation
            PKIRegistryInClusterCertKeyPair.CertKeyInfo certs
            currPKI.InClusterResourceData.CertKeyPairs).1,
           (mergeLoop PKIRegistryInClusterCABundle.ConfigMapLocation
            PKIRegistryInClusterCABundle.CABundleInfo caBundles
            currPKI.InClusterResourceData.CertificateAuthorityBundles).1,
           (mergeLoop PKIRegistryInClusterCABundle.ConfigMapLocation
            PKIRegistryInClusterCABundle.CABundleInfo caBundles
            currPKI.InClusterResourceData.CertificateAuthorityBundles).2⟩) := by
  unfold mergePKIList
  rcases hc : mergeLoop PKIRegistryInClusterCertKeyPair.SecretLocation
      PKIRegistryInClusterCertKeyPair.CertKeyInfo certs
      currPKI.InClusterResourceData.CertKeyPairs with ⟨c1, _ | e⟩
  · right; simp
  · left; exact ⟨e, rfl, rfl⟩

theorem mergePKIList_preserves_certs (currPKI : PKIList CKI CAI)
    (certs : SecretInfoByNamespaceName CKI) (caBundles : ConfigMapInfoByNamespaceName CAI)
    (L : InClusterSecretLocation) (v : CKI) (h : certs.get? L = some v) :
    (mergePKIList currPKI certs caBundles).certs.get? L = some v := by
  rcases mergePKIList_cases currPKI certs caBundles with ⟨e, _, h2⟩ | ⟨_, h2⟩ <;>
    rw [h2] <;> exact mergeLoop_preserves _ _ L v _ certs h

theorem mergePKIList_preserves_caBundles (currPKI : PKIList CKI CAI)
    (certs : SecretInfoByNamespaceName CKI) (caBundles : ConfigMapInfoByNamespaceName CAI)
    (L : InClusterConfigMapLocation) (v : CAI) (h : caBundles.get? L = some v) :
    (mergePKIList currPKI certs caBundles).caBundles.get? L = some v := by
  rcases mergePKIList_cases currPKI certs caBundles with ⟨e, _, h2⟩ | ⟨_, h2⟩ <;> rw [h2]
  · exact h
  · exact mergeLoop_preserves _ _ L v _ caBundles h

theorem parsePKIInfo_preserves_certs (unmarshal : Bytes → Except String (PKIList CKI CAI))
    (currBytes : Bytes)
    (certs : SecretInfoByNamespaceName CKI) (caBundles : ConfigMapInfoByNamespaceName CAI)
    (L : InClusterSecretLocation) (v : CKI) (h : certs.get? L = some v) :
    (parsePKIInfo unmarshal currBytes certs caBundles).certs.get? L = some v := by
  cases hu : unmarshal currBytes with
  | error e => rw [parsePKIInfo_of_error _ _ e _ _ hu]; exact h
  | ok d =>
    rw [parsePKIInfo_of_ok _ _ d _ _ hu]
    exact mergePKIList_preserves_certs d certs caBundles L v h

theorem parsePKIInfo_preserves_caBundles (unmarshal : Bytes → Except String (PKIList CKI CAI))
    (currBytes : Bytes)
    (certs : SecretInfoByNamespaceName CKI) (caBundles : ConfigMapInfoByNamespaceName CAI)
    (L : InClusterConfigMapLocation) (v : CAI) (h : caBundles.get? L = some v) :
    (parsePKIInfo unmarshal currBytes certs caBundles).caBundles.get? L = some v := by
  cases hu : unmarshal currBytes with
  | error e => rw [parsePKIInfo_of_error _ _ e _ _ hu]; exact h
  | ok d =>
    rw [parsePKIInfo_of_ok _ _ d _ _ hu]
    exact mergePKIList_preserves_caBundles d certs caBundles L v h

theorem ingest_preserves_certs (unmarshal : Bytes → Except String (PKIList CKI CAI))
    (L : InClusterSecretLocation) (v : CKI) :
    ∀ (docs : List Bytes)
      (st : SecretInfoByNamespaceName CKI × ConfigMapInfoByNamespaceName CAI),
      st.1.get? L = some v → (ingest unmarshal st docs).1.get? L = some v
  | [], _, h => by simpa [ingest] using h
  | b :: rest, st, h => by
    simp only [ingest]
    exact ingest_preserves_certs unmarshal L v rest _
      (parsePKIInfo_preserves_certs unmarshal b st.1 st.2 L v h)

theorem ingest_preserves_caBundles (unmarshal : Bytes → Except String (PKIList CKI CAI))
    (L : InClusterConfigMapLocation) (v : CAI) :
    ∀ (docs : List Bytes)
      (st : SecretInfoByNamespaceName CKI × ConfigMapInfoByNamespaceName CAI),
      st.2.get? L = some v → (ingest unmarshal st docs).2.get? L = some v
  | [], _, h => by simpa [ingest] using h
  | b :: rest, st, h => by
    simp only [ingest]
    exact ingest_preserves_caBundles unmarshal L v rest _
      (parsePKIInfo_preserves_caBundles unmarshal b st.1 st.2 L v h)

theorem ingest_append (unmarshal : Bytes → Except String (PKIList CKI CAI)) :
    ∀ (docs1 docs2 : List Bytes)
      (st : SecretInfoByNamespaceName CKI × ConfigMapInfoByNamespaceName CAI),
      ingest unmarshal st (docs1 ++ docs2) = ingest unmarshal (ingest unmarshal st docs1) docs2
  | [], _, _ => rfl
  | b :: rest, docs2, st => by
    simp only [List.cons_append, ingest]
    exact ingest_append unmarshal rest docs2 _

end ParseLemmas

/-! ## The conflict rule -/

section ConflictLemmas

variable {R K V : Type} [DecidableEq K] [DecidableEq V] (key : R → K) (val : R → V)

omit [DecidableEq V] in
theorem reachesConflict_nil (m : GoMap K V) : ¬ reachesConflict key val m [] := by
  rintro ⟨pre, r, post, h, _⟩
  cases pre <;> simp at h

omit [DecidableEq V] in
theorem reachesConflict_cons_of_conflict (m : GoMap K V) (r : R) (rest : List R) (v : V)
    (h : m.get? (key r) = some v) (hne : v ≠ val r) : reachesConflict key val m (r :: rest) :=
  ⟨[], r, rest, rfl, v, h, hne⟩

omit [DecidableEq V] in
theorem reachesConflict_cons_of_store (m : GoMap K V) (r : R) (rest : List R)
    (hok : ∀ v, m.get? (key r) = some v → v = val r) :
    reachesConflict key val m (r :: rest) ↔
      reachesConflict key val (m.set (key r) (val r)) rest := by
  constructor
  · rintro ⟨pre, r2, post, hsplit, v, hv, hne⟩
    cases pre with
    | nil =>
      simp only [List.nil_append, List.cons.injEq] at hsplit
      rcases hsplit with ⟨e, _⟩
      subst e
      exact absurd (hok v hv) hne
    | cons p pre2 =>
      simp only [List.cons_append, List.cons.injEq] at hsplit
      rcases hsplit with ⟨e, hrest⟩
      subst e
      exact ⟨pre2, r2, post, hrest, v, hv, hne⟩
  · rintro ⟨pre, r2, post, hsplit, v, hv, hne⟩
    exact ⟨r :: pre, r2, post, by simp [hsplit], v, hv, hne⟩

/-- The loop returns an error exactly when the conflict rule fires. -/
theorem mergeLoop_error_iff :
    ∀ (recs : List R) (m : GoMap K V),
      (mergeLoop key val m recs).2 ≠ none ↔ reachesConflict key val m recs
  | [], m => by
    simp only [mergeLoop, ne_eq, not_true_eq_false, false_iff]
    exact reachesConflict_nil key val m
  | r :: rest, m => by
    rcases mergeLoop_cons_cases key val m r rest with ⟨v, hv, hne, e⟩ | ⟨hok, e⟩
    · rw [e]
      simp only [ne_eq, reduceCtorEq, not_false_eq_true, true_iff]
      exact reachesConflict_cons_of_conflict key val m r rest v hv hne
    · rw [e, reachesConflict_cons_of_store key val m r rest hok]
      exact mergeLoop_error_iff rest _

/-- A record whose location the map already holds with another value makes
the loop return an error. -/
theorem mergeLoop_error_of_mem (m : GoMap K V) (recs : List R) (r : R) (hr : r ∈ recs)
    (v1 : V) (h1 : m.get? (key r) = some v1) (hne : v1 ≠ val r) :
    (mergeLoop key val m recs).2 ≠ none := by
  intro hnone
  have hs := mergeLoop_stored key val recs m hnone r hr
  have hp := mergeLoop_preserves key val (key r) v1 recs m h1
  rw [hs] at hp
  exact hne (Option.some.inj hp).symm

end ConflictLemmas

section ParseLemmas2

variable {CKI CAI : Type} [DecidableEq CKI] [DecidableEq CAI]

theorem mergePKIList_err_none_iff (currPKI : PKIList CKI CAI)
    (certs : SecretInfoByNamespaceName CKI) (caBundles : ConfigMapInfoByNamespaceName CAI) :
    (mergePKIList currPKI certs caBundles).err = none ↔
      (mergeLoop PKIRegistryInClusterCertKeyPair.SecretLocation
          PKIRegistryInClusterCertKeyPair.CertKeyInfo certs
          currPKI.InClusterResourceData.CertKeyPairs).2 = none ∧
      (mergeLoop PKIRegistryInClusterCABundle.ConfigMapLocation
          PKIRegistryInClusterCABundle.CABundleInfo caBundles
          currPKI.InClusterResourceData.CertificateAuthorityBundles).2 = none := by
  rcases mergePKIList_cases currPKI certs caBundles with ⟨e, h1, h2⟩ | ⟨h1, h2⟩
  · rw [h2, h1]; simp
  · rw [h2, h1]; simp

theorem mergePKIList_error_iff (currPKI : PKIList CKI CAI)
    (certs : SecretInfoByNamespaceName CKI) (caBundles : ConfigMapInfoByNamespaceName CAI) :
    (mergePKIList currPKI certs caBundles).err ≠ none ↔
      reachesConflict PKIRegistryInClusterCertKeyPair.SecretLocation
          PKIRegistryInClusterCertKeyPair.CertKeyInfo certs
          currPKI.InClusterResourceData.CertKeyPairs ∨
      reachesConflict PKIRegistryInClusterCABundle.ConfigMapLocation
          PKIRegistryInClusterCABundle.CABundleInfo caBundles
          currPKI.InClusterResourceData.CertificateAuthorityBundles := by
  rw [← mergeLoop_error_iff, ← mergeLoop_error_iff, ne_eq, mergePKIList_err_none_iff]
  tauto

/-- A second `mergePKIList` of the same document changes nothing and ends the
same way. -/
theorem mergePKIList_idem (currPKI : PKIList CKI CAI)
    (certs : SecretInfoByNamespaceName CKI) (caBundles : ConfigMapInfoByNamespaceName CAI) :
    mergePKIList currPKI (mergePKIList currPKI certs caBundles).certs
        (mergePKIList currPKI certs caBundles).caBundles =
      mergePKIList currPKI certs caBundles := by
  rcases mergePKIList_cases currPKI certs caBundles with ⟨e, h1, h2⟩ | ⟨h1, h2⟩
  · rw [h2]
    simp only
    unfold mergePKIList
    rw [mergeLoop_idem]
    generalize mergeLoop PKIRegistryInClusterCertKeyPair.SecretLocation
      PKIRegistryInClusterCertKeyPair.CertKeyInfo certs
      currPKI.InClusterResourceData.CertKeyPairs = x at h1 ⊢
    rcases x with ⟨c1, e1⟩
    simp only at h1
    subst h1
    rfl
  · rw [h2]
    simp only
    unfold mergePKIList
    rw [mergeLoop_idem, mergeLoop_idem]
    generalize mergeLoop PKIRegistryInClusterCertKeyPair.SecretLocation
      PKIRegistryInClusterCertKeyPair.CertKeyInfo certs
      currPKI.InClusterResourceData.CertKeyPairs = x at h1 ⊢
    rcases x with ⟨c1, e1⟩
    simp only at h1
    subst h1
    rfl

/-- A second `parsePKIInfo` of the same buffer changes nothing and ends the
same way. -/
theorem parsePKIInfo_idem (unmarshal : Bytes → Except String (PKIList CKI CAI))
    (currBytes : Bytes)
    (certs : SecretInfoByNamespaceName CKI) (caBundles : ConfigMapInfoByNamespaceName CAI) :
    parsePKIInfo unmarshal currBytes (parsePKIInfo unmarshal currBytes certs caBundles).certs
        (parsePKIInfo unmarshal currBytes certs caBundles).caBundles =
      parsePKIInfo unmarshal currBytes certs caBundles := by
  cases hu : unmarshal currBytes with
  | error e => simp [parsePKIInfo, hu]
  | ok d =>
    simp only [parsePKIInfo, hu]
    exact mergePKIList_idem d certs caBundles

end ParseLemmas2

/-! ## Runs without conflicts -/

section NoConflictLemmas

variable {R K V : Type} [DecidableEq K] [DecidableEq V] (key : R → K) (val : R → V)

omit [DecidableEq K] [DecidableEq V] in
theorem NoConflict.of_cons {r : R} {recs : List R} (h : NoConflict key val (r :: recs)) :
    NoConflict key val recs :=
  fun r1 h1 r2 h2 => h r1 (List.mem_cons_of_mem _ h1) r2 (List.mem_cons_of_mem _ h2)

omit [DecidableEq K] [DecidableEq V] in
theorem NoConflict.of_append_left {l1 l2 : List R} (h : NoConflict key val (l1 ++ l2)) :
    NoConflict key val l1 :=
  fun r1 h1 r2 h2 => h r1 (List.mem_append_left _ h1) r2 (List.mem_append_left _ h2)

omit [DecidableEq K] [DecidableEq V] in
theorem NoConflict.of_append_right {l1 l2 : List R} (h : NoConflict key val (l1 ++ l2)) :
    NoConflict key val l2 :=
  fun r1 h1 r2 h2 => h r1 (List.mem_append_right _ h1) r2 (List.mem_append_right _ h2)

omit [DecidableEq K] [DecidableEq V] in
theorem NoConflict.of_mem_iff {l1 l2 : List R} (h : NoConflict key val l1)
    (hm : ∀ r, r ∈ l2 → r ∈ l1) : NoConflict key val l2 :=
  fun r1 h1 r2 h2 => h r1 (hm r1 h1) r2 (hm r2 h2)

/-- Records that agree with each other and with the map go through the loop
without error. -/
theorem mergeLoop_ok_of_noConflict :
    ∀ (recs : List R) (m : GoMap K V), NoConflict key val recs →
      (∀ r ∈ recs, ∀ v, m.get? (key r) = some v → v = val r) →
      (mergeLoop key val m recs).2 = none
  | [], m, _, _ => rfl
  | r :: rest, m, hnc, hag => by
    rw [mergeLoop_cons_store key val m r rest (hag r (List.mem_cons_self _ _))]
    apply mergeLoop_ok_of_noConflict rest _ (NoConflict.of_cons key val hnc)
    intro r2 h2 v hv
    rw [GoMap.get?_set] at hv
    by_cases hk : key r2 = key r
    · simp only [hk, if_true, Option.some.injEq] at hv
      rw [← hv]
      exact hnc r (List.mem_cons_self _ _) r2 (List.mem_cons_of_mem _ h2) hk.symm
    · simp only [hk, if_false] at hv
      exact hag r2 (List.mem_cons_of_mem _ h2) v hv

/-- After a loop without error the map holds what it held before and what the
records say, and nothing else. -/
theorem mergeLoop_get?_iff (recs : List R) (m : GoMap K V)
    (hnone : (mergeLoop key val m recs).2 = none) (k : K) (v : V) :
    (mergeLoop key val m recs).1.get? k = some v ↔
      m.get? k = some v ∨ ∃ r ∈ recs, key r = k ∧ val r = v := by
  constructor
  · intro h
    by_cases hex : ∃ r ∈ recs, key r = k
    · rcases hex with ⟨r, hr, hk⟩
      have hs := mergeLoop_stored key val recs m hnone r hr
      rw [hk, h] at hs
      exact Or.inr ⟨r, hr, hk, (Option.some.inj hs).symm⟩
    · have hfr := mergeLoop_frame key val k recs m (fun r hr hk => hex ⟨r, hr, hk⟩)
      rw [hfr] at h
      exact Or.inl h
  · rintro (h | ⟨r, hr, hk, hv⟩)
    · exact mergeLoop_preserves key val k v recs m h
    · rw [← hk, ← hv]
      exact mergeLoop_stored key val recs m hnone r hr

end NoConflictLemmas

theorem option_eq_of_some_iff {V : Type} {o1 o2 : Option V}
    (h : ∀ v, o1 = some v ↔ o2 = some v) : o1 = o2 := by
  cases o1 with
  | none =>
    cases o2 with
    | none => rfl
    | some w => exact absurd ((h w).2 rfl) (by simp)
  | some w => exact ((h w).1 rfl).symm

section RunLemmas

variable {CKI CAI : Type} [DecidableEq CKI] [DecidableEq CAI]

omit [DecidableEq CKI] [DecidableEq CAI] in
theorem mem_certRecordsOf (unmarshal : Bytes → Except String (PKIList CKI CAI))
    (r : PKIRegistryInClusterCertKeyPair CKI) :
    ∀ docs : List Bytes, r ∈ certRecordsOf unmarshal docs ↔
      ∃ b ∈ docs, ∃ d, unmarshal b = .ok d ∧ r ∈ d.InClusterResourceData.CertKeyPairs
  | [] => by simp [certRecordsOf]
  | b :: rest => by
    cases hu : unmarshal b with
    | error e => simp [certRecordsOf, hu, mem_certRecordsOf unmarshal r rest]
    | ok d => simp [certRecordsOf, hu, mem_certRecordsOf unmarshal r rest]

omit [DecidableEq CKI] [DecidableEq CAI] in
theorem mem_caRecordsOf (unmarshal : Bytes → Except String (PKIList CKI CAI))
    (r : PKIRegistryInClusterCABundle CAI) :
    ∀ docs : List Bytes, r ∈ caRecordsOf unmarshal docs ↔
      ∃ b ∈ docs, ∃ d, unmarshal b = .ok d ∧
        r ∈ d.InClusterResourceData.CertificateAuthorityBundles
  | [] => by simp [caRecordsOf]
  | b :: rest => by
    cases hu : unmarshal b with
    | error e => simp [caRecordsOf, hu, mem_caRecordsOf unmarshal r rest]
    | ok d => simp [caRecordsOf, hu, mem_caRecordsOf unmarshal r rest]

/-- A document whose records agree with each other and with the maps is merged
without error. -/
theorem mergePKIList_ok_of_noConflict (currPKI : PKIList CKI CAI)
    (certs : SecretInfoByNamespaceName CKI) (caBundles : ConfigMapInfoByNamespaceName CAI)
    (hc : NoConflict PKIRegistryInClusterCertKeyPair.SecretLocation
      PKIRegistryInClusterCertKeyPair.CertKeyInfo currPKI.InClusterResourceData.CertKeyPairs)
    (ha : NoConflict PKIRegistryInClusterCABundle.ConfigMapLocation
      PKIRegistryInClusterCABundle.CABundleInfo
      currPKI.InClusterResourceData.CertificateAuthorityBundles)
    (hcm : ∀ r ∈ currPKI.InClusterResourceData.CertKeyPairs, ∀ v,
      certs.get? r.SecretLocation = some v → v = r.CertKeyInfo)
    (ham : ∀ r ∈ currPKI.InClusterResourceData.CertificateAuthorityBundles, ∀ v,
      caBundles.get? r.ConfigMapLocation = some v → v = r.CABundleInfo) :
    (mergePKIList currPKI certs caBundles).err = none := by
  rw [mergePKIList_err_none_iff]
  exact ⟨mergeLoop_ok_of_noConflict _ _ _ certs hc hcm,
    mergeLoop_ok_of_noConflict _ _ _ caBundles ha ham⟩

/-- What the maps hold after a `mergePKIList` without error. -/
theorem mergePKIList_get?_iff (currPKI : PKIList CKI CAI)
    (certs : SecretInfoByNamespaceName CKI) (caBundles : ConfigMapInfoByNamespaceName CAI)
    (hnone : (mergePKIList currPKI certs caBundles).err = none) :
    (∀ k v, (mergePKIList currPKI certs caBundles).certs.get? k = some v ↔
      certs.get? k = some v ∨
        ∃ r ∈ currPKI.InClusterResourceData.CertKeyPairs,
          r.SecretLocation = k ∧ r.CertKeyInfo = v) ∧
    (∀ k v, (mergePKIList currPKI certs caBundles).caBundles.get? k = some v ↔
      caBundles.get? k = some v ∨
        ∃ r ∈ currPKI.InClusterResourceData.CertificateAuthorityBundles,
          r.ConfigMapLocation = k ∧ r.CABundleInfo = v) := by
  have hn := (mergePKIList_err_none_iff currPKI certs caBundles).1 hnone
  rcases mergePKIList_cases currPKI certs caBundles with ⟨e, h1, _⟩ | ⟨_, h2⟩
  · rw [hn.1] at h1; cases h1
  · rw [h2]
    exact ⟨fun k v => mergeLoop_get?_iff _ _ _ certs hn.1 k v,
      fun k v => mergeLoop_get?_iff _ _ _ caBundles hn.2 k v⟩

/-- What the maps hold after a run over documents whose records agree with
each other and with the maps the run starts from. -/
theorem ingest_get?_iff (unmarshal : Bytes → Except String (PKIList CKI CAI)) :
    ∀ (docs : List Bytes)
      (st : SecretInfoByNamespaceName CKI × ConfigMapInfoByNamespaceName CAI),
      NoConflict PKIRegistryInClusterCertKeyPair.SecretLocation
        PKIRegistryInClusterCertKeyPair.CertKeyInfo (certRecordsOf unmarshal docs) →
      NoConflict PKIRegistryInClusterCABundle.ConfigMapLocation
        PKIRegistryInClusterCABundle.CABundleInfo (caRecordsOf unmarshal docs) →
      (∀ r ∈ certRecordsOf unmarshal docs, ∀ v,
        st.1.get? r.SecretLocation = some v → v = r.CertKeyInfo) →
      (∀ r ∈ caRecordsOf unmarshal docs, ∀ v,
        st.2.get? r.ConfigMapLocation = some v → v = r.CABundleInfo) →
      (∀ k v, (ingest unmarshal st docs).1.get? k = some v ↔
        st.1.get? k = some v ∨
          ∃ r ∈ certRecordsOf unmarshal docs, r.SecretLocation = k ∧ r.CertKeyInfo = v) ∧
      (∀ k v, (ingest unmarshal st docs).2.get? k = some v ↔
        st.2.get? k = some v ∨
          ∃ r ∈ caRecordsOf unmarshal docs, r.ConfigMapLocation = k ∧ r.CABundleInfo = v)
  | [], st, _, _, _, _ => by simp [ingest, certRecordsOf, caRecordsOf]
  | b :: rest, st, hc, ha, hcm, ham => by
    cases hu : unmarshal b with
    | error e =>
      simp only [certRecordsOf, caRecordsOf, hu] at hc ha hcm ham ⊢
      simp only [ingest, parsePKIInfo_of_error unmarshal b e st.1 st.2 hu]
      exact ingest_get?_iff unmarshal rest st hc ha hcm ham
    | ok d =>
      simp only [certRecordsOf, caRecordsOf, hu] at hc ha hcm ham ⊢
      simp only [ingest, parsePKIInfo_of_ok unmarshal b d st.1 st.2 hu]
      have hok : (mergePKIList d st.1 st.2).err = none :=
        mergePKIList_ok_of_noConflict d st.1 st.2
          (NoConflict.of_append_left _ _ hc) (NoConflict.of_append_left _ _ ha)
          (fun r hr => hcm r (List.mem_append_left _ hr))
          (fun r hr => ham r (List.mem_append_left _ hr))
      have hget := mergePKIList_get?_iff d st.1 st.2 hok
      have ih := ingest_get?_iff unmarshal rest
        ((mergePKIList d st.1 st.2).certs, (mergePKIList d st.1 st.2).caBundles)
        (NoConflict.of_append_right _ _ hc) (NoConflict.of_append_right _ _ ha)
        (by
          intro r hr v hv
          rcases (hget.1 _ _).1 hv with h | ⟨r2, hr2, hk, hv2⟩
          · exact hcm r (List.mem_append_right _ hr) v h
          · rw [← hv2]
            exact hc r2 (List.mem_append_left _ hr2) r (List.mem_append_right _ hr) hk)
        (by
          intro r hr v hv
          rcases (hget.2 _ _).1 hv with h | ⟨r2, hr2, hk, hv2⟩
          · exact ham r (List.mem_append_right _ hr) v h
          · rw [← hv2]
            exact ha r2 (List.mem_append_left _ hr2) r (List.mem_append_right _ hr) hk)
      constructor
      · intro k v
        rw [ih.1 k v, hget.1 k v]
        simp only [List.mem_append]
        constructor
        · rintro ((h | ⟨r, hr, h⟩) | ⟨r, hr, h⟩)
          · exact Or.inl h
          · exact Or.inr ⟨r, Or.inl hr, h⟩
          · exact Or.inr ⟨r, Or.inr hr, h⟩
        · rintro (h | ⟨r, hr | hr, h⟩)
          · exact Or.inl (Or.inl h)
          · exact Or.inl (Or.inr ⟨r, hr, h⟩)
          · exact Or.inr ⟨r, hr, h⟩
      · intro k v
        rw [ih.2 k v, hget.2 k v]
        simp only [List.mem_append]
        constructor
        · rintro ((h | ⟨r, hr, h⟩) | ⟨r, hr, h⟩)
          · exact Or.inl h
          · exact Or.inr ⟨r, Or.inl hr, h⟩
          · exact Or.inr ⟨r, Or.inr hr, h⟩
        · rintro (h | ⟨r, hr | hr, h⟩)
          · exact Or.inl (Or.inl h)
          · exact Or.inl (Or.inr ⟨r, hr, h⟩)
          · exact Or.inr ⟨r, hr, h⟩

/-- Runs over the same documents in two orders export the same registry when
no location carries two unequal values among the documents. -/
theorem aggregate_perm_of_noConflict [Inhabited CKI] [Inhabited CAI]
    (unmarshal : Bytes → Except String (PKIList CKI CAI)) (docs1 docs2 : List Bytes)
    (hp : docs1.Perm docs2)
    (hc : NoConflict PKIRegistryInClusterCertKeyPair.SecretLocation
      PKIRegistryInClusterCertKeyPair.CertKeyInfo (certRecordsOf unmarshal docs1))
    (ha : NoConflict PKIRegistryInClusterCABundle.ConfigMapLocation
      PKIRegistryInClusterCABundle.CABundleInfo (caRecordsOf unmarshal docs1)) :
    aggregate unmarshal docs1 = aggregate unmarshal docs2 := by
  have hmc : ∀ r, r ∈ certRecordsOf unmarshal docs2 ↔ r ∈ certRecordsOf unmarshal docs1 := by
    intro r
    rw [mem_certRecordsOf, mem_certRecordsOf]
    exact ⟨fun ⟨b, hb, h⟩ => ⟨b, hp.mem_iff.2 hb, h⟩, fun ⟨b, hb, h⟩ => ⟨b, hp.mem_iff.1 hb, h⟩⟩
  have hma : ∀ r, r ∈ caRecordsOf unmarshal docs2 ↔ r ∈ caRecordsOf unmarshal docs1 := by
    intro r
    rw [mem_caRecordsOf, mem_caRecordsOf]
    exact ⟨fun ⟨b, hb, h⟩ => ⟨b, hp.mem_iff.2 hb, h⟩, fun ⟨b, hb, h⟩ => ⟨b, hp.mem_iff.1 hb, h⟩⟩
  have h1 := ingest_get?_iff unmarshal docs1 (GoMap.empty, GoMap.empty) hc ha
    (by intro r _ v hv; simp [GoMap.get?_empty] at hv)
    (by intro r _ v hv; simp [GoMap.get?_empty] at hv)
  have h2 := ingest_get?_iff unmarshal docs2 (GoMap.empty, GoMap.empty)
    (NoConflict.of_mem_iff _ _ hc (fun r => (hmc r).1))
    (NoConflict.of_mem_iff _ _ ha (fun r => (hma r).1))
    (by intro r _ v hv; simp [GoMap.get?_empty] at hv)
    (by intro r _ v hv; simp [GoMap.get?_empty] at hv)
  unfold aggregate
  apply certsToRegistryInfo_congr
  · intro k
    apply option_eq_of_some_iff
    intro v
    rw [h1.1 k v, h2.1 k v]
    simp only [hmc]
  · intro k
    apply option_eq_of_some_iff
    intro v
    rw [h1.2 k v, h2.2 k v]
    simp only [hma]

end RunLemmas

/-! ## The enumerators as runs -/

section EnumeratorLemmas

variable {CKI CAI : Type} [DecidableEq CKI] [DecidableEq CAI]

theorem embeddedLoop_eq_ingest (unmarshal : Bytes → Except String (PKIList CKI CAI))
    (pkiInfoDir : EmbedFS) :
    ∀ (dir : List EmbedEntry)
      (st : SecretInfoByNamespaceName CKI × ConfigMapInfoByNamespaceName CAI),
      embeddedLoop unmarshal pkiInfoDir st dir =
        ingest unmarshal st (embeddedDocs pkiInfoDir dir)
  | [], _ => rfl
  | file :: rest, st => by
    by_cases hd : file.isDir = true
    · simp only [embeddedLoop, embeddedDocs, hd, if_true]
      exact embeddedLoop_eq_ingest unmarshal pkiInfoDir rest st
    · cases hr : pkiInfoDir.readFile (filepathJoin rawTLSRootDir file.name) with
      | error e =>
        simp only [embeddedLoop, embeddedDocs, hd, hr]
        exact embeddedLoop_eq_ingest unmarshal pkiInfoDir rest st
      | ok b =>
        simp only [embeddedLoop, embeddedDocs, hd, hr, ingest]
        exact embeddedLoop_eq_ingest unmarshal pkiInfoDir rest _

/-- Once the listing succeeds the embedded enumerator returns a nil error and
the registry of the run over the readable regular entries. -/
theorem GetPKIInfoFromEmbeddedRawData_eq_aggregate [Inhabited CKI] [Inhabited CAI]
    (unmarshal : Bytes → Except String (PKIList CKI CAI)) (pkiInfoDir : EmbedFS)
    (dir : List EmbedEntry) (h : pkiInfoDir.readDir rawTLSRootDir = .ok dir) :
    GetPKIInfoFromEmbeddedRawData unmarshal pkiInfoDir =
      (some (aggregate unmarshal (embeddedDocs pkiInfoDir dir)), none) := by
  simp only [GetPKIInfoFromEmbeddedRawData, h, embeddedLoop_eq_ingest, aggregate]

theorem walkDir_eq_ingest (unmarshal : Bytes → Except String (PKIList CKI CAI))
    (fs : DirFS) (rawTLSInfoDir : String) :
    ∀ (entries : List WalkEntry)
      (st : SecretInfoByNamespaceName CKI × ConfigMapInfoByNamespaceName CAI),
      (∀ d ∈ entries, d.err = none ∧
        (d.isDir = false → ∃ b, fs.readFile (filepathJoin rawTLSInfoDir d.name) = .ok b)) →
      walkDir (walkFn unmarshal fs rawTLSInfoDir) st entries =
        (ingest unmarshal st (walkDocs fs rawTLSInfoDir entries), none)
  | [], _, _ => rfl
  | d :: rest, st, h => by
    have hd := h d (List.mem_cons_self _ _)
    have hrest : ∀ d2 ∈ rest, d2.err = none ∧
        (d2.isDir = false → ∃ b, fs.readFile (filepathJoin rawTLSInfoDir d2.name) = .ok b) :=
      fun d2 h2 => h d2 (List.mem_cons_of_mem _ h2)
    by_cases hdir : d.isDir = true
    · simp only [walkDir, walkFn, walkDocs, hd.1, hdir, if_true]
      exact walkDir_eq_ingest unmarshal fs rawTLSInfoDir rest st hrest
    · rcases hd.2 (by simpa using hdir) with ⟨b, hb⟩
      simp only [walkDir, walkFn, walkDocs, hd.1, hdir, hb, ingest]
      exact walkDir_eq_ingest unmarshal fs rawTLSInfoDir rest _ hrest

/-- When no step of the walk fails and every file can be read under its joined
name, the directory enumerator returns a nil error and the registry of the run
over the files, whatever `parsePKIInfo` returned for them. -/
theorem GetPKIInfoFromRawData_eq_aggregate [Inhabited CKI] [Inhabited CAI]
    (unmarshal : Bytes → Except String (PKIList CKI CAI)) (fs : DirFS)
    (rawTLSInfoDir : String)
    (h : ∀ d ∈ fs.walk rawTLSInfoDir, d.err = none ∧
      (d.isDir = false → ∃ b, fs.readFile (filepathJoin rawTLSInfoDir d.name) = .ok b)) :
    GetPKIInfoFromRawData unmarshal fs rawTLSInfoDir =
      (some (aggregate unmarshal (walkDocs fs rawTLSInfoDir (fs.walk rawTLSInfoDir))), none) := by
  simp only [GetPKIInfoFromRawData, walkDir_eq_ingest unmarshal fs rawTLSInfoDir _ _ h,
    aggregate]

end EnumeratorLemmas

/-! ## Further lemmas on the exporter, the enumerators and the loop -/

section ExportContent

variable {K V : Type} [DecidableEq K] [Inhabited V]

theorem GoMap.get?_index_of_mem_keys (m : GoMap K V) (k : K) (h : k ∈ m.keys) :
    m.get? k = some (m.index k) := by
  rcases (GoMap.mem_keys_iff m k).1 h with ⟨v, hv⟩
  simp [GoMap.index, hv]

theorem GoMap.index_of_get?_some (m : GoMap K V) (k : K) (v : V) (h : m.get? k = some v) :
    m.index k = v := by
  simp [GoMap.index, h]

end ExportContent

section ExportContent2

variable {CKI CAI : Type} [Inhabited CKI] [Inhabited CAI]

theorem certKeyPairs_length (certs : SecretInfoByNamespaceName CKI)
    (caBundles : ConfigMapInfoByNamespaceName CAI) :
    (certsToRegistryInfo certs caBundles).CertKeyPairs.length = certs.keys.length := by
  have h := congrArg List.length (certKeyPairs_locations certs caBundles)
  rw [List.length_map] at h
  rw [h]
  exact (sortSort_perm _).length_eq

theorem caBundles_length (certs : SecretInfoByNamespaceName CKI)
    (caBundles : ConfigMapInfoByNamespaceName CAI) :
    (certsToRegistryInfo certs caBundles).CertificateAuthorityBundles.length =
      caBundles.keys.length := by
  have h := congrArg List.length (caBundles_locations certs caBundles)
  rw [List.length_map] at h
  rw [h]
  exact (sortSort_perm _).length_eq

/-- The exported certificate entries are exactly the pairs the map holds. -/
theorem mem_certKeyPairs_iff (certs : SecretInfoByNamespaceName CKI)
    (caBundles : ConfigMapInfoByNamespaceName CAI) (e : PKIRegistryInClusterCertKeyPair CKI) :
    e ∈ (certsToRegistryInfo certs caBundles).CertKeyPairs ↔
      certs.get? e.SecretLocation = some e.CertKeyInfo := by
  simp only [certsToRegistryInfo, List.mem_map, mem_sortSort]
  constructor
  · rintro ⟨k, hk, rfl⟩
    exact GoMap.get?_index_of_mem_keys certs k hk
  · intro h
    refine ⟨e.SecretLocation, (GoMap.mem_keys_iff _ _).2 ⟨_, h⟩, ?_⟩
    rw [GoMap.index_of_get?_some certs _ _ h]

/-- The exported CA-bundle entries are exactly the pairs the map holds. -/
theorem mem_caBundles_iff (certs : SecretInfoByNamespaceName CKI)
    (caBundles : ConfigMapInfoByNamespaceName CAI) (e : PKIRegistryInClusterCABundle CAI) :
    e ∈ (certsToRegistryInfo certs caBundles).CertificateAuthorityBundles ↔
      caBundles.get? e.ConfigMapLocation = some e.CABundleInfo := by
  simp only [certsToRegistryInfo, List.mem_map, mem_sortSort]
  constructor
  · rintro ⟨k, hk, rfl⟩
    exact GoMap.get?_index_of_mem_keys caBundles k hk
  · intro h
    refine ⟨e.ConfigMapLocation, (GoMap.mem_keys_iff _ _).2 ⟨_, h⟩, ?_⟩
    rw [GoMap.index_of_get?_some caBundles _ _ h]

end ExportContent2

/-- The buffers the embedded loop reads depend on `ReadFile` only. -/
theorem embeddedDocs_congr (fs1 fs2 : EmbedFS) (h : fs1.readFile = fs2.readFile) :
    ∀ dir : List EmbedEntry, embeddedDocs fs1 dir = embeddedDocs fs2 dir
  | [] => rfl
  | file :: rest => by
    simp only [embeddedDocs, h, embeddedDocs_congr fs1 fs2 h rest]

/-- Leaving out the entries the embedded loop skips does not change the
buffers it reads. -/
theorem embeddedDocs_filter (pkiInfoDir : EmbedFS) :
    ∀ dir : List EmbedEntry,
      embeddedDocs pkiInfoDir (dir.filter (readableRegular pkiInfoDir)) =
        embeddedDocs pkiInfoDir dir
  | [] => rfl
  | file :: rest => by
    by_cases hd : file.isDir = true
    · have hr : readableRegular pkiInfoDir file = false := by simp [readableRegular, hd]
      simp only [List.filter_cons, hr, embeddedDocs, hd, if_true]
      exact embeddedDocs_filter pkiInfoDir rest
    · cases hf : pkiInfoDir.readFile (filepathJoin rawTLSRootDir file.name) with
      | error e =>
        have hr : readableRegular pkiInfoDir file = false := by simp [readableRegular, hf]
        simp only [List.filter_cons, hr, embeddedDocs, hd, hf]
        exact embeddedDocs_filter pkiInfoDir rest
      | ok b =>
        have hr : readableRegular pkiInfoDir file = true := by simp [readableRegular, hd, hf]
        simp only [List.filter_cons, hr, embeddedDocs, hd, hf, if_true]
        rw [embeddedDocs_filter pkiInfoDir rest]

section LoopLemmas2

variable {R K V : Type} [DecidableEq K] [DecidableEq V] (key : R → K) (val : R → V)

/-- The only error the loop returns is the fixed mismatch text. -/
theorem mergeLoop_err_cases :
    ∀ (recs : List R) (m : GoMap K V),
      (mergeLoop key val m recs).2 = none ∨
        (mergeLoop key val m recs).2 = some "mismatch of certificate info"
  | [], _ => Or.inl rfl
  | r :: rest, m => by
    rcases mergeLoop_cons_cases key val m r rest with ⟨w, _, _, e⟩ | ⟨_, e⟩
    · rw [e]; exact Or.inr rfl
    · rw [e]; exact mergeLoop_err_cases rest _

/-- Records none of which conflicts are all stored. -/
theorem mergeLoop_of_not_reachesConflict :
    ∀ (pre : List R) (m : GoMap K V), ¬ reachesConflict key val m pre →
      mergeLoop key val m pre = (storeAll key val m pre, none)
  | [], _, _ => rfl
  | p :: pre, m, h => by
    have hok : ∀ v, m.get? (key p) = some v → v = val p := by
      intro v hv
      by_contra hne
      exact h (reachesConflict_cons_of_conflict key val m p pre v hv hne)
    rw [mergeLoop_cons_store key val m p pre hok]
    simp only [storeAll]
    exact mergeLoop_of_not_reachesConflict pre _
      (fun hc => h ((reachesConflict_cons_of_store key val m p pre hok).2 hc))

/-- A loop whose first conflicting record is `r` stops there: the map is the
one the records before `r` produced. -/
theorem mergeLoop_fails_at :
    ∀ (pre : List R) (r : R) (post : List R) (m : GoMap K V) (v : V),
      ¬ reachesConflict key val m pre →
      (storeAll key val m pre).get? (key r) = some v → v ≠ val r →
      mergeLoop key val m (pre ++ r :: post) =
        (storeAll key val m pre, some "mismatch of certificate info")
  | [], r, post, m, v, _, hv, hne => by
    simpa [storeAll] using mergeLoop_cons_conflict key val m r post v hv hne
  | p :: pre, r, post, m, v, h, hv, hne => by
    have hok : ∀ w, m.get? (key p) = some w → w = val p := by
      intro w hw
      by_contra hne2
      exact h (reachesConflict_cons_of_conflict key val m p pre w hw hne2)
    rw [List.cons_append, mergeLoop_cons_store key val m p _ hok]
    simp only [storeAll] at hv ⊢
    exact mergeLoop_fails_at pre r post _ v
      (fun hc => h ((reachesConflict_cons_of_store key val m p pre hok).2 hc)) hv hne

end LoopLemmas2

section ParseLemmas3

variable {CKI CAI : Type} [DecidableEq CKI] [DecidableEq CAI]

/-- For a buffer that decodes, the only error `parsePKIInfo` returns is the
fixed mismatch text. -/
theorem mergePKIList_err_cases (currPKI : PKIList CKI CAI)
    (certs : SecretInfoByNamespaceName CKI) (caBundles : ConfigMapInfoByNamespaceName CAI) :
    (mergePKIList currPKI certs caBundles).err = none ∨
      (mergePKIList currPKI certs caBundles).err = some "mismatch of certificate info" := by
  rcases mergePKIList_cases currPKI certs caBundles with ⟨e, h1, h2⟩ | ⟨_, h2⟩
  · rw [h2]
    rcases mergeLoop_err_cases PKIRegistryInClusterCertKeyPair.SecretLocation
      PKIRegistryInClusterCertKeyPair.CertKeyInfo
      currPKI.InClusterResourceData.CertKeyPairs certs with h | h
    · rw [h] at h1; cases h1
    · rw [h] at h1; right; simp only; rw [← h1]
  · rw [h2]
    exact mergeLoop_err_cases _ _ _ caBundles

end ParseLemmas3

section FirstWriter

variable {R K V : Type} [DecidableEq K] [DecidableEq V] (key : R → K) (val : R → V)

/-- Records none of which conflicts are all held by the map that stores them. -/
theorem storeAll_stored (pre : List R) (m : GoMap K V)
    (h : ¬ reachesConflict key val m pre) :
    ∀ p ∈ pre, (storeAll key val m pre).get? (key p) = some (val p) := by
  have e := mergeLoop_of_not_reachesConflict key val pre m h
  have hs := mergeLoop_stored key val pre m (by rw [e])
  rw [e] at hs
  exact hs

/-- Storing records none of which conflicts adds their locations to the key
set and nothing else. -/
theorem storeAll_keys (pre : List R) (m : GoMap K V)
    (h : ¬ reachesConflict key val m pre) (k : K) :
    k ∈ (storeAll key val m pre).keys ↔ k ∈ m.keys ∨ ∃ p ∈ pre, key p = k := by
  have e := mergeLoop_of_not_reachesConflict key val pre m h
  have hs := mergeLoop_keys key val k pre m (by rw [e])
  rw [e] at hs
  exact hs

end FirstWriter

section FirstWriter2

variable {CKI CAI : Type} [DecidableEq CKI] [DecidableEq CAI]

/-- A conflict among the certificate records: the records before it are
stored, the CA-bundle map is not touched. -/
theorem mergePKIList_cert_conflict (currPKI : PKIList CKI CAI)
    (certs : SecretInfoByNamespaceName CKI) (caBundles : ConfigMapInfoByNamespaceName CAI)
    (pre : List (PKIRegistryInClusterCertKeyPair CKI)) (r : PKIRegistryInClusterCertKeyPair CKI)
    (post : List (PKIRegistryInClusterCertKeyPair CKI)) (v : CKI)
    (hsplit : currPKI.InClusterResourceData.CertKeyPairs = pre ++ r :: post)
    (hpre : ¬ reachesConflict PKIRegistryInClusterCertKeyPair.SecretLocation
      PKIRegistryInClusterCertKeyPair.CertKeyInfo certs pre)
    (hv : (storeAll PKIRegistryInClusterCertKeyPair.SecretLocation
      PKIRegistryInClusterCertKeyPair.CertKeyInfo certs pre).get? r.SecretLocation = some v)
    (hne : v ≠ r.CertKeyInfo) :
    mergePKIList currPKI certs caBundles =
      ⟨storeAll PKIRegistryInClusterCertKeyPair.SecretLocation
        PKIRegistryInClusterCertKeyPair.CertKeyInfo certs pre, caBundles,
        some "mismatch of certificate info"⟩ := by
  have e := mergeLoop_fails_at PKIRegistryInClusterCertKeyPair.SecretLocation
    PKIRegistryInClusterCertKeyPair.CertKeyInfo pre r post certs v hpre hv hne
  unfold mergePKIList
  rw [hsplit, e]

/-- A conflict among the CA-bundle records: every certificate record is
stored, and the CA-bundle records before the conflict. -/
theorem mergePKIList_ca_conflict (currPKI : PKIList CKI CAI)
    (certs : SecretInfoByNamespaceName CKI) (caBundles : ConfigMapInfoByNamespaceName CAI)
    (pre : List (PKIRegistryInClusterCABundle CAI)) (r : PKIRegistryInClusterCABundle CAI)
    (post : List (PKIRegistryInClusterCABundle CAI)) (v : CAI)
    (hcerts : ¬ reachesConflict PKIRegistryInClusterCertKeyPair.SecretLocation
      PKIRegistryInClusterCertKeyPair.CertKeyInfo certs
      currPKI.InClusterResourceData.CertKeyPairs)
    (hsplit : currPKI.InClusterResourceData.CertificateAuthorityBundles = pre ++ r :: post)
    (hpre : ¬ reachesConflict PKIRegistryInClusterCABundle.ConfigMapLocation
      PKIRegistryInClusterCABundle.CABundleInfo caBundles pre)
    (hv : (storeAll PKIRegistryInClusterCABundle.ConfigMapLocation
      PKIRegistryInClusterCABundle.CABundleInfo caBundles pre).get? r.ConfigMapLocation = some v)
    (hne : v ≠ r.CABundleInfo) :
    mergePKIList currPKI certs caBundles =
      ⟨storeAll PKIRegistryInClusterCertKeyPair.SecretLocation
        PKIRegistryInClusterCertKeyPair.CertKeyInfo certs
        currPKI.InClusterResourceData.CertKeyPairs,
       storeAll PKIRegistryInClusterCABundle.ConfigMapLocation
        PKIRegistryInClusterCABundle.CABundleInfo caBundles pre,
       some "mismatch of certificate info"⟩ := by
  have e1 := mergeLoop_of_not_reachesConflict PKIRegistryInClusterCertKeyPair.SecretLocation
    PKIRegistryInClusterCertKeyPair.CertKeyInfo _ certs hcerts
  have e2 := mergeLoop_fails_at PKIRegistryInClusterCABundle.ConfigMapLocation
    PKIRegistryInClusterCABundle.CABundleInfo pre r post caBundles v hpre hv hne
  unfold mergePKIList
  rw [e1, hsplit, e2]

/-- A value a location holds after some of the documents is the value the
registry exports for it at the end of the run. -/
theorem aggregate_first_writer_certs [Inhabited CKI] [Inhabited CAI]
    (unmarshal : Bytes → Except String (PKIList CKI CAI)) (docs1 docs2 : List Bytes)
    (L : InClusterSecretLocation) (v : CKI)
    (h : (ingest unmarshal (GoMap.empty, GoMap.empty) docs1).1.get? L = some v) :
    (⟨L, v⟩ : PKIRegistryInClusterCertKeyPair CKI) ∈
      (aggregate unmarshal (docs1 ++ docs2)).CertKeyPairs := by
  unfold aggregate
  rw [mem_certKeyPairs_iff, ingest_append]
  exact ingest_preserves_certs unmarshal L v docs2 _ h

theorem aggregate_first_writer_caBundles [Inhabited CKI] [Inhabited CAI]
    (unmarshal : Bytes → Except String (PKIList CKI CAI)) (docs1 docs2 : List Bytes)
    (L : InClusterConfigMapLocation) (v : CAI)
    (h : (ingest unmarshal (GoMap.empty, GoMap.empty) docs1).2.get? L = some v) :
    (⟨L, v⟩ : PKIRegistryInClusterCABundle CAI) ∈
      (aggregate unmarshal (docs1 ++ docs2)).CertificateAuthorityBundles := by
  unfold aggregate
  rw [mem_caBundles_iff, ingest_append]
  exact ingest_preserves_caBundles unmarshal L v docs2 _ h

end FirstWriter2

/-! ## Lemmas on the test file -/

theorem mem_setEntries {K V : Type} [DecidableEq K] (k : K) (v : V) (e : K × V) :
    ∀ l : List (K × V), e ∈ setEntries k v l → e = (k, v) ∨ e ∈ l
  | [], h => by
    simp only [setEntries, List.mem_singleton] at h
    exact Or.inl h
  | (k', v') :: t, h => by
    by_cases hk : k' = k
    · simp only [setEntries, hk, if_true, List.mem_cons] at h
      rcases h with h | h
      · exact Or.inl h
      · exact Or.inr (List.mem_cons_of_mem _ h)
    · simp only [setEntries, hk, if_false, List.mem_cons] at h
      rcases h with h | h
      · exact Or.inr (h ▸ List.mem_cons_self _ _)
      · rcases mem_setEntries k v e t h with h2 | h2
        · exact Or.inl h2
        · exact Or.inr (List.mem_cons_of_mem _ h2)

theorem reportUnregistered_eq {R K : Type} (text : R → String) (range : RangeOrder K R)
    (messages : List String) (unregistered : GoMap K R) :
    reportUnregistered text range messages unregistered =
      messages ++ (range.visit unregistered.entries).map fun e => text e.2 := by
  unfold reportUnregistered
  by_cases h : unregistered.keys.length > 0
  · simp [h]
  · have h0 : unregistered.entries = [] := by
      have : unregistered.keys = [] := List.length_eq_zero.1 (Nat.eq_zero_of_not_pos h)
      simpa [GoMap.keys] using this
    have h1 : range.visit unregistered.entries = [] := by
      have := range.perm unregistered.entries
      rw [h0] at this ⊢
      exact List.Perm.eq_nil this
    simp [h, h1]

section CheckLoopLemmas

variable {R K V : Type} [DecidableEq K] (key : R → K) (val : R → V)
  (locate : K → List R → Option R) (failureMessage : V → V → String)
  (fmt : K → String → String) (expected : List R)

/-- A live record whose location the lookup misses is stored as unregistered. -/
theorem checkLoop_cons_miss (st : List String × GoMap K R) (curr : R) (rest : List R)
    (h : locate (key curr) expected = none) :
    checkLoop key val locate failureMessage fmt expected st (curr :: rest) =
      checkLoop key val locate failureMessage fmt expected
        (st.1, st.2.set (key curr) curr) rest := by
  simp [checkLoop, h]

/-- A live record that is found and has a non-empty failure message adds a
text. -/
theorem checkLoop_cons_report (st : List String × GoMap K R) (curr : R) (rest : List R)
    (e : R) (h : locate (key curr) expected = some e)
    (hm : (failureMessage (val e) (val curr)).length > 0) :
    checkLoop key val locate failureMessage fmt expected st (curr :: rest) =
      checkLoop key val locate failureMessage fmt expected
        (st.1 ++ [fmt (key curr) (failureMessage (val e) (val curr))], st.2) rest := by
  simp [checkLoop, h, hm]

/-- A live record that is found and has an empty failure message adds nothing. -/
theorem checkLoop_cons_quiet (st : List String × GoMap K R) (curr : R) (rest : List R)
    (e : R) (h : locate (key curr) expected = some e)
    (hm : ¬ (failureMessage (val e) (val curr)).length > 0) :
    checkLoop key val locate failureMessage fmt expected st (curr :: rest) =
      checkLoop key val locate failureMessage fmt expected st rest := by
  simp [checkLoop, h, hm]

/-- The three ways a step of the loop goes. -/
theorem checkLoop_cons_cases (st : List String × GoMap K R) (curr : R) (rest : List R) :
    (locate (key curr) expected = none ∧
      checkLoop key val locate failureMessage fmt expected st (curr :: rest) =
        checkLoop key val locate failureMessage fmt expected
          (st.1, st.2.set (key curr) curr) rest) ∨
    (∃ e, locate (key curr) expected = some e ∧
      (failureMessage (val e) (val curr)).length > 0 ∧
      checkLoop key val locate failureMessage fmt expected st (curr :: rest) =
        checkLoop key val locate failureMessage fmt expected
          (st.1 ++ [fmt (key curr) (failureMessage (val e) (val curr))], st.2) rest) ∨
    (∃ e, locate (key curr) expected = some e ∧
      ¬ (failureMessage (val e) (val curr)).length > 0 ∧
      checkLoop key val locate failureMessage fmt expected st (curr :: rest) =
        checkLoop key val locate failureMessage fmt expected st rest) := by
  cases h : locate (key curr) expected with
  | none => exact Or.inl ⟨rfl, checkLoop_cons_miss key val locate failureMessage fmt expected
      st curr rest h⟩
  | some e =>
    by_cases hm : (failureMessage (val e) (val curr)).length > 0
    · exact Or.inr (Or.inl ⟨e, rfl, hm, checkLoop_cons_report key val locate failureMessage fmt
        expected st curr rest e h hm⟩)
    · exact Or.inr (Or.inr ⟨e, rfl, hm, checkLoop_cons_quiet key val locate failureMessage fmt
        expected st curr rest e h hm⟩)

/-- The texts the loop adds do not depend on the state it starts from. -/
theorem checkLoop_fst :
    ∀ (live : List R) (ms : List String) (u : GoMap K R),
      (checkLoop key val locate failureMessage fmt expected (ms, u) live).1 =
        ms ++ (checkLoop key val locate failureMessage fmt expected ([], GoMap.empty) live).1
  | [], ms, u => by simp [checkLoop]
  | curr :: rest, ms, u => by
    rcases checkLoop_cons_cases key val locate failureMessage fmt expected (ms, u) curr rest
      with ⟨h, e1⟩ | ⟨e, h, hm, e1⟩ | ⟨e, h, hm, e1⟩
    · rw [e1, checkLoop_cons_miss key val locate failureMessage fmt expected _ curr rest h]
      rw [checkLoop_fst rest ms _, checkLoop_fst rest [] (GoMap.empty.set (key curr) curr)]
      simp
    · rw [e1, checkLoop_cons_report key val locate failureMessage fmt expected _ curr rest e h hm]
      rw [checkLoop_fst rest (ms ++ _) u, checkLoop_fst rest ([] ++ _) GoMap.empty]
      simp
    · rw [e1, checkLoop_cons_quiet key val locate failureMessage fmt expected _ curr rest e h hm]
      exact checkLoop_fst rest ms u

/-- The map of unregistered records does not depend on the texts. -/
theorem checkLoop_snd :
    ∀ (live : List R) (ms : List String) (u : GoMap K R),
      (checkLoop key val locate failureMessage fmt expected (ms, u) live).2 =
        (checkLoop key val locate failureMessage fmt expected ([], u) live).2
  | [], ms, u => by simp [checkLoop]
  | curr :: rest, ms, u => by
    rcases checkLoop_cons_cases key val locate failureMessage fmt expected (ms, u) curr rest
      with ⟨h, e1⟩ | ⟨e, h, hm, e1⟩ | ⟨e, h, hm, e1⟩
    · rw [e1, checkLoop_cons_miss key val locate failureMessage fmt expected _ curr rest h]
      exact checkLoop_snd rest ms _
    · rw [e1, checkLoop_cons_report key val locate failureMessage fmt expected _ curr rest e h hm]
      rw [checkLoop_snd rest (ms ++ _) u, checkLoop_snd rest ([] ++ _) u]
    · rw [e1, checkLoop_cons_quiet key val locate failureMessage fmt expected _ curr rest e h hm]
      exact checkLoop_snd rest ms u

/-- The unregistered locations are the live locations the lookup misses. -/
theorem checkLoop_keys (k : K) :
    ∀ (live : List R) (st : List String × GoMap K R),
      k ∈ (checkLoop key val locate failureMessage fmt expected st live).2.keys ↔
        k ∈ st.2.keys ∨ ∃ r ∈ live, key r = k ∧ locate k expected = none
  | [], st => by simp [checkLoop]
  | curr :: rest, st => by
    rcases checkLoop_cons_cases key val locate failureMessage fmt expected st curr rest
      with ⟨h, e1⟩ | ⟨e, h, hm, e1⟩ | ⟨e, h, hm, e1⟩
    · rw [e1, checkLoop_keys k rest _]
      simp only [GoMap.mem_keys_set, List.mem_cons, exists_eq_or_imp]
      constructor
      · rintro ((h1 | h1) | h1)
        · exact Or.inr (Or.inl ⟨h1.symm, h1 ▸ h⟩)
        · exact Or.inl h1
        · exact Or.inr (Or.inr h1)
      · rintro (h1 | ⟨h1, _⟩ | h1)
        · exact Or.inl (Or.inr h1)
        · exact Or.inl (Or.inl h1.symm)
        · exact Or.inr h1
    · rw [e1, checkLoop_keys k rest _]
      simp only [List.mem_cons, exists_eq_or_imp]
      constructor
      · rintro (h1 | h1)
        · exact Or.inl h1
        · exact Or.inr (Or.inr h1)
      · rintro (h1 | ⟨h1, h2⟩ | h1)
        · exact Or.inl h1
        · rw [← h1, h] at h2; cases h2
        · exact Or.inr h1
    · rw [e1, checkLoop_keys k rest _]
      simp only [List.mem_cons, exists_eq_or_imp]
      constructor
      · rintro (h1 | h1)
        · exact Or.inl h1
        · exact Or.inr (Or.inr h1)
      · rintro (h1 | ⟨h1, h2⟩ | h1)
        · exact Or.inl h1
        · rw [← h1, h] at h2; cases h2
        · exact Or.inr h1

/-- Every unregistered record is stored under its own location. -/
theorem checkLoop_entries :
    ∀ (live : List R) (st : List String × GoMap K R),
      (∀ e ∈ st.2.entries, key e.2 = e.1) →
      ∀ e ∈ (checkLoop key val locate failureMessage fmt expected st live).2.entries,
        key e.2 = e.1
  | [], st, h => by simpa [checkLoop] using h
  | curr :: rest, st, h => by
    rcases checkLoop_cons_cases key val locate failureMessage fmt expected st curr rest
      with ⟨_, e1⟩ | ⟨e, _, _, e1⟩ | ⟨e, _, _, e1⟩
    · rw [e1]
      apply checkLoop_entries rest
      intro e he
      rcases mem_setEntries (key curr) curr e st.2.entries he with h2 | h2
      · rw [h2]
      · exact h e h2
    · rw [e1]; exact checkLoop_entries rest _ h
    · rw [e1]; exact checkLoop_entries rest _ h

/-- Every text the loop adds is the text of a live record that was found with a
non-empty failure message. -/
theorem checkLoop_messages :
    ∀ (live : List R) (st : List String × GoMap K R),
      ∀ m ∈ (checkLoop key val locate failureMessage fmt expected st live).1,
        m ∈ st.1 ∨ ∃ r ∈ live, ∃ e, locate (key r) expected = some e ∧
          (failureMessage (val e) (val r)).length > 0 ∧
          m = fmt (key r) (failureMessage (val e) (val r))
  | [], st, m, hm => by
    left
    simpa [checkLoop] using hm
  | curr :: rest, st, m, hm => by
    rcases checkLoop_cons_cases key val locate failureMessage fmt expected st curr rest
      with ⟨_, e1⟩ | ⟨e, h, hl, e1⟩ | ⟨e, _, _, e1⟩
    · rw [e1] at hm
      rcases checkLoop_messages rest _ m hm with h1 | ⟨r, hr, h1⟩
      · exact Or.inl h1
      · exact Or.inr ⟨r, List.mem_cons_of_mem _ hr, h1⟩
    · rw [e1] at hm
      rcases checkLoop_messages rest _ m hm with h1 | ⟨r, hr, h1⟩
      · rcases List.mem_append.1 h1 with h2 | h2
        · exact Or.inl h2
        · exact Or.inr ⟨curr, List.mem_cons_self _ _, e, h, hl, List.mem_singleton.1 h2⟩
      · exact Or.inr ⟨r, List.mem_cons_of_mem _ hr, h1⟩
    · rw [e1] at hm
      rcases checkLoop_messages rest _ m hm with h1 | ⟨r, hr, h1⟩
      · exact Or.inl h1
      · exact Or.inr ⟨r, List.mem_cons_of_mem _ hr, h1⟩

/-- When every live record is found and every failure message is empty the loop
changes nothing. -/
theorem checkLoop_of_quiet :
    ∀ (live : List R) (st : List String × GoMap K R),
      (∀ r ∈ live, ∃ e, locate (key r) expected = some e ∧
        failureMessage (val e) (val r) = "") →
      checkLoop key val locate failureMessage fmt expected st live = st
  | [], _, _ => rfl
  | curr :: rest, st, h => by
    rcases h curr (List.mem_cons_self _ _) with ⟨e, he, hm⟩
    rw [checkLoop_cons_quiet key val locate failureMessage fmt expected st curr rest e he
      (by rw [hm]; decide)]
    exact checkLoop_of_quiet rest st (fun r hr => h r (List.mem_cons_of_mem _ hr))

/-- When every live record is found and no failure message is empty the loop
adds one text per live record. -/
theorem checkLoop_of_loud :
    ∀ (live : List R) (st : List String × GoMap K R),
      (∀ e a, (failureMessage e a).length > 0) →
      (∀ r ∈ live, ∃ e, locate (key r) expected = some e) →
      (checkLoop key val locate failureMessage fmt expected st live).1.length =
        st.1.length + live.length
  | [], _, _, _ => rfl
  | curr :: rest, st, hl, h => by
    rcases h curr (List.mem_cons_self _ _) with ⟨e, he⟩
    rw [checkLoop_cons_report key val locate failureMessage fmt expected st curr rest e he
      (hl _ _)]
    rw [checkLoop_of_loud rest _ hl (fun r hr => h r (List.mem_cons_of_mem _ hr))]
    simp only [List.length_append, List.length_singleton, List.length_cons, List.length_nil]
    omega

end CheckLoopLemmas

/-- What `pruneSystemTrust` does to the items: nothing when no item is an
oversized "proxy-ca" bundle, otherwise the first such item is collapsed and
every other item, before or after it, is left as it is. -/
theorem pruneItems_spec :
    ∀ items : List CertificateAuthorityBundle,
      ((∀ c ∈ items, oversizedProxyCA c = false) ∧ pruneItems items = items) ∨
      ∃ pre c post, items = pre ++ c :: post ∧ (∀ p ∈ pre, oversizedProxyCA p = false) ∧
        oversizedProxyCA c = true ∧ pruneItems items = pre ++ collapseProxyCA c :: post
  | [] => Or.inl ⟨by simp, rfl⟩
  | curr :: rest => by
    by_cases h1 : curr.LogicalName = "proxy-ca"
    · by_cases h2 : curr.Spec.CertificateMetadata.length > 10
      · right
        refine ⟨[], curr, rest, rfl, by simp, by simp [oversizedProxyCA, h1, h2], ?_⟩
        simp [pruneItems, h1, h2, collapseProxyCA]
      · have hc : oversizedProxyCA curr = false := by simp [oversizedProxyCA, h2]
        have e : pruneItems (curr :: rest) = curr :: pruneItems rest := by
          simp [pruneItems, h1, h2]
        rcases pruneItems_spec rest with ⟨h3, h4⟩ | ⟨pre, c, post, h3, h4, h5, h6⟩
        · left
          refine ⟨?_, by rw [e, h4]⟩
          intro c hcm
          rcases List.mem_cons.1 hcm with h | h
          · rw [h]; exact hc
          · exact h3 c h
        · right
          refine ⟨curr :: pre, c, post, by simp [h3], ?_, h5, by rw [e, h6]; rfl⟩
          intro p hp
          rcases List.mem_cons.1 hp with h | h
          · rw [h]; exact hc
          · exact h4 p h
    · have hc : oversizedProxyCA curr = false := by simp [oversizedProxyCA, h1]
      have e : pruneItems (curr :: rest) = curr :: pruneItems rest := by
        simp [pruneItems, h1]
      rcases pruneItems_spec rest with ⟨h3, h4⟩ | ⟨pre, c, post, h3, h4, h5, h6⟩
      · left
        refine ⟨?_, by rw [e, h4]⟩
        intro c hcm
        rcases List.mem_cons.1 hcm with h | h
        · rw [h]; exact hc
        · exact h3 c h
      · right
        refine ⟨curr :: pre, c, post, by simp [h3], ?_, h5, by rw [e, h6]; rfl⟩
        intro p hp
        rcases List.mem_cons.1 hp with h | h
        · rw [h]; exact hc
        · exact h4 p h

theorem beginsWith_append : ∀ p s : List Char, beginsWith p (p ++ s) = true
  | [], _ => rfl
  | a :: p, s => by simp [beginsWith, beginsWith_append p s]

theorem isUnregisteredText_secretUnregisteredText (loc : InClusterSecretLocation) :
    isUnregisteredText (secretUnregisteredText loc) = true := by
  have e : "Unregistered TLS artifact: --namespace=".data =
      "Unregistered TLS artifact: ".data ++ "--namespace=".data := by decide
  simp only [isUnregisteredText, secretUnregisteredText, String.data_append, e,
    List.append_assoc]
  exact beginsWith_append _ _

theorem isUnregisteredText_configMapUnregisteredText (loc : InClusterConfigMapLocation) :
    isUnregisteredText (configMapUnregisteredText loc) = true := by
  have e : "Unregistered TLS artifact: --namespace=".data =
      "Unregistered TLS artifact: ".data ++ "--namespace=".data := by decide
  simp only [isUnregisteredText, configMapUnregisteredText, String.data_append, e,
    List.append_assoc]
  exact beginsWith_append _ _

theorem isUnregisteredText_of_dashes (rest : String) :
    isUnregisteredText ("--namespace=" ++ rest) = false := by
  have e1 : "--namespace=".data = '-' :: "-namespace=".data := by decide
  have e2 : "Unregistered TLS artifact: ".data = 'U' :: "nregistered TLS artifact: ".data := by
    decide
  have e3 : ('U' == '-') = false := by decide
  simp only [isUnregisteredText, String.data_append, e1, e2, List.cons_append, beginsWith, e3,
    Bool.false_and]

theorem isUnregisteredText_secretMismatchMessage (loc : InClusterSecretLocation)
    (errorMessage : String) :
    isUnregisteredText (secretMismatchMessage loc errorMessage) = false := by
  simp only [secretMismatchMessage, String.append_assoc]
  exact isUnregisteredText_of_dashes _

theorem isUnregisteredText_configMapMismatchMessage (loc : InClusterConfigMapLocation)
    (errorMessage : String) :
    isUnregisteredText (configMapMismatchMessage loc errorMessage) = false := by
  simp only [configMapMismatchMessage, String.append_assoc]
  exact isUnregisteredText_of_dashes _

/-- The texts of one reporting block are, up to order, the texts of the keys of
the map, when every record is stored under its own location. -/
theorem visit_map_perm_map_keys {R K : Type} (key : R → K) (text : K → String)
    (range : RangeOrder K R) (u : GoMap K R) (h : ∀ e ∈ u.entries, key e.2 = e.1) :
    ((range.visit u.entries).map fun e => text (key e.2)).Perm (u.keys.map text) := by
  have e1 : (u.entries.map fun e => text (key e.2)) = u.keys.map text := by
    simp only [GoMap.keys, List.map_map]
    apply List.map_congr_left
    intro e he
    simp [h e he]
  rw [← e1]
  exact (range.perm u.entries).map _

/-- The message list of the test, block by block: the texts of the certificate
loop, the unregistered secrets as the first and as the second `range` visit
them, the texts of the CA-bundle loop, the unregistered configmaps as the third
`range` visits them. -/
theorem allTLSArtifactsMustBeKnown_eq {CKI CAI : Type}
    (locateCertKeyPair : InClusterSecretLocation → List (PKIRegistryInClusterCertKeyPair CKI) →
      Option (PKIRegistryInClusterCertKeyPair CKI))
    (locateCertificateAuthorityBundle : InClusterConfigMapLocation →
      List (PKIRegistryInClusterCABundle CAI) → Option (PKIRegistryInClusterCABundle CAI))
    (failureMessageCert : CKI → CKI → String) (failureMessageCA : CAI → CAI → String)
    (range98 range103 : RangeOrder InClusterSecretLocation (PKIRegistryInClusterCertKeyPair CKI))
    (range123 : RangeOrder InClusterConfigMapLocation (PKIRegistryInClusterCABundle CAI))
    (actualPKIContent : PKIList CKI CAI) (expectedPKIContent : PKIRegistryInfo CKI CAI) :
    allTLSArtifactsMustBeKnown locateCertKeyPair locateCertificateAuthorityBundle
        failureMessageCert failureMessageCA range98 range103 range123
        actualPKIContent expectedPKIContent =
      (checkLoop PKIRegistryInClusterCertKeyPair.SecretLocation
        PKIRegistryInClusterCertKeyPair.CertKeyInfo locateCertKeyPair failureMessageCert
        secretMismatchMessage expectedPKIContent.CertKeyPairs ([], GoMap.empty)
        actualPKIContent.InClusterResourceData.CertKeyPairs).1 ++
      (((range98.visit (checkLoop PKIRegistryInClusterCertKeyPair.SecretLocation
        PKIRegistryInClusterCertKeyPair.CertKeyInfo locateCertKeyPair failureMessageCert
        secretMismatchMessage expectedPKIContent.CertKeyPairs ([], GoMap.empty)
        actualPKIContent.InClusterResourceData.CertKeyPairs).2.entries).map
          fun e => secretUnregisteredText e.2.SecretLocation) ++
       ((range103.visit (checkLoop PKIRegistryInClusterCertKeyPair.SecretLocation
        PKIRegistryInClusterCertKeyPair.CertKeyInfo locateCertKeyPair failureMessageCert
        secretMismatchMessage expectedPKIContent.CertKeyPairs ([], GoMap.empty)
        actualPKIContent.InClusterResourceData.CertKeyPairs).2.entries).map
          fun e => secretUnregisteredText e.2.SecretLocation)) ++
      (checkLoop PKIRegistryInClusterCABundle.ConfigMapLocation
        PKIRegistryInClusterCABundle.CABundleInfo locateCertificateAuthorityBundle
        failureMessageCA configMapMismatchMessage
        expectedPKIContent.CertificateAuthorityBundles ([], GoMap.empty)
        actualPKIContent.InClusterResourceData.CertificateAuthorityBundles).1 ++
      ((range123.visit (checkLoop PKIRegistryInClusterCABundle.ConfigMapLocation
        PKIRegistryInClusterCABundle.CABundleInfo locateCertificateAuthorityBundle
        failureMessageCA configMapMismatchMessage
        expectedPKIContent.CertificateAuthorityBundles ([], GoMap.empty)
        actualPKIContent.InClusterResourceData.CertificateAuthorityBundles).2.entries).map
          fun e => configMapUnregisteredText e.2.ConfigMapLocation) := by
  have tail : ∀ ms : List String,
      reportUnregistered (fun cm => configMapUnregisteredText cm.ConfigMapLocation) range123
        (checkLoop PKIRegistryInClusterCABundle.ConfigMapLocation
          PKIRegistryInClusterCABundle.CABundleInfo locateCertificateAuthorityBundle
          failureMessageCA configMapMismatchMessage
          expectedPKIContent.CertificateAuthorityBundles (ms, GoMap.empty)
          actualPKIContent.InClusterResourceData.CertificateAuthorityBundles).1
        (checkLoop PKIRegistryInClusterCABundle.ConfigMapLocation
          PKIRegistryInClusterCABundle.CABundleInfo locateCertificateAuthorityBundle
          failureMessageCA configMapMismatchMessage
          expectedPKIContent.CertificateAuthorityBundles (ms, GoMap.empty)
          actualPKIContent.InClusterResourceData.CertificateAuthorityBundles).2 =
      ms ++
      (checkLoop PKIRegistryInClusterCABundle.ConfigMapLocation
        PKIRegistryInClusterCABundle.CABundleInfo locateCertificateAuthorityBundle
        failureMessageCA configMapMismatchMessage
        expectedPKIContent.CertificateAuthorityBundles ([], GoMap.empty)
        actualPKIContent.InClusterResourceData.CertificateAuthorityBundles).1 ++
      ((range123.visit (checkLoop PKIRegistryInClusterCABundle.ConfigMapLocation
        PKIRegistryInClusterCABundle.CABundleInfo locateCertificateAuthorityBundle
        failureMessageCA configMapMismatchMessage
        expectedPKIContent.CertificateAuthorityBundles ([], GoMap.empty)
        actualPKIContent.InClusterResourceData.CertificateAuthorityBundles).2.entries).map
          fun e => configMapUnregisteredText e.2.ConfigMapLocation) := by
    intro ms
    rw [checkLoop_snd, checkLoop_fst]
    simp only [reportUnregistered_eq, List.append_assoc]
  simp only [allTLSArtifactsMustBeKnown]
  rw [tail]
  simp only [reportUnregistered_eq, List.append_assoc]

/-- The message list for the live content `docLive` against the baseline merged
from `docX` and `docZ`, when every `range` follows the order of insertion:
`ns5/new` and `ns6/other` are reported twice each, `ns7/fresh` once. -/
theorem allTLSArtifactsMustBeKnown_docLive :
    allTLSArtifactsMustBeKnown locateFirstCertKeyPair locateFirstCABundle
        diffFailureMessage diffFailureMessage RangeOrder.insertion RangeOrder.insertion
        RangeOrder.insertion docLive (aggregate demoUnmarshal [[1], [3]]) =
      ["Unregistered TLS artifact: --namespace=ns5, secret/new\n",
       "Unregistered TLS artifact: --namespace=ns6, secret/other\n",
       "Unregistered TLS artifact: --namespace=ns5, secret/new\n",
       "Unregistered TLS artifact: --namespace=ns6, secret/other\n",
       "Unregistered TLS artifact: --namespace=ns7, configmap/fresh\n"] := by
  decide

/-- The same run when the second `range` visits the unregistered secrets in the
opposite order: the two blocks list the same locations in different orders. -/
theorem allTLSArtifactsMustBeKnown_docLive_reversed :
    allTLSArtifactsMustBeKnown locateFirstCertKeyPair locateFirstCABundle
        diffFailureMessage diffFailureMessage RangeOrder.insertion RangeOrder.reversed
        RangeOrder.insertion docLive (aggregate demoUnmarshal [[1], [3]]) =
      ["Unregistered TLS artifact: --namespace=ns5, secret/new\n",
       "Unregistered TLS artifact: --namespace=ns6, secret/other\n",
       "Unregistered TLS artifact: --namespace=ns6, secret/other\n",
       "Unregistered TLS artifact: --namespace=ns5, secret/new\n",
       "Unregistered TLS artifact: --namespace=ns7, configmap/fresh\n"] := by
  decide

theorem filter_eq_nil_of_all_false {α : Type} (p : α → Bool) (l : List α)
    (h : ∀ a ∈ l, p a = false) : l.filter p = [] := by
  rw [List.filter_eq_nil_iff]
  intro a ha
  simp [h a ha]

theorem filter_eq_self_of_all_true {α : Type} (p : α → Bool) (l : List α)
    (h : ∀ a ∈ l, p a = true) : l.filter p = l :=
  List.filter_eq_self.2 h

theorem filter_secretUnregisteredText (Us : List InClusterSecretLocation) :
    (Us.map secretUnregisteredText).filter isUnregisteredText =
      Us.map secretUnregisteredText := by
  apply filter_eq_self_of_all_true
  intro m hm
  rcases List.mem_map.1 hm with ⟨L, _, h⟩
  rw [← h]; exact isUnregisteredText_secretUnregisteredText L

theorem filter_configMapUnregisteredText (Uc : List InClusterConfigMapLocation) :
    (Uc.map configMapUnregisteredText).filter isUnregisteredText =
      Uc.map configMapUnregisteredText := by
  apply filter_eq_self_of_all_true
  intro m hm
  rcases List.mem_map.1 hm with ⟨L, _, h⟩
  rw [← h]; exact isUnregisteredText_configMapUnregisteredText L

theorem oversizedProxyCA_eq_true_iff (c : CertificateAuthorityBundle) :
    oversizedProxyCA c = true ↔
      c.LogicalName = "proxy-ca" ∧ c.Spec.CertificateMetadata.length > 10 := by
  simp [oversizedProxyCA]

theorem oversizedProxyCA_eq_false_iff (c : CertificateAuthorityBundle) :
    oversizedProxyCA c = false ↔
      ¬ (c.LogicalName = "proxy-ca" ∧ c.Spec.CertificateMetadata.length > 10) := by
  rw [← oversizedProxyCA_eq_true_iff]
  cases oversizedProxyCA c <;> simp

/-- Without an oversized "proxy-ca" item the loop changes nothing. -/
theorem pruneItems_of_none :
    ∀ items : List CertificateAuthorityBundle,
      (∀ c ∈ items, oversizedProxyCA c = false) → pruneItems items = items
  | [], _ => rfl
  | curr :: rest, h => by
    have hc := (oversizedProxyCA_eq_false_iff curr).1 (h curr (List.mem_cons_self _ _))
    have ih := pruneItems_of_none rest (fun c hcm => h c (List.mem_cons_of_mem _ hcm))
    by_cases h1 : curr.LogicalName = "proxy-ca"
    · have h2 : ¬ curr.Spec.CertificateMetadata.length > 10 := fun h2 => hc ⟨h1, h2⟩
      simp [pruneItems, h1, h2, ih]
    · simp [pruneItems, h1, ih]

/-- The loop collapses the first oversized "proxy-ca" item and leaves the items
before and after it as they are. -/
theorem pruneItems_split :
    ∀ (pre : List CertificateAuthorityBundle) (c : CertificateAuthorityBundle)
      (post : List CertificateAuthorityBundle),
      (∀ p ∈ pre, oversizedProxyCA p = false) → oversizedProxyCA c = true →
      pruneItems (pre ++ c :: post) = pre ++ collapseProxyCA c :: post
  | [], c, post, _, hc => by
    have h := (oversizedProxyCA_eq_true_iff c).1 hc
    simp [pruneItems, h.1, h.2, collapseProxyCA]
  | curr :: pre, c, post, hpre, hc => by
    have hcurr := (oversizedProxyCA_eq_false_iff curr).1 (hpre curr (List.mem_cons_self _ _))
    have ih := pruneItems_split pre c post
      (fun p hp => hpre p (List.mem_cons_of_mem _ hp)) hc
    by_cases h1 : curr.LogicalName = "proxy-ca"
    · have h2 : ¬ curr.Spec.CertificateMetadata.length > 10 := fun h2 => hcurr ⟨h1, h2⟩
      simp [pruneItems, h1, h2, ih]
    · simp [pruneItems, h1, ih]

/-! ## The claims -/

section Claims

/-- C1 (the code departs from the claim): a directory whose two regular files
decode to snapshots holding `ns1/secret-a` with the unequal values "X" and "Y".
`parsePKIInfo` reports the mismatch, yet `GetPKIInfoFromRawData` returns a
registry and a nil error in either visiting order, because the callback drops
the value `parsePKIInfo` returns. -/
theorem C1_directory_conflict_error_is_dropped :
    demoUnmarshal [1] = .ok docX ∧ demoUnmarshal [2] = .ok docY ∧
    (parsePKIInfo demoUnmarshal [2] certsX GoMap.empty).err =
      some "mismatch of certificate info" ∧
    GetPKIInfoFromRawData demoUnmarshal demoDirXY "dir" =
      (some ⟨[⟨⟨"ns1", "secret-a"⟩, "X"⟩], []⟩, none) ∧
    GetPKIInfoFromRawData demoUnmarshal demoDirYX "dir" =
      (some ⟨[⟨⟨"ns1", "secret-a"⟩, "Y"⟩], []⟩, none) := by
  refine ⟨rfl, rfl, ?_, ?_, ?_⟩ <;> decide

/-- C2: for a buffer that decodes, `parsePKIInfo` returns an error exactly when
the conflict rule fires on the certificate records against `certs` or on the
CA-bundle records against `caBundles`; in particular a certificate record whose
location `certs` already holds with an unequal value makes it return an error. -/
theorem C2_merge_step_conflict_rule {CKI CAI : Type} [DecidableEq CKI] [DecidableEq CAI]
    (unmarshal : Bytes → Except String (PKIList CKI CAI))
    (currBytes : Bytes) (currPKI : PKIList CKI CAI)
    (certs : SecretInfoByNamespaceName CKI) (caBundles : ConfigMapInfoByNamespaceName CAI)
    (hdec : unmarshal currBytes = .ok currPKI) :
    ((parsePKIInfo unmarshal currBytes certs caBundles).err ≠ none ↔
      reachesConflict PKIRegistryInClusterCertKeyPair.SecretLocation
          PKIRegistryInClusterCertKeyPair.CertKeyInfo certs
          currPKI.InClusterResourceData.CertKeyPairs ∨
      reachesConflict PKIRegistryInClusterCABundle.ConfigMapLocation
          PKIRegistryInClusterCABundle.CABundleInfo caBundles
          currPKI.InClusterResourceData.CertificateAuthorityBundles) ∧
    (∀ r ∈ currPKI.InClusterResourceData.CertKeyPairs, ∀ v1,
      certs.get? r.SecretLocation = some v1 → v1 ≠ r.CertKeyInfo →
      (parsePKIInfo unmarshal currBytes certs caBundles).err ≠ none) := by
  rw [parsePKIInfo_of_ok unmarshal currBytes currPKI certs caBundles hdec]
  refine ⟨mergePKIList_error_iff currPKI certs caBundles, ?_⟩
  intro r hr v1 h1 hne
  rw [mergePKIList_error_iff]
  left
  rw [← mergeLoop_error_iff]
  exact mergeLoop_error_of_mem _ _ certs _ r hr v1 h1 hne

/-- C2 at a concrete input: `certs` holds `ns1/secret-a` with "X" and the
document holds it with "Y". -/
theorem C2_merge_step_conflict_rule_witness :
    demoUnmarshal [2] = .ok docY ∧
    (parsePKIInfo demoUnmarshal [2] certsX GoMap.empty).err ≠ none :=
  ⟨rfl, (C2_merge_step_conflict_rule demoUnmarshal [2] docY certsX GoMap.empty rfl).2
    ⟨⟨"ns1", "secret-a"⟩, "Y"⟩ (by decide) "X" (by decide) (by decide)⟩

/-- C3 (the code departs from the claim): a directory holding one decodable file
and one file the decoder rejects. `parsePKIInfo` returns the decode error, yet
`GetPKIInfoFromRawData` returns a nil error and the registry built from the
other file, because the callback drops the value `parsePKIInfo` returns. -/
theorem C3_directory_decode_error_is_dropped :
    demoUnmarshal [9] = .error "invalid character" ∧
    (parsePKIInfo demoUnmarshal [9] certsX GoMap.empty).err = some "invalid character" ∧
    GetPKIInfoFromRawData demoUnmarshal demoDirBad "dir" =
      (some ⟨[⟨⟨"ns1", "secret-a"⟩, "X"⟩], []⟩, none) := by
  refine ⟨rfl, ?_, ?_⟩ <;> decide

/-- C4: `parsePKIInfo` never overwrites. Whatever it returns, every location
that `certs` (respectively `caBundles`) held before the call is held afterwards
with the same value; and throughout a run a location keeps the value it has
once some prefix of the documents has been ingested. -/
theorem C4_merge_never_overwrites {CKI CAI : Type} [DecidableEq CKI] [DecidableEq CAI]
    (unmarshal : Bytes → Except String (PKIList CKI CAI))
    (currBytes : Bytes)
    (certs : SecretInfoByNamespaceName CKI) (caBundles : ConfigMapInfoByNamespaceName CAI) :
    (∀ L v, certs.get? L = some v →
      (parsePKIInfo unmarshal currBytes certs caBundles).certs.get? L = some v) ∧
    (∀ L v, caBundles.get? L = some v →
      (parsePKIInfo unmarshal currBytes certs caBundles).caBundles.get? L = some v) ∧
    (∀ (docs1 docs2 : List Bytes) L v,
      (ingest unmarshal (certs, caBundles) docs1).1.get? L = some v →
      (ingest unmarshal (certs, caBundles) (docs1 ++ docs2)).1.get? L = some v) ∧
    (∀ (docs1 docs2 : List Bytes) L v,
      (ingest unmarshal (certs, caBundles) docs1).2.get? L = some v →
      (ingest unmarshal (certs, caBundles) (docs1 ++ docs2)).2.get? L = some v) := by
  refine ⟨fun L v h => parsePKIInfo_preserves_certs unmarshal currBytes certs caBundles L v h,
    fun L v h => parsePKIInfo_preserves_caBundles unmarshal currBytes certs caBundles L v h,
    ?_, ?_⟩
  · intro docs1 docs2 L v h
    rw [ingest_append]
    exact ingest_preserves_certs unmarshal L v docs2 _ h
  · intro docs1 docs2 L v h
    rw [ingest_append]
    exact ingest_preserves_caBundles unmarshal L v docs2 _ h

/-- C4 at a concrete input: `ns1/secret-a` keeps "X" although the document
holds it with "Y" and the call returns an error. -/
theorem C4_merge_never_overwrites_witness :
    certsX.get? ⟨"ns1", "secret-a"⟩ = some "X" ∧
    (parsePKIInfo demoUnmarshal [2] certsX GoMap.empty).err ≠ none ∧
    (parsePKIInfo demoUnmarshal [2] certsX GoMap.empty).certs.get? ⟨"ns1", "secret-a"⟩ =
      some "X" :=
  ⟨by decide, by decide,
    (C4_merge_never_overwrites demoUnmarshal [2] certsX GoMap.empty).1
      ⟨"ns1", "secret-a"⟩ "X" (by decide)⟩

/-- C5: two decoded snapshots without conflicting locations export the same
registry whichever is merged first (`aggregate` starts from empty maps, calls
`parsePKIInfo` on each buffer in order and exports with `certsToRegistryInfo`). -/
theorem C5_order_independence {CKI CAI : Type} [DecidableEq CKI] [DecidableEq CAI]
    [Inhabited CKI] [Inhabited CAI]
    (unmarshal : Bytes → Except String (PKIList CKI CAI)) (a b : Bytes)
    (A B : PKIList CKI CAI) (hA : unmarshal a = .ok A) (hB : unmarshal b = .ok B)
    (hc : NoConflict PKIRegistryInClusterCertKeyPair.SecretLocation
      PKIRegistryInClusterCertKeyPair.CertKeyInfo
      (A.InClusterResourceData.CertKeyPairs ++ B.InClusterResourceData.CertKeyPairs))
    (ha : NoConflict PKIRegistryInClusterCABundle.ConfigMapLocation
      PKIRegistryInClusterCABundle.CABundleInfo
      (A.InClusterResourceData.CertificateAuthorityBundles ++
        B.InClusterResourceData.CertificateAuthorityBundles)) :
    aggregate unmarshal [a, b] = aggregate unmarshal [b, a] := by
  apply aggregate_perm_of_noConflict unmarshal [a, b] [b, a] (List.Perm.swap b a [])
  · simpa [certRecordsOf, hA, hB] using hc
  · simpa [caRecordsOf, hA, hB] using ha

/-- C5 at a concrete input: `docX` and `docZ` share no location. -/
theorem C5_order_independence_witness :
    demoUnmarshal [1] = .ok docX ∧ demoUnmarshal [3] = .ok docZ ∧
    aggregate demoUnmarshal [[1], [3]] = aggregate demoUnmarshal [[3], [1]] :=
  ⟨rfl, rfl, C5_order_independence demoUnmarshal [1] [3] docX docZ rfl rfl
    (by unfold NoConflict; decide) (by unfold NoConflict; decide)⟩

/-- C6: starting from empty maps, a second `parsePKIInfo` of the same buffer
leaves both maps, and so the exported registry, as the first call left them. -/
theorem C6_idempotent_merge {CKI CAI : Type} [DecidableEq CKI] [DecidableEq CAI]
    [Inhabited CKI] [Inhabited CAI]
    (unmarshal : Bytes → Except String (PKIList CKI CAI)) (S : Bytes) :
    (parsePKIInfo unmarshal S
        (parsePKIInfo unmarshal S GoMap.empty GoMap.empty).certs
        (parsePKIInfo unmarshal S GoMap.empty GoMap.empty).caBundles).certs =
      (parsePKIInfo unmarshal S GoMap.empty GoMap.empty).certs ∧
    (parsePKIInfo unmarshal S
        (parsePKIInfo unmarshal S GoMap.empty GoMap.empty).certs
        (parsePKIInfo unmarshal S GoMap.empty GoMap.empty).caBundles).caBundles =
      (parsePKIInfo unmarshal S GoMap.empty GoMap.empty).caBundles ∧
    aggregate unmarshal [S, S] = aggregate unmarshal [S] := by
  have h := parsePKIInfo_idem unmarshal S GoMap.empty GoMap.empty
  refine ⟨by rw [h], by rw [h], ?_⟩
  simp only [aggregate, ingest]
  rw [h]

/-- C7: both sequences `certsToRegistryInfo` returns are strictly ascending
under "namespace first, then name"; the locations `b/z`, `a/y`, `a/x` are
exported as `a/x`, `a/y`, `b/z`. -/
theorem C7_export_is_sorted {CKI CAI : Type} [Inhabited CKI] [Inhabited CAI]
    (certs : SecretInfoByNamespaceName CKI) (caBundles : ConfigMapInfoByNamespaceName CAI) :
    (certsToRegistryInfo certs caBundles).CertKeyPairs.Pairwise
      (fun p q => nsNameBefore p.SecretLocation.Namespace p.SecretLocation.Name
        q.SecretLocation.Namespace q.SecretLocation.Name) ∧
    (certsToRegistryInfo certs caBundles).CertificateAuthorityBundles.Pairwise
      (fun p q => nsNameBefore p.ConfigMapLocation.Namespace p.ConfigMapLocation.Name
        q.ConfigMapLocation.Namespace q.ConfigMapLocation.Name) ∧
    certsToRegistryInfo certsBZAYAX caBundlesBZAYAX =
      ⟨[⟨⟨"a", "x"⟩, "3"⟩, ⟨⟨"a", "y"⟩, "2"⟩, ⟨⟨"b", "z"⟩, "1"⟩],
       [⟨⟨"a", "x"⟩, "3"⟩, ⟨⟨"a", "y"⟩, "2"⟩, ⟨⟨"b", "z"⟩, "1"⟩]⟩ := by
  refine ⟨?_, ?_, by decide⟩
  · have h := sortSort_strict SecretRefByNamespaceName.secretStrictTotal certs.keys certs.nodup_keys
    rw [← certKeyPairs_locations certs caBundles, List.pairwise_map] at h
    exact h.imp (fun hpq => (SecretRefByNamespaceName.secretLess_iff _ _).1 hpq)
  · have h := sortSort_strict ConfigMapRefByNamespaceName.configMapStrictTotal caBundles.keys
      caBundles.nodup_keys
    rw [← caBundles_locations certs caBundles, List.pairwise_map] at h
    exact h.imp (fun hpq => (ConfigMapRefByNamespaceName.configMapLess_iff _ _).1 hpq)

/-- C8 (the code departs from the claim): the documents `[1]` and `[2]` hold
`ns1/secret-a` with "X" and with "Y". Ingested in the order `[1], [2]` the run
returns the registry with "X", in the order `[2], [1]` the registry with "Y",
each time with a nil error, because the error `parsePKIInfo` returns for the
second document is dropped. -/
theorem C8_permuted_run_differs :
    [([1] : Bytes), [2]].Perm [[2], [1]] ∧
    aggregate demoUnmarshal [[1], [2]] = ⟨[⟨⟨"ns1", "secret-a"⟩, "X"⟩], []⟩ ∧
    aggregate demoUnmarshal [[2], [1]] = ⟨[⟨⟨"ns1", "secret-a"⟩, "Y"⟩], []⟩ ∧
    aggregate demoUnmarshal [[1], [2]] ≠ aggregate demoUnmarshal [[2], [1]] ∧
    GetPKIInfoFromEmbeddedRawData demoUnmarshal (demoEmbed [1] [2]) =
      (some ⟨[⟨⟨"ns1", "secret-a"⟩, "X"⟩], []⟩, none) ∧
    GetPKIInfoFromEmbeddedRawData demoUnmarshal (demoEmbed [2] [1]) =
      (some ⟨[⟨⟨"ns1", "secret-a"⟩, "Y"⟩], []⟩, none) := by
  refine ⟨List.Perm.swap _ _ _, ?_, ?_, ?_, ?_, ?_⟩ <;> decide

/-- C9: the registry exported after any run holds no location twice, in
neither sequence; two documents that both hold `ns1/secret-a` with "X" export
exactly one record. -/
theorem C9_no_duplication {CKI CAI : Type} [DecidableEq CKI] [DecidableEq CAI]
    [Inhabited CKI] [Inhabited CAI]
    (unmarshal : Bytes → Except String (PKIList CKI CAI)) (docs : List Bytes) :
    ((aggregate unmarshal docs).CertKeyPairs.map
      PKIRegistryInClusterCertKeyPair.SecretLocation).Nodup ∧
    ((aggregate unmarshal docs).CertificateAuthorityBundles.map
      PKIRegistryInClusterCABundle.ConfigMapLocation).Nodup ∧
    aggregate demoUnmarshal [[1], [1]] = ⟨[⟨⟨"ns1", "secret-a"⟩, "X"⟩], []⟩ := by
  refine ⟨?_, ?_, by decide⟩
  · unfold aggregate
    rw [certKeyPairs_locations]
    exact (sortSort_perm _).nodup_iff.2 (GoMap.nodup_keys _)
  · unfold aggregate
    rw [caBundles_locations]
    exact (sortSort_perm _).nodup_iff.2 (GoMap.nodup_keys _)

/-- C10: when `parsePKIInfo` returns no error the buffer decoded to a document
every record of which is now stored under its location, and the key set of each
map is its former key set united with the locations of the records of that
kind. -/
theorem C10_successful_merge_postcondition {CKI CAI : Type} [DecidableEq CKI] [DecidableEq CAI]
    (unmarshal : Bytes → Except String (PKIList CKI CAI)) (currBytes : Bytes)
    (certs : SecretInfoByNamespaceName CKI) (caBundles : ConfigMapInfoByNamespaceName CAI)
    (hok : (parsePKIInfo unmarshal currBytes certs caBundles).err = none) :
    ∃ currPKI, unmarshal currBytes = .ok currPKI ∧
      (∀ r ∈ currPKI.InClusterResourceData.CertKeyPairs,
        (parsePKIInfo unmarshal currBytes certs caBundles).certs.get? r.SecretLocation =
          some r.CertKeyInfo) ∧
      (∀ r ∈ currPKI.InClusterResourceData.CertificateAuthorityBundles,
        (parsePKIInfo unmarshal currBytes certs caBundles).caBundles.get? r.ConfigMapLocation =
          some r.CABundleInfo) ∧
      (∀ L, L ∈ (parsePKIInfo unmarshal currBytes certs caBundles).certs.keys ↔
        L ∈ certs.keys ∨ ∃ r ∈ currPKI.InClusterResourceData.CertKeyPairs,
          r.SecretLocation = L) ∧
      (∀ L, L ∈ (parsePKIInfo unmarshal currBytes certs caBundles).caBundles.keys ↔
        L ∈ caBundles.keys ∨ ∃ r ∈ currPKI.InClusterResourceData.CertificateAuthorityBundles,
          r.ConfigMapLocation = L) := by
  cases hu : unmarshal currBytes with
  | error e =>
    rw [parsePKIInfo_of_error unmarshal currBytes e certs caBundles hu] at hok
    cases hok
  | ok d =>
    rw [parsePKIInfo_of_ok unmarshal currBytes d certs caBundles hu] at hok ⊢
    have hn := (mergePKIList_err_none_iff d certs caBundles).1 hok
    refine ⟨d, rfl, ?_⟩
    rcases mergePKIList_cases d certs caBundles with ⟨e, h1, _⟩ | ⟨_, h2⟩
    · rw [hn.1] at h1; cases h1
    · rw [h2]
      exact ⟨mergeLoop_stored _ _ _ certs hn.1, mergeLoop_stored _ _ _ caBundles hn.2,
        fun L => mergeLoop_keys _ _ L _ certs hn.1,
        fun L => mergeLoop_keys _ _ L _ caBundles hn.2⟩

/-- C10 at a concrete input: `docZ` merged into the map holding `ns1/secret-a`. -/
theorem C10_successful_merge_postcondition_witness :
    (parsePKIInfo demoUnmarshal [3] certsX GoMap.empty).err = none ∧
    ∃ currPKI, demoUnmarshal [3] = .ok currPKI ∧
      (∀ r ∈ currPKI.InClusterResourceData.CertKeyPairs,
        (parsePKIInfo demoUnmarshal [3] certsX GoMap.empty).certs.get? r.SecretLocation =
          some r.CertKeyInfo) ∧
      (∀ r ∈ currPKI.InClusterResourceData.CertificateAuthorityBundles,
        (parsePKIInfo demoUnmarshal [3] certsX GoMap.empty).caBundles.get?
          r.ConfigMapLocation = some r.CABundleInfo) ∧
      (∀ L, L ∈ (parsePKIInfo demoUnmarshal [3] certsX GoMap.empty).certs.keys ↔
        L ∈ certsX.keys ∨ ∃ r ∈ currPKI.InClusterResourceData.CertKeyPairs,
          r.SecretLocation = L) ∧
      (∀ L, L ∈ (parsePKIInfo demoUnmarshal [3] certsX GoMap.empty).caBundles.keys ↔
        L ∈ (GoMap.empty : ConfigMapInfoByNamespaceName String).keys ∨
          ∃ r ∈ currPKI.InClusterResourceData.CertificateAuthorityBundles,
            r.ConfigMapLocation = L) :=
  ⟨by decide,
    C10_successful_merge_postcondition demoUnmarshal [3] certsX GoMap.empty (by decide)⟩

/-- C11: `certsToRegistryInfo` is a total function whose `CertKeyPairs` has as
many entries as `certs` has keys, holds every key of `certs` as the location of
some entry, and pairs each location with the value `certs` holds for it; the
same for `CertificateAuthorityBundles` and `caBundles`. -/
theorem C11_export_preserves_content {CKI CAI : Type} [Inhabited CKI] [Inhabited CAI]
    (certs : SecretInfoByNamespaceName CKI) (caBundles : ConfigMapInfoByNamespaceName CAI) :
    (certsToRegistryInfo certs caBundles).CertKeyPairs.length = certs.keys.length ∧
    (∀ k ∈ certs.keys, ∃ e ∈ (certsToRegistryInfo certs caBundles).CertKeyPairs,
      e.SecretLocation = k) ∧
    (∀ e ∈ (certsToRegistryInfo certs caBundles).CertKeyPairs,
      certs.get? e.SecretLocation = some e.CertKeyInfo ∧
      e.CertKeyInfo = certs.index e.SecretLocation) ∧
    (certsToRegistryInfo certs caBundles).CertificateAuthorityBundles.length =
      caBundles.keys.length ∧
    (∀ k ∈ caBundles.keys,
      ∃ e ∈ (certsToRegistryInfo certs caBundles).CertificateAuthorityBundles,
        e.ConfigMapLocation = k) ∧
    (∀ e ∈ (certsToRegistryInfo certs caBundles).CertificateAuthorityBundles,
      caBundles.get? e.ConfigMapLocation = some e.CABundleInfo ∧
      e.CABundleInfo = caBundles.index e.ConfigMapLocation) := by
  refine ⟨certKeyPairs_length certs caBundles, ?_, ?_, caBundles_length certs caBundles, ?_, ?_⟩
  · intro k hk
    exact ⟨⟨k, certs.index k⟩,
      (mem_certKeyPairs_iff certs caBundles _).2 (GoMap.get?_index_of_mem_keys certs k hk), rfl⟩
  · intro e he
    have h := (mem_certKeyPairs_iff certs caBundles e).1 he
    exact ⟨h, (GoMap.index_of_get?_some certs _ _ h).symm⟩
  · intro k hk
    exact ⟨⟨k, caBundles.index k⟩,
      (mem_caBundles_iff certs caBundles _).2 (GoMap.get?_index_of_mem_keys caBundles k hk),
      rfl⟩
  · intro e he
    have h := (mem_caBundles_iff certs caBundles e).1 he
    exact ⟨h, (GoMap.index_of_get?_some caBundles _ _ h).symm⟩

/-- C11 at a concrete input: the key `a/y` of the map filled in the order `b/z`,
`a/y`, `a/x` is the location of an exported entry. -/
theorem C11_export_preserves_content_witness :
    (⟨"a", "y"⟩ : InClusterSecretLocation) ∈ certsBZAYAX.keys ∧
    ∃ e ∈ (certsToRegistryInfo certsBZAYAX caBundlesBZAYAX).CertKeyPairs,
      e.SecretLocation = ⟨"a", "y"⟩ :=
  ⟨by decide, (C11_export_preserves_content certsBZAYAX caBundlesBZAYAX).2.1 ⟨"a", "y"⟩
    (by decide)⟩

/-- C12 (the claim fails as stated): a conflict on `ns1/secret-a` and a conflict
on `ns2/secret-c` return the same error text, and that text contains neither
"ns1" nor "secret-a". -/
theorem C12_error_does_not_name_location :
    (parsePKIInfo demoUnmarshal [2] certsX GoMap.empty).err =
      some "mismatch of certificate info" ∧
    (parsePKIInfo (tableUnmarshal [([4], docW)]) [4] certsW GoMap.empty).err =
      some "mismatch of certificate info" ∧
    stringContains "mismatch of certificate info" "ns1" = false ∧
    stringContains "mismatch of certificate info" "secret-a" = false := by
  refine ⟨?_, ?_, ?_, ?_⟩ <;> decide

/-- C12 as amended: whenever `parsePKIInfo` fails on a buffer that decodes, that
is, on a conflict, the error is the fixed text "mismatch of certificate info",
whatever the location. -/
theorem C12_conflict_error_is_fixed_text {CKI CAI : Type} [DecidableEq CKI] [DecidableEq CAI]
    (unmarshal : Bytes → Except String (PKIList CKI CAI)) (currBytes : Bytes)
    (currPKI : PKIList CKI CAI)
    (certs : SecretInfoByNamespaceName CKI) (caBundles : ConfigMapInfoByNamespaceName CAI)
    (hdec : unmarshal currBytes = .ok currPKI)
    (herr : (parsePKIInfo unmarshal currBytes certs caBundles).err ≠ none) :
    (parsePKIInfo unmarshal currBytes certs caBundles).err =
      some "mismatch of certificate info" := by
  rw [parsePKIInfo_of_ok unmarshal currBytes currPKI certs caBundles hdec] at herr ⊢
  rcases mergePKIList_err_cases currPKI certs caBundles with h | h
  · exact absurd h herr
  · exact h

/-- C12 as amended, at a concrete input: the conflict on `ns1/secret-a`. -/
theorem C12_conflict_error_is_fixed_text_witness :
    demoUnmarshal [2] = .ok docY ∧
    (parsePKIInfo demoUnmarshal [2] certsX GoMap.empty).err ≠ none ∧
    (parsePKIInfo demoUnmarshal [2] certsX GoMap.empty).err =
      some "mismatch of certificate info" :=
  ⟨rfl, by decide,
    C12_conflict_error_is_fixed_text demoUnmarshal [2] docY certsX GoMap.empty rfl (by decide)⟩

/-- C13 (the code departs from the claim): the embedded directory holds
`a.json` and `b.json`, which decode to snapshots holding `ns1/secret-a` with
"X" and with "Y". `parsePKIInfo` reports the mismatch on the second entry, yet
`GetPKIInfoFromEmbeddedRawData` returns a registry and a nil error, because the
loop drops the value `parsePKIInfo` returns. -/
theorem C13_embedded_conflict_error_is_dropped :
    (demoEmbed [1] [2]).readDir rawTLSRootDir = .ok [⟨"a.json", false⟩, ⟨"b.json", false⟩] ∧
    (demoEmbed [1] [2]).readFile "raw-data/a.json" = .ok [1] ∧
    (demoEmbed [1] [2]).readFile "raw-data/b.json" = .ok [2] ∧
    demoUnmarshal [1] = .ok docX ∧ demoUnmarshal [2] = .ok docY ∧
    (parsePKIInfo demoUnmarshal [2]
        (parsePKIInfo demoUnmarshal [1] GoMap.empty GoMap.empty).certs
        (parsePKIInfo demoUnmarshal [1] GoMap.empty GoMap.empty).caBundles).err =
      some "mismatch of certificate info" ∧
    (GetPKIInfoFromEmbeddedRawData demoUnmarshal (demoEmbed [1] [2])).2 = none ∧
    (GetPKIInfoFromEmbeddedRawData demoUnmarshal (demoEmbed [1] [2])).1 =
      some ⟨[⟨⟨"ns1", "secret-a"⟩, "X"⟩], []⟩ := by
  refine ⟨rfl, rfl, rfl, rfl, rfl, ?_, ?_, ?_⟩ <;> decide

/-- C14: once the listing of the embedded directory succeeds,
`GetPKIInfoFromEmbeddedRawData` returns a nil error and the registry of the run
over the contents of the readable regular entries, in listing order; it returns
the same as on the listing without the unreadable entries and the directories. -/
theorem C14_lenient_embedded_loading {CKI CAI : Type} [DecidableEq CKI] [DecidableEq CAI]
    [Inhabited CKI] [Inhabited CAI]
    (unmarshal : Bytes → Except String (PKIList CKI CAI)) (pkiInfoDir : EmbedFS)
    (dir : List EmbedEntry) (hdir : pkiInfoDir.readDir rawTLSRootDir = .ok dir) :
    GetPKIInfoFromEmbeddedRawData unmarshal pkiInfoDir =
      (some (aggregate unmarshal (embeddedDocs pkiInfoDir dir)), none) ∧
    GetPKIInfoFromEmbeddedRawData unmarshal pkiInfoDir =
      GetPKIInfoFromEmbeddedRawData unmarshal
        ⟨fun _ => .ok (dir.filter (readableRegular pkiInfoDir)), pkiInfoDir.readFile⟩ := by
  have h1 := GetPKIInfoFromEmbeddedRawData_eq_aggregate unmarshal pkiInfoDir dir hdir
  refine ⟨h1, ?_⟩
  rw [h1, GetPKIInfoFromEmbeddedRawData_eq_aggregate unmarshal
    ⟨fun _ => .ok (dir.filter (readableRegular pkiInfoDir)), pkiInfoDir.readFile⟩
    (dir.filter (readableRegular pkiInfoDir)) rfl]
  rw [embeddedDocs_congr
    ⟨fun _ => .ok (dir.filter (readableRegular pkiInfoDir)), pkiInfoDir.readFile⟩
    pkiInfoDir rfl, embeddedDocs_filter]

/-- C14 at a concrete input: the listing holds an unreadable entry and a
directory next to two readable documents. -/
theorem C14_lenient_embedded_loading_witness :
    demoEmbedLenient.readDir rawTLSRootDir =
      .ok [⟨"a.json", false⟩, ⟨"broken.json", false⟩, ⟨"sub", true⟩, ⟨"z.json", false⟩] ∧
    demoEmbedLenient.readFile "raw-data/broken.json" = .error "file does not exist" ∧
    embeddedDocs demoEmbedLenient
      [⟨"a.json", false⟩, ⟨"broken.json", false⟩, ⟨"sub", true⟩, ⟨"z.json", false⟩] =
      [[1], [3]] ∧
    GetPKIInfoFromEmbeddedRawData demoUnmarshal demoEmbedLenient =
      (some (aggregate demoUnmarshal (embeddedDocs demoEmbedLenient
        [⟨"a.json", false⟩, ⟨"broken.json", false⟩, ⟨"sub", true⟩, ⟨"z.json", false⟩])),
       none) :=
  ⟨rfl, rfl, by decide,
    (C14_lenient_embedded_loading demoUnmarshal demoEmbedLenient
      [⟨"a.json", false⟩, ⟨"broken.json", false⟩, ⟨"sub", true⟩, ⟨"z.json", false⟩] rfl).1⟩

/-- C15: on a buffer the decoder rejects `parsePKIInfo` returns the decoder's
error and leaves `certs` and `caBundles` as they were. -/
theorem C15_decode_failure_leaves_maps {CKI CAI : Type} [DecidableEq CKI] [DecidableEq CAI]
    (unmarshal : Bytes → Except String (PKIList CKI CAI)) (currBytes : Bytes) (e : String)
    (certs : SecretInfoByNamespaceName CKI) (caBundles : ConfigMapInfoByNamespaceName CAI)
    (hrej : unmarshal currBytes = .error e) :
    (parsePKIInfo unmarshal currBytes certs caBundles).err = some e ∧
    (parsePKIInfo unmarshal currBytes certs caBundles).certs = certs ∧
    (parsePKIInfo unmarshal currBytes certs caBundles).caBundles = caBundles := by
  rw [parsePKIInfo_of_error unmarshal currBytes e certs caBundles hrej]
  exact ⟨rfl, rfl, rfl⟩

/-- C15 at a concrete input: the rejected buffer `[9]` against the map holding
`ns1/secret-a`. -/
theorem C15_decode_failure_leaves_maps_witness :
    demoUnmarshal [9] = .error "invalid character" ∧
    (parsePKIInfo demoUnmarshal [9] certsX GoMap.empty).err = some "invalid character" ∧
    (parsePKIInfo demoUnmarshal [9] certsX GoMap.empty).certs = certsX ∧
    (parsePKIInfo demoUnmarshal [9] certsX GoMap.empty).caBundles = GoMap.empty :=
  ⟨rfl, C15_decode_failure_leaves_maps demoUnmarshal [9] "invalid character" certsX
    GoMap.empty rfl⟩

/-- C16 (the code departs from the claim): in the tree `dir/sub/c.json` the walk
finds the regular file at the path `dir/sub/c.json`, but the callback reads
`filepath.Join(rawTLSInfoDir, d.Name())`, that is `dir/c.json`, which does not
exist, and the run fails. In the tree with `dir/sub/x.json` and `dir/x.json` it
reads `dir/x.json` twice and never `dir/sub/x.json`. -/
theorem C16_nested_file_read_from_wrong_path :
    demoTreeNested.walk "dir" =
      [⟨"dir", "dir", true, none⟩, ⟨"dir/sub", "sub", true, none⟩,
       ⟨"dir/sub/c.json", "c.json", false, none⟩] ∧
    demoTreeNested.readFile "dir/sub/c.json" = .ok [3] ∧
    filepathJoin "dir" "c.json" = "dir/c.json" ∧
    filepathJoin "dir" "c.json" ≠ "dir/sub/c.json" ∧
    GetPKIInfoFromRawData demoUnmarshal demoTreeNested "dir" =
      (none, some "no such file or directory") ∧
    demoTreeShadow.readFile "dir/sub/x.json" = .ok [3] ∧
    demoTreeShadow.readFile "dir/x.json" = .ok [1] ∧
    walkDocs demoTreeShadow "dir" (demoTreeShadow.walk "dir") = [[1], [1]] ∧
    GetPKIInfoFromRawData demoUnmarshal demoTreeShadow "dir" =
      (some ⟨[⟨⟨"ns1", "secret-a"⟩, "X"⟩], []⟩, none) := by
  refine ⟨rfl, rfl, ?_, ?_, ?_, rfl, rfl, ?_, ?_⟩ <;> decide

/-- C19: a failing `parsePKIInfo` is not undone. When the first conflicting
record is a certificate record `r`, the records before it are stored, the
location of `r` keeps the value it had, nothing after `r` is stored and the
CA-bundle map is untouched; when it is a CA-bundle record, all certificate
records and the CA-bundle records before it are stored. As the enumerators
drop the error, a value a location holds after some of the documents is the
value the returned registry holds for it. -/
theorem C19_failed_merge_keeps_first_values {CKI CAI : Type}
    [DecidableEq CKI] [DecidableEq CAI] [Inhabited CKI] [Inhabited CAI]
    (unmarshal : Bytes → Except String (PKIList CKI CAI)) (currBytes : Bytes)
    (currPKI : PKIList CKI CAI)
    (certs : SecretInfoByNamespaceName CKI) (caBundles : ConfigMapInfoByNamespaceName CAI)
    (hdec : unmarshal currBytes = .ok currPKI) :
    (∀ pre r post v, currPKI.InClusterResourceData.CertKeyPairs = pre ++ r :: post →
      ¬ reachesConflict PKIRegistryInClusterCertKeyPair.SecretLocation
        PKIRegistryInClusterCertKeyPair.CertKeyInfo certs pre →
      (storeAll PKIRegistryInClusterCertKeyPair.SecretLocation
        PKIRegistryInClusterCertKeyPair.CertKeyInfo certs pre).get? r.SecretLocation = some v →
      v ≠ r.CertKeyInfo →
      (parsePKIInfo unmarshal currBytes certs caBundles).err =
        some "mismatch of certificate info" ∧
      (parsePKIInfo unmarshal currBytes certs caBundles).certs =
        storeAll PKIRegistryInClusterCertKeyPair.SecretLocation
          PKIRegistryInClusterCertKeyPair.CertKeyInfo certs pre ∧
      (∀ p ∈ pre, (parsePKIInfo unmarshal currBytes certs caBundles).certs.get?
        p.SecretLocation = some p.CertKeyInfo) ∧
      (parsePKIInfo unmarshal currBytes certs caBundles).certs.get? r.SecretLocation =
        some v ∧
      (∀ L, L ∈ (parsePKIInfo unmarshal currBytes certs caBundles).certs.keys ↔
        L ∈ certs.keys ∨ ∃ p ∈ pre, p.SecretLocation = L) ∧
      (parsePKIInfo unmarshal currBytes certs caBundles).caBundles = caBundles) ∧
    (¬ reachesConflict PKIRegistryInClusterCertKeyPair.SecretLocation
        PKIRegistryInClusterCertKeyPair.CertKeyInfo certs
        currPKI.InClusterResourceData.CertKeyPairs →
      ∀ pre r post v,
      currPKI.InClusterResourceData.CertificateAuthorityBundles = pre ++ r :: post →
      ¬ reachesConflict PKIRegistryInClusterCABundle.ConfigMapLocation
        PKIRegistryInClusterCABundle.CABundleInfo caBundles pre →
      (storeAll PKIRegistryInClusterCABundle.ConfigMapLocation
        PKIRegistryInClusterCABundle.CABundleInfo caBundles pre).get? r.ConfigMapLocation =
        some v →
      v ≠ r.CABundleInfo →
      (parsePKIInfo unmarshal currBytes certs caBundles).err =
        some "mismatch of certificate info" ∧
      (∀ p ∈ currPKI.InClusterResourceData.CertKeyPairs,
        (parsePKIInfo unmarshal currBytes certs caBundles).certs.get? p.SecretLocation =
          some p.CertKeyInfo) ∧
      (parsePKIInfo unmarshal currBytes certs caBundles).caBundles =
        storeAll PKIRegistryInClusterCABundle.ConfigMapLocation
          PKIRegistryInClusterCABundle.CABundleInfo caBundles pre ∧
      (∀ p ∈ pre, (parsePKIInfo unmarshal currBytes certs caBundles).caBundles.get?
        p.ConfigMapLocation = some p.CABundleInfo) ∧
      (parsePKIInfo unmarshal currBytes certs caBundles).caBundles.get? r.ConfigMapLocation =
        some v ∧
      (∀ L, L ∈ (parsePKIInfo unmarshal currBytes certs caBundles).caBundles.keys ↔
        L ∈ caBundles.keys ∨ ∃ p ∈ pre, p.ConfigMapLocation = L)) ∧
    (∀ (docs1 docs2 : List Bytes) L v,
      (ingest unmarshal (GoMap.empty, GoMap.empty) docs1).1.get? L = some v →
      (⟨L, v⟩ : PKIRegistryInClusterCertKeyPair CKI) ∈
        (aggregate unmarshal (docs1 ++ docs2)).CertKeyPairs) ∧
    (∀ (docs1 docs2 : List Bytes) L v,
      (ingest unmarshal (GoMap.empty, GoMap.empty) docs1).2.get? L = some v →
      (⟨L, v⟩ : PKIRegistryInClusterCABundle CAI) ∈
        (aggregate unmarshal (docs1 ++ docs2)).CertificateAuthorityBundles) ∧
    (∀ (pkiInfoDir : EmbedFS) (dir : List EmbedEntry),
      pkiInfoDir.readDir rawTLSRootDir = .ok dir →
      GetPKIInfoFromEmbeddedRawData unmarshal pkiInfoDir =
        (some (aggregate unmarshal (embeddedDocs pkiInfoDir dir)), none)) ∧
    (∀ (fs : DirFS) (rawTLSInfoDir : String),
      (∀ d ∈ fs.walk rawTLSInfoDir, d.err = none ∧
        (d.isDir = false → ∃ b, fs.readFile (filepathJoin rawTLSInfoDir d.name) = .ok b)) →
      GetPKIInfoFromRawData unmarshal fs rawTLSInfoDir =
        (some (aggregate unmarshal (walkDocs fs rawTLSInfoDir (fs.walk rawTLSInfoDir))),
         none)) := by
  rw [parsePKIInfo_of_ok unmarshal currBytes currPKI certs caBundles hdec]
  refine ⟨?_, ?_, ?_, ?_, ?_, ?_⟩
  · intro pre r post v hsplit hpre hv hne
    rw [mergePKIList_cert_conflict currPKI certs caBundles pre r post v hsplit hpre hv hne]
    exact ⟨rfl, rfl, storeAll_stored _ _ pre certs hpre, hv,
      fun L => storeAll_keys _ _ pre certs hpre L, rfl⟩
  · intro hcerts pre r post v hsplit hpre hv hne
    rw [mergePKIList_ca_conflict currPKI certs caBundles pre r post v hcerts hsplit hpre hv hne]
    exact ⟨rfl, storeAll_stored _ _ _ certs hcerts, rfl,
      storeAll_stored _ _ pre caBundles hpre, hv,
      fun L => storeAll_keys _ _ pre caBundles hpre L⟩
  · intro docs1 docs2 L v h
    exact aggregate_first_writer_certs unmarshal docs1 docs2 L v h
  · intro docs1 docs2 L v h
    exact aggregate_first_writer_caBundles unmarshal docs1 docs2 L v h
  · intro pkiInfoDir dir hdir
    exact GetPKIInfoFromEmbeddedRawData_eq_aggregate unmarshal pkiInfoDir dir hdir
  · intro fs rawTLSInfoDir h
    exact GetPKIInfoFromRawData_eq_aggregate unmarshal fs rawTLSInfoDir h

/-- C19 at a concrete input: `docPartial` against the map holding
`ns1/secret-a` with "X". The first record is stored, the second conflicts and
keeps "X", the third record and the CA bundle are not stored. -/
theorem C19_failed_merge_keeps_first_values_witness :
    tableUnmarshal [([5], docPartial)] [5] = .ok docPartial ∧
    (parsePKIInfo (tableUnmarshal [([5], docPartial)]) [5] certsX GoMap.empty).err =
      some "mismatch of certificate info" ∧
    (parsePKIInfo (tableUnmarshal [([5], docPartial)]) [5] certsX GoMap.empty).certs.get?
      ⟨"ns0", "secret-b"⟩ = some "Z" ∧
    (parsePKIInfo (tableUnmarshal [([5], docPartial)]) [5] certsX GoMap.empty).certs.get?
      ⟨"ns1", "secret-a"⟩ = some "X" ∧
    (parsePKIInfo (tableUnmarshal [([5], docPartial)]) [5] certsX GoMap.empty).certs.get?
      ⟨"ns3", "secret-d"⟩ = none ∧
    (parsePKIInfo (tableUnmarshal [([5], docPartial)]) [5] certsX GoMap.empty).caBundles =
      GoMap.empty := by
  have h := (C19_failed_merge_keeps_first_values (tableUnmarshal [([5], docPartial)]) [5]
    docPartial certsX GoMap.empty rfl).1
    [⟨⟨"ns0", "secret-b"⟩, "Z"⟩] ⟨⟨"ns1", "secret-a"⟩, "Y"⟩ [⟨⟨"ns3", "secret-d"⟩, "Q"⟩] "X" rfl
    (fun hc => (mergeLoop_error_iff _ _ _ _).2 hc (by decide)) (by decide) (by decide)
  exact ⟨rfl, h.1, h.2.2.1 _ (List.mem_singleton_self _), h.2.2.2.1, by decide, h.2.2.2.2.2⟩

/-- C17 (the claim fails as stated): a content with two "proxy-ca" bundles of 11
metadata entries each. `pruneSystemTrust` collapses the first to the
placeholder entry and returns; the second keeps its 11 entries, so a "proxy-ca"
item with more than 10 entries remains. -/
theorem C17_second_proxy_ca_is_not_collapsed :
    docTwoProxyCA.CertificateAuthorityBundles.Items.map
        (fun i => (i.LogicalName, i.Spec.CertificateMetadata.length)) =
      [("proxy-ca", 11), ("proxy-ca", 11)] ∧
    (pruneSystemTrust docTwoProxyCA).CertificateAuthorityBundles.Items.map
        (fun i => (i.LogicalName, i.Spec.CertificateMetadata.length)) =
      [("proxy-ca", 1), ("proxy-ca", 11)] ∧
    (pruneSystemTrust docTwoProxyCA).CertificateAuthorityBundles.Items.map
        (fun i => i.Spec.CertificateMetadata) =
      [[syntheticProxyCA], List.replicate 11 (metaOf "system-trust")] ∧
    syntheticProxyCA.CertIdentifier.CommonName = "synthetic-proxy-ca" ∧
    syntheticProxyCA.CertIdentifier.SerialNumber = "0" ∧
    syntheticProxyCA.CertIdentifier.Issuer = none ∧
    ∃ i ∈ (pruneSystemTrust docTwoProxyCA).CertificateAuthorityBundles.Items,
      i.LogicalName = "proxy-ca" ∧ i.Spec.CertificateMetadata.length > 10 := by
  refine ⟨by decide, by decide, by decide, rfl, rfl, rfl, bigProxyCA "second", by decide,
    by decide, by decide⟩

/-- C17 as amended: `pruneSystemTrust` collapses the first oversized "proxy-ca"
bundle. When no item is a "proxy-ca" bundle with more than 10 metadata entries
the content is returned as it is. Otherwise the first such item keeps its
logical name, is named "proxy-ca" and has exactly one metadata entry, the
placeholder with common name "synthetic-proxy-ca", serial number "0" and no
issuer; every other item and the rest of the content are as before; and when no
later item is oversized, no "proxy-ca" item has more than 10 metadata entries
afterwards. -/
theorem C17_first_oversized_proxy_ca_is_collapsed {CKI CAI : Type}
    (pkiList : PKIList CKI CAI) :
    ((∀ c ∈ pkiList.CertificateAuthorityBundles.Items,
        ¬ (c.LogicalName = "proxy-ca" ∧ c.Spec.CertificateMetadata.length > 10)) →
      pruneSystemTrust pkiList = pkiList) ∧
    (∀ pre c post, pkiList.CertificateAuthorityBundles.Items = pre ++ c :: post →
      (∀ p ∈ pre, ¬ (p.LogicalName = "proxy-ca" ∧ p.Spec.CertificateMetadata.length > 10)) →
      c.LogicalName = "proxy-ca" → c.Spec.CertificateMetadata.length > 10 →
      ∃ c2, (pruneSystemTrust pkiList).CertificateAuthorityBundles.Items = pre ++ c2 :: post ∧
        c2.LogicalName = "proxy-ca" ∧ c2.Name = "proxy-ca" ∧
        c2.Spec.CertificateMetadata = [syntheticProxyCA] ∧
        c2.Spec.CertificateMetadata.length = 1 ∧
        syntheticProxyCA.CertIdentifier.CommonName = "synthetic-proxy-ca" ∧
        syntheticProxyCA.CertIdentifier.SerialNumber = "0" ∧
        syntheticProxyCA.CertIdentifier.Issuer = none ∧
        (pruneSystemTrust pkiList).InClusterResourceData = pkiList.InClusterResourceData ∧
        ((∀ p ∈ post,
            ¬ (p.LogicalName = "proxy-ca" ∧ p.Spec.CertificateMetadata.length > 10)) →
          ∀ i ∈ (pruneSystemTrust pkiList).CertificateAuthorityBundles.Items,
            i.LogicalName = "proxy-ca" → i.Spec.CertificateMetadata.length ≤ 10)) := by
  constructor
  · intro h
    have e := pruneItems_of_none pkiList.CertificateAuthorityBundles.Items
      (fun c hc => (oversizedProxyCA_eq_false_iff c).2 (h c hc))
    simp only [pruneSystemTrust, e]
  · intro pre c post hsplit hpre hc1 hc2
    have e := pruneItems_split pre c post
      (fun p hp => (oversizedProxyCA_eq_false_iff p).2 (hpre p hp))
      ((oversizedProxyCA_eq_true_iff c).2 ⟨hc1, hc2⟩)
    refine ⟨collapseProxyCA c, ?_, hc1, rfl, rfl, rfl, rfl, rfl, rfl, rfl, ?_⟩
    · simp only [pruneSystemTrust, hsplit, e]
    · intro hpost i hi
      simp only [pruneSystemTrust, hsplit, e, List.mem_append, List.mem_cons] at hi
      intro hname
      rcases hi with hi | hi | hi
      · have := hpre i hi
        by_contra hlen
        exact this ⟨hname, Nat.lt_of_not_le hlen⟩
      · rw [hi]
        simp [collapseProxyCA]
      · have := hpost i hi
        by_contra hlen
        exact this ⟨hname, Nat.lt_of_not_le hlen⟩

/-- C17 as amended, at a concrete input: in `docTwoProxyCA` the first item is
collapsed and the second is as before. -/
theorem C17_first_oversized_proxy_ca_is_collapsed_witness :
    docTwoProxyCA.CertificateAuthorityBundles.Items =
      [] ++ bigProxyCA "first" :: [bigProxyCA "second"] ∧
    (bigProxyCA "first").LogicalName = "proxy-ca" ∧
    (bigProxyCA "first").Spec.CertificateMetadata.length > 10 ∧
    ∃ c2, (pruneSystemTrust docTwoProxyCA).CertificateAuthorityBundles.Items =
        [] ++ c2 :: [bigProxyCA "second"] ∧
      c2.Name = "proxy-ca" ∧ c2.Spec.CertificateMetadata = [syntheticProxyCA] := by
  refine ⟨rfl, rfl, by decide, ?_⟩
  rcases (C17_first_oversized_proxy_ca_is_collapsed docTwoProxyCA).2 []
    (bigProxyCA "first") [bigProxyCA "second"] rfl (by simp) rfl (by decide)
    with ⟨c2, h1, _, h3, h4, _⟩
  exact ⟨c2, h1, h3, h4⟩

/-- C18 (the code departs from the claim): the live content and the baseline
both hold `ns1/secret-a` with "X", so the only live record is found with equal
metadata. With a failure message in the shape of the `Equal` matcher's, which
renders both values without comparing them, the message list is not empty: it
holds a text for the matching record, whatever the visiting orders of the
`range` statements. With a failure message that is empty on equal values the
list is empty. -/
theorem C18_matching_record_is_reported :
    docX.InClusterResourceData.CertKeyPairs = [⟨⟨"ns1", "secret-a"⟩, "X"⟩] ∧
    docX.InClusterResourceData.CertificateAuthorityBundles = [] ∧
    locateFirstCertKeyPair ⟨"ns1", "secret-a"⟩
        [(⟨⟨"ns1", "secret-a"⟩, "X"⟩ : PKIRegistryInClusterCertKeyPair String)] =
      some ⟨⟨"ns1", "secret-a"⟩, "X"⟩ ∧
    (∀ range98 range103 range123,
      allTLSArtifactsMustBeKnown locateFirstCertKeyPair locateFirstCABundle
        equalFailureMessage equalFailureMessage range98 range103 range123
        docX ⟨[⟨⟨"ns1", "secret-a"⟩, "X"⟩], []⟩ =
      ["--namespace=ns1, secret/secret-a:\nExpected\n    X\nto equal\n    X\n"]) ∧
    (∀ range98 range103 range123,
      allTLSArtifactsMustBeKnown locateFirstCertKeyPair locateFirstCABundle
        diffFailureMessage diffFailureMessage range98 range103 range123
        docX ⟨[⟨⟨"ns1", "secret-a"⟩, "X"⟩], []⟩ = []) := by
  refine ⟨rfl, rfl, by decide, ?_, ?_⟩
  · intro range98 range103 range123
    rfl
  · intro range98 range103 range123
    rfl

/-- C20: the message list of the test is made of five blocks in this order: the
texts of the certificate loop, one "Unregistered TLS artifact" text per
unregistered secret location, the same texts a second time, the texts of the
CA-bundle loop, and one "Unregistered TLS artifact" text per unregistered
configmap location. The unregistered locations are the distinct live
locations the lookup misses, and inside each of the three reporting blocks the
order is the one its `range` statement happens to choose. So there are
`2 * |U_s|` texts for secrets and `|U_c|` for configmaps, and
`2 * |U_s| + |U_c|` messages begin with "Unregistered TLS artifact: ". -/
theorem C20_unregistered_report_counts {CKI CAI : Type}
    (locateCertKeyPair : InClusterSecretLocation → List (PKIRegistryInClusterCertKeyPair CKI) →
      Option (PKIRegistryInClusterCertKeyPair CKI))
    (locateCertificateAuthorityBundle : InClusterConfigMapLocation →
      List (PKIRegistryInClusterCABundle CAI) → Option (PKIRegistryInClusterCABundle CAI))
    (failureMessageCert : CKI → CKI → String) (failureMessageCA : CAI → CAI → String)
    (range98 range103 : RangeOrder InClusterSecretLocation (PKIRegistryInClusterCertKeyPair CKI))
    (range123 : RangeOrder InClusterConfigMapLocation (PKIRegistryInClusterCABundle CAI))
    (actualPKIContent : PKIList CKI CAI) (expectedPKIContent : PKIRegistryInfo CKI CAI) :
    ∃ (Us : List InClusterSecretLocation) (Uc : List InClusterConfigMapLocation)
      (Ms Mc S1 S2 C3 : List String),
      Us.Nodup ∧
      (∀ L, L ∈ Us ↔
        (∃ r ∈ actualPKIContent.InClusterResourceData.CertKeyPairs, r.SecretLocation = L) ∧
        locateCertKeyPair L expectedPKIContent.CertKeyPairs = none) ∧
      Uc.Nodup ∧
      (∀ L, L ∈ Uc ↔
        (∃ r ∈ actualPKIContent.InClusterResourceData.CertificateAuthorityBundles,
          r.ConfigMapLocation = L) ∧
        locateCertificateAuthorityBundle L expectedPKIContent.CertificateAuthorityBundles =
          none) ∧
      (∀ m ∈ Ms, ∃ L e, m = secretMismatchMessage L e) ∧
      (∀ m ∈ Mc, ∃ L e, m = configMapMismatchMessage L e) ∧
      S1.Perm (Us.map secretUnregisteredText) ∧
      S2.Perm (Us.map secretUnregisteredText) ∧
      C3.Perm (Uc.map configMapUnregisteredText) ∧
      allTLSArtifactsMustBeKnown locateCertKeyPair locateCertificateAuthorityBundle
          failureMessageCert failureMessageCA range98 range103 range123
          actualPKIContent expectedPKIContent =
        Ms ++ (S1 ++ S2) ++ Mc ++ C3 ∧
      (S1 ++ S2).length = 2 * Us.length ∧
      C3.length = Uc.length ∧
      (∀ t, (S1 ++ S2).count t = 2 * (Us.map secretUnregisteredText).count t) ∧
      (∀ t, C3.count t = (Uc.map configMapUnregisteredText).count t) ∧
      ((allTLSArtifactsMustBeKnown locateCertKeyPair locateCertificateAuthorityBundle
          failureMessageCert failureMessageCA range98 range103 range123
          actualPKIContent expectedPKIContent).filter
            isUnregisteredText).length = 2 * Us.length + Uc.length := by
  have hMs : ∀ m ∈ (checkLoop PKIRegistryInClusterCertKeyPair.SecretLocation
      PKIRegistryInClusterCertKeyPair.CertKeyInfo locateCertKeyPair failureMessageCert
      secretMismatchMessage expectedPKIContent.CertKeyPairs ([], GoMap.empty)
      actualPKIContent.InClusterResourceData.CertKeyPairs).1,
      ∃ L e, m = secretMismatchMessage L e := by
    intro m hm
    rcases checkLoop_messages _ _ _ _ _ _ _ _ m hm with h | ⟨r, _, e, _, _, h⟩
    · simp at h
    · exact ⟨_, _, h⟩
  have hMc : ∀ m ∈ (checkLoop PKIRegistryInClusterCABundle.ConfigMapLocation
      PKIRegistryInClusterCABundle.CABundleInfo locateCertificateAuthorityBundle
      failureMessageCA configMapMismatchMessage
      expectedPKIContent.CertificateAuthorityBundles ([], GoMap.empty)
      actualPKIContent.InClusterResourceData.CertificateAuthorityBundles).1,
      ∃ L e, m = configMapMismatchMessage L e := by
    intro m hm
    rcases checkLoop_messages _ _ _ _ _ _ _ _ m hm with h | ⟨r, _, e, _, _, h⟩
    · simp at h
    · exact ⟨_, _, h⟩
  have hs := checkLoop_entries PKIRegistryInClusterCertKeyPair.SecretLocation
    PKIRegistryInClusterCertKeyPair.CertKeyInfo locateCertKeyPair failureMessageCert
    secretMismatchMessage expectedPKIContent.CertKeyPairs
    actualPKIContent.InClusterResourceData.CertKeyPairs ([], GoMap.empty)
    (by intro e he; simp [GoMap.empty] at he)
  have hc := checkLoop_entries PKIRegistryInClusterCABundle.ConfigMapLocation
    PKIRegistryInClusterCABundle.CABundleInfo locateCertificateAuthorityBundle
    failureMessageCA configMapMismatchMessage
    expectedPKIContent.CertificateAuthorityBundles
    actualPKIContent.InClusterResourceData.CertificateAuthorityBundles ([], GoMap.empty)
    (by intro e he; simp [GoMap.empty] at he)
  have p1 := visit_map_perm_map_keys PKIRegistryInClusterCertKeyPair.SecretLocation
    secretUnregisteredText range98 _ hs
  have p2 := visit_map_perm_map_keys PKIRegistryInClusterCertKeyPair.SecretLocation
    secretUnregisteredText range103 _ hs
  have p3 := visit_map_perm_map_keys PKIRegistryInClusterCABundle.ConfigMapLocation
    configMapUnregisteredText range123 _ hc
  have f1 := filter_eq_nil_of_all_false isUnregisteredText _ (fun m hm => by
    rcases hMs m hm with ⟨L, e, h⟩
    rw [h]; exact isUnregisteredText_secretMismatchMessage L e)
  have f2 := filter_eq_nil_of_all_false isUnregisteredText _ (fun m hm => by
    rcases hMc m hm with ⟨L, e, h⟩
    rw [h]; exact isUnregisteredText_configMapMismatchMessage L e)
  have g1 := filter_eq_self_of_all_true isUnregisteredText _ (fun m hm => by
    rcases List.mem_map.1 (p1.mem_iff.1 hm) with ⟨L, _, h⟩
    rw [← h]; exact isUnregisteredText_secretUnregisteredText L)
  have g2 := filter_eq_self_of_all_true isUnregisteredText _ (fun m hm => by
    rcases List.mem_map.1 (p2.mem_iff.1 hm) with ⟨L, _, h⟩
    rw [← h]; exact isUnregisteredText_secretUnregisteredText L)
  have g3 := filter_eq_self_of_all_true isUnregisteredText _ (fun m hm => by
    rcases List.mem_map.1 (p3.mem_iff.1 hm) with ⟨L, _, h⟩
    rw [← h]; exact isUnregisteredText_configMapUnregisteredText L)
  have l1 := p1.length_eq.trans (List.length_map _ _)
  have l2 := p2.length_eq.trans (List.length_map _ _)
  have l3 := p3.length_eq.trans (List.length_map _ _)
  refine ⟨_, _, _, _, _, _, _, GoMap.nodup_keys _, ?_, GoMap.nodup_keys _, ?_, hMs, hMc,
    p1, p2, p3,
    allTLSArtifactsMustBeKnown_eq locateCertKeyPair locateCertificateAuthorityBundle
      failureMessageCert failureMessageCA range98 range103 range123
      actualPKIContent expectedPKIContent, ?_, l3, ?_, ?_, ?_⟩
  · intro L
    rw [checkLoop_keys]
    simp only [GoMap.keys_empty, List.not_mem_nil, false_or]
    constructor
    · rintro ⟨r, hr, hk, hl⟩
      exact ⟨⟨r, hr, hk⟩, hl⟩
    · rintro ⟨⟨r, hr, hk⟩, hl⟩
      exact ⟨r, hr, hk, hl⟩
  · intro L
    rw [checkLoop_keys]
    simp only [GoMap.keys_empty, List.not_mem_nil, false_or]
    constructor
    · rintro ⟨r, hr, hk, hl⟩
      exact ⟨⟨r, hr, hk⟩, hl⟩
    · rintro ⟨⟨r, hr, hk⟩, hl⟩
      exact ⟨r, hr, hk, hl⟩
  · rw [List.length_append, l1, l2]
    omega
  · intro t
    rw [List.count_append, p1.count_eq t, p2.count_eq t]
    omega
  · intro t
    exact p3.count_eq t
  · rw [allTLSArtifactsMustBeKnown_eq]
    simp only [List.filter_append, f1, f2, g1, g2, g3, List.length_append, List.length_nil,
      l1, l2, l3]
    omega

end Claims

end Certs


